import Mathlib

/-!
# ControlMotor: serial command/response protocol engine

A shallow embedding of the protocol logic of `TinyBeeController`
(src/TinybeeController.cpp), of the send, receive and jog paths of
`MotorControlWidget` (src/MotorControlWidget.cpp) and of their counterparts in
the earlier `MainWindow` (src/backup/mainwindow.cpp), followed by theorems
about it.

Conventions of the embedding

* `QString` is a list of characters, `QByteArray` a list of bytes.
* Qt library calls used by the code (`trimmed`, `arg`, `split`, `toDouble`,
  number rendering, the match of the position pattern) are modelled after
  Qt's documented behaviour in the sections "Qt primitives".
* A C++ `double` is the value type `Double` below (NaN, signed infinity, or a
  signed dyadic number), so that `== 0`, `!= 0`, addition with IEEE 754
  rounding, parsing and rendering can be evaluated.
* Member functions become functions on an explicit state record; the emitted
  signals and the bytes handed to the serial port are logged in the state.
* What the serial device and the clock do during a call (whether a write
  succeeds, which bytes each read delivers, the clock readings) is an explicit
  argument of the call.
* The embedding is sequential: `m_mutex` and the `readyRead` slot of
  `TinyBeeController` are not part of the state, and debug output (`qInfo`,
  `qWarning`, `qCritical`) is left out. Where `sendCommand` locks and unlocks
  `m_mutex` and where it blocks is given separately, as the list of these
  events in program order (`sendCommandOps`), and the wait with the slot
  connected and the mutex state explicit is `waitForResponseConnected`; the
  sequential `waitForResponse` is what that function does when the mutex is
  free at the wait, and it is used for statements about runs that return.
* `waitForResponse` is given twice: over passes with one clock reading each,
  every wait returning, and over passes with the two clock readings of the
  source (`waitForResponseClocked`), where a wait entered with -1 need not
  return; the two agree whenever no wait is entered with -1.
* Of the widgets only the protocol state is kept: time stamps in the status
  log and the display state of the controls are left out; what a slot reads
  from its sender is an argument of the slot.
-/

namespace ControlMotor

/-! ## Qt primitives -/

/-- A `QString`, as the list of its characters. -/
abbrev QString := List Char

/-- A byte of a `QByteArray`. -/
abbrev Byte := Fin 256

/-- A `QByteArray`, as the list of its bytes. -/
abbrev QByteArray := List Byte

/-- Helper of `QChar::isSpace` for code points above 127: the Unicode separator
categories Zs, Zl and Zp. -/
def isSpace_helper (u : Nat) : Bool :=
  u == 0x1680 || (0x2000 ≤ u && u ≤ 0x200a) || u == 0x2028 || u == 0x2029 ||
    u == 0x202f || u == 0x205f || u == 0x3000

/-- The test `QChar::isSpace`: space, the controls U+0009..U+000D, U+0085,
U+00A0 and the Unicode separators. -/
def isSpace (c : Char) : Bool :=
  let u := c.toNat
  u == 0x20 || (0x09 ≤ u && u ≤ 0x0d) ||
    (decide (127 < u) && (u == 0x85 || u == 0xa0 || isSpace_helper u))

/-- The result of `QString::trimmed`: whitespace removed from both ends. -/
def trimmed (s : QString) : QString :=
  ((s.dropWhile isSpace).reverse.dropWhile isSpace).reverse

/-- Value of an ASCII decimal digit, as tested by `QString::arg` when it looks
for place markers. -/
def digitValue (c : Char) : Option Nat :=
  if 48 ≤ c.toNat ∧ c.toNat ≤ 57 then some (c.toNat - 48) else none

/-- A piece of a format string as seen by `QString::arg`: a literal character
or a place marker `%N` / `%LN` with its number and its source text. -/
inductive ArgPiece where
  | text (c : Char)
  | escape (number : Nat) (source : List Char)
  deriving DecidableEq, Repr

/-- Scanner state of `findArgEscapes`. -/
inductive ScanState where
  | plain
  | percent
  | percentL
  | digit (number : Nat) (source : List Char)

/-- The place-marker scan of `QString::arg` (Qt's `findArgEscapes`): a `%`,
an optional `L`, then one or two decimal digits form a place marker; anything
else is literal text. -/
def scanArg : ScanState → List Char → List ArgPiece
  | .plain, [] => []
  | .plain, c :: cs =>
    if c = '%' then scanArg .percent cs else .text c :: scanArg .plain cs
  | .percent, [] => [.text '%']
  | .percent, c :: cs =>
    if c = 'L' then scanArg .percentL cs
    else match digitValue c with
      | some n => scanArg (.digit n ['%', c]) cs
      | none =>
        if c = '%' then .text '%' :: scanArg .percent cs
        else .text '%' :: .text c :: scanArg .plain cs
  | .percentL, [] => [.text '%', .text 'L']
  | .percentL, c :: cs =>
    match digitValue c with
    | some n => scanArg (.digit n ['%', 'L', c]) cs
    | none =>
      if c = '%' then .text '%' :: .text 'L' :: scanArg .percent cs
      else .text '%' :: .text 'L' :: .text c :: scanArg .plain cs
  | .digit n src, [] => [.escape n src]
  | .digit n src, c :: cs =>
    match digitValue c with
    | some m => .escape (10 * n + m) (src ++ [c]) :: scanArg .plain cs
    | none =>
      if c = '%' then .escape n src :: scanArg .percent cs
      else .escape n src :: .text c :: scanArg .plain cs

/-- The lowest place-marker number among the pieces, if there is a marker. -/
def minEscape : List ArgPiece → Option Nat
  | [] => none
  | .text _ :: ps => minEscape ps
  | .escape n _ :: ps =>
    match minEscape ps with
    | none => some n
    | some m => some (min n m)

/-- Replace every marker numbered `m` by `a`; other markers keep their source
text (Qt's `replaceArgEscapes` with field width 0). -/
def replaceArgEscapes (m : Nat) (a : QString) : List ArgPiece → QString
  | [] => []
  | .text c :: ps => c :: replaceArgEscapes m a ps
  | .escape n src :: ps =>
    (if n = m then a else src) ++ replaceArgEscapes m a ps

/-- The call `QString::arg(a)`: every occurrence of the lowest-numbered place
marker is replaced by `a`; a string without marker is returned unchanged. -/
def arg (s a : QString) : QString :=
  match minEscape (scanArg .plain s) with
  | none => s
  | some m => replaceArgEscapes m a (scanArg .plain s)

/-- Decimal digits of a natural number. -/
def decDigits (n : Nat) : QString := Nat.toDigits 10 n

/-- Rendering of a C++ `int` by `QString::arg(int)`: base 10, field width 0. -/
def argInt (i : Int) : QString :=
  if i < 0 then '-' :: decDigits i.natAbs else decDigits i.natAbs

/-- A C++ `double`: NaN, a signed infinity, or the signed dyadic number
`± mantissa * 2 ^ exponent` (both zeros are `finite _ 0 _`). -/
inductive Double where
  | nan
  | inf (negative : Bool)
  | finite (negative : Bool) (mantissa : Nat) (exponent : Int)
  deriving DecidableEq, Repr

namespace Double

/-- The comparison `d == 0` of C++: true exactly for the two zeros. -/
def isZero : Double → Bool
  | finite _ m _ => m == 0
  | _ => false

/-- The predicate `std::isfinite`. -/
def isFinite : Double → Bool
  | finite _ _ _ => true
  | _ => false

/-- A double holding the integer `i`. -/
def ofInt (i : Int) : Double := finite (decide (i < 0)) i.natAbs 0

/-- The magnitude `mantissa * 2 ^ exponent` in thousandths, rounded to the
nearest integer (a tie rounds away from zero). -/
def thousandths (m : Nat) (e : Int) : Nat :=
  if 0 ≤ e then m * 2 ^ e.toNat * 1000
  else (2 * (m * 1000) + 2 ^ (-e).toNat) / (2 * 2 ^ (-e).toNat)

end Double

/-- Three decimal digits of a number below 1000. -/
def pad3 (r : Nat) : QString :=
  [Nat.digitChar (r / 100 % 10), Nat.digitChar (r / 10 % 10), Nat.digitChar (r % 10)]

/-- Rendering of a double by `QString::arg(d, 0, 'f', 3)`: fixed-point with
three decimals for a finite value (no sign on a zero), `nan`, `inf` or `-inf`
otherwise. -/
def argF3 : Double → QString
  | .nan => "nan".toList
  | .inf neg => if neg then "-inf".toList else "inf".toList
  | .finite neg m e =>
    let q := Double.thousandths m e
    (if neg && m != 0 then ['-'] else []) ++ decDigits (q / 1000) ++ '.' :: pad3 (q % 1000)

/-! ## Commands (src/TinybeeController.h) -/

/-- The C++ enum `GCodeCommandType`. -/
inductive GCodeCommandType where
  | FirmwareInfo
  | Home
  | Move
  | EmergencyStop
  | Custom
  deriving DecidableEq, Repr

/-- The C++ struct `GCodeCommand`. -/
structure GCodeCommand where
  type : GCodeCommandType
  motorIndex : Int
  x : Double
  y : Double
  z : Double
  feedrate : Int
  customCommand : QString
  deriving DecidableEq, Repr

/-- Conversions between text and bytes (`QString::toUtf8`,
`QString::fromUtf8`), supplied by the Qt library. -/
structure TextCodec where
  toUtf8 : QString → QByteArray
  fromUtf8 : QByteArray → QString

/-- A codec that maps a character to the byte of its code point and back; it
agrees with UTF-8 on ASCII text. -/
def asciiCodec : TextCodec where
  toUtf8 := fun s => s.map fun c => Fin.ofNat c.toNat
  fromUtf8 := fun b => b.map fun x => Char.ofNat x.val

/-- The serial device as the engine sees it: whether it is open, and every
buffer handed to `write`, oldest first. -/
structure QSerialPort where
  isOpen : Bool
  written : List QByteArray
  deriving DecidableEq, Repr

/-- The call `QSerialPort::write(data)`. -/
def QSerialPort.write (p : QSerialPort) (data : QByteArray) : QSerialPort :=
  { p with written := p.written ++ [data] }

/-! ## TinyBeeController (src/TinybeeController.cpp) -/

/-- Signals of `TinyBeeController`. -/
inductive Signal where
  | connected
  | disconnected
  | errorOccurred (error : QString)
  | positionUpdated (x y z : Double)
  | logMessage (msg : QString)
  deriving DecidableEq, Repr

/-- The member variables of `TinyBeeController`, with the signals emitted so
far (oldest first). -/
structure TinyBeeController where
  m_serial : QSerialPort
  m_responseBuffer : QByteArray
  m_connected : Bool
  m_hasError : Bool
  emitted : List Signal
  deriving DecidableEq, Repr

/-- One pass of the loop of `waitForResponse`, as supplied by the clock and the
device: the value of `timer.elapsed()` at the loop test, the result of
`waitForReadyRead`, and the bytes `readAll` returns after a successful wait. -/
structure WaitStep where
  elapsed : Int
  ready : Bool
  data : QByteArray
  deriving DecidableEq, Repr

/-- The behaviour of the device during one `sendCommand`: whether `write`
succeeds (does not return -1), the result of `waitForBytesWritten`, and the
passes of the response wait until the clock has run past the timeout. -/
structure DeviceReply where
  writeOk : Bool
  bytesWritten : Bool
  reads : List WaitStep
  deriving DecidableEq, Repr

/-- Test `QByteArray::contains` for a byte sequence. -/
def containsBytes (b pat : QByteArray) : Bool :=
  b.tails.any fun t => pat.isPrefixOf t

/-- Test `QByteArray::endsWith` for one byte. -/
def endsWithByte (b : QByteArray) (x : Byte) : Bool :=
  b.getLast? == some x

/-- Test `QString::endsWith` for one character. -/
def endsWithChar (s : QString) (c : Char) : Bool :=
  s.getLast? == some c

/-- The bytes of the literal "\nok". -/
def newlineOk : QByteArray := [10, 111, 107]

/-- The completion test of `waitForResponse` (line 171). -/
def responseComplete (b : QByteArray) : Bool :=
  containsBytes b newlineOk || endsWithByte b 10

namespace TinyBeeController

/-- Member `isConnected`. -/
def isConnected (self : TinyBeeController) : Bool :=
  self.m_connected && self.m_serial.isOpen

/-- Member `buildCommandString`, a const member function. -/
def buildCommandString (_self : TinyBeeController) (cmd : GCodeCommand) : QString :=
  match cmd.type with
  | .FirmwareInfo => "M115\n".toList
  | .Home =>
    if cmd.x.isZero && cmd.y.isZero && cmd.z.isZero then
      "G28\n".toList
    else
      let axes : QString := []
      let axes := if !cmd.x.isZero then axes ++ " X".toList else axes
      let axes := if !cmd.y.isZero then axes ++ " Y".toList else axes
      let axes := if !cmd.z.isZero then axes ++ " Z".toList else axes
      arg "G28%1\n".toList axes
  | .Move =>
    arg (arg (arg (arg "G1 X%1 Y%2 Z%3 F%4\n".toList (argF3 cmd.x)) (argF3 cmd.y))
      (argF3 cmd.z)) (argInt cmd.feedrate)
  | .EmergencyStop => "M112\n".toList
  | .Custom => trimmed cmd.customCommand ++ "\n".toList

/-- Emit a signal. -/
def emit (self : TinyBeeController) (s : Signal) : TinyBeeController :=
  { self with emitted := self.emitted ++ [s] }

/-- Member `waitForResponse`: returns the result flag, `outResponse` and the
state afterwards. The loop runs over the passes supplied by the device; when
they are used up the clock has passed the timeout. Every wait is taken to
return with nothing else run: the `readyRead` slot is left out here, see
`waitForResponseConnected`. -/
def waitForResponse (codec : TextCodec) (self : TinyBeeController) (timeoutMs : Int) :
    List WaitStep → Bool × QString × TinyBeeController
  | [] => (false, [], self)
  | step :: rest =>
    if step.elapsed < timeoutMs then
      if step.ready then
        let self1 := { self with m_responseBuffer := self.m_responseBuffer ++ step.data }
        if responseComplete self1.m_responseBuffer then
          (true, codec.fromUtf8 self1.m_responseBuffer, { self1 with m_responseBuffer := [] })
        else
          waitForResponse codec self1 timeoutMs rest
      else
        waitForResponse codec self timeoutMs rest
    else
      (false, [], self)

/-- Member `sendCommand`. The caller's `response` pointer is `none` for a null
pointer and `some old` for a string currently holding `old`; the second
component of the result is what the pointer refers to afterwards. -/
def sendCommand (codec : TextCodec) (self : TinyBeeController) (cmd : GCodeCommand)
    (response : Option QString) (timeoutMs : Int) (dev : DeviceReply) :
    Bool × Option QString × TinyBeeController :=
  if !self.isConnected then
    let err := "Cannot send command: Not connected to serial port".toList
    (false, response, self.emit (.errorOccurred err))
  else
    let cmdStr := buildCommandString self cmd
    if cmdStr.isEmpty then
      (false, response, self)
    else
      let self1 := { self with m_responseBuffer := [] }
      let data := codec.toUtf8 cmdStr
      let self2 := { self1 with m_serial := self1.m_serial.write data }
      if !dev.writeOk then
        let err := arg "Failed to write command to serial port: %1".toList (trimmed cmdStr)
        (false, response, self2.emit (.errorOccurred err))
      else if !dev.bytesWritten then
        let err := arg "Timeout waiting for bytes to be written: %1".toList (trimmed cmdStr)
        (false, response, self2.emit (.errorOccurred err))
      else
        match waitForResponse codec self2 timeoutMs dev.reads with
        | (false, _, self3) =>
          let err := arg "Timeout or incomplete response for command: %1".toList (trimmed cmdStr)
          (false, response, self3.emit (.errorOccurred err))
        | (true, resp, self3) =>
          let resp := trimmed resp
          (true, response.map (fun _ => resp), self3)

end TinyBeeController

/-! ## MotorControlWidget (src/MotorControlWidget.cpp) -/

/-- The C++ struct `AxisMeasurement`. -/
structure AxisMeasurement where
  min : Double
  mid : Double
  max : Double
  deriving DecidableEq, Repr

/-- Signals of `MotorControlWidget`. -/
inductive WidgetSignal where
  | connectionStatusChanged (connected : Bool)
  | positionChanged (axis : QString) (position : Double)
  | errorOccurred (error : QString)
  | commandExecuted (command : QString) (response : QString)
  deriving DecidableEq, Repr

/-- The colours of received lines in the status log. -/
inductive Colour where
  | green
  | red
  | gray
  | blue
  deriving DecidableEq, Repr

/-- A line appended to the status log: a message of `updateStatus`, the "TX"
record of a sent command, or the "RX" record of a received line with its
colour (time stamps are left out). -/
inductive LogLine where
  | status (message : QString)
  | tx (command : QString)
  | rx (colour : Colour) (line : QString)
  deriving DecidableEq, Repr

/-- The protocol state of `MotorControlWidget`: its serial port, its data
members, the status log and the signals emitted so far. -/
structure MotorControlWidget where
  serial : QSerialPort
  connected : Bool
  measX : AxisMeasurement
  measY : AxisMeasurement
  measZ : AxisMeasurement
  buffer : QByteArray
  lastPosX : Double
  lastPosY : Double
  lastPosZ : Double
  statusLog : List LogLine
  emitted : List WidgetSignal
  deriving DecidableEq, Repr

namespace MotorControlWidget

/-- Member `isConnected`. -/
def isConnected (self : MotorControlWidget) : Bool :=
  self.connected && self.serial.isOpen

/-- Member `updateStatus`. -/
def updateStatus (self : MotorControlWidget) (message : QString) : MotorControlWidget :=
  { self with statusLog := self.statusLog ++ [LogLine.status message] }

/-- Emit a signal. -/
def emit (self : MotorControlWidget) (s : WidgetSignal) : MotorControlWidget :=
  { self with emitted := self.emitted ++ [s] }

/-- Slot `sendCustomCommand`. -/
def sendCustomCommand (codec : TextCodec) (self : MotorControlWidget) (command : QString) :
    MotorControlWidget :=
  if !self.isConnected then
    (self.updateStatus "Error: Not connected to serial port".toList).emit
      (.errorOccurred "Not connected to serial port".toList)
  else
    let trimmedCmd := trimmed command
    if trimmedCmd.isEmpty then
      self.updateStatus "Error: Empty command".toList
    else
      let cmd := trimmedCmd
      let cmd := if !endsWithChar cmd '\n' then cmd ++ ['\n'] else cmd
      let self1 := { self with serial := self.serial.write (codec.toUtf8 cmd) }
      let self2 := { self1 with statusLog := self1.statusLog ++ [LogLine.tx trimmedCmd] }
      let self3 := self2.updateStatus ("Sent: ".toList ++ trimmedCmd)
      self3.emit (.commandExecuted (trimmed command) [])

end MotorControlWidget

/-! ## Spec-side predicates and sample values -/

/-- A text without its leading minus sign, if it has one. -/
def dropSign : QString → QString
  | '-' :: t => t
  | s => s

/-- Spec-side predicate, fixed-point notation with exactly three digits after
the decimal point: an optional minus sign, at least one digit, a point, three
digits. -/
def isFixed3 (s : QString) : Bool :=
  !((dropSign s).takeWhile Char.isDigit).isEmpty &&
    match (dropSign s).dropWhile Char.isDigit with
    | ['.', a, b, c] => a.isDigit && b.isDigit && c.isDigit
    | _ => false

/-- An engine with an open port in state Connected, nothing sent or received. -/
def connectedEngine : TinyBeeController :=
  { m_serial := { isOpen := true, written := [] }, m_responseBuffer := [],
    m_connected := true, m_hasError := false, emitted := [] }

/-- A command of the given type with the default member values of the struct
and the given coordinates. -/
def mkCommand (t : GCodeCommandType) (x y z : Double) : GCodeCommand :=
  { type := t, motorIndex := -1, x := x, y := y, z := z, feedrate := 1000,
    customCommand := [] }

/-- An engine that was never connected: port closed, state Disconnected. -/
def disconnectedEngine : TinyBeeController :=
  { m_serial := { isOpen := false, written := [] }, m_responseBuffer := [120],
    m_connected := false, m_hasError := false, emitted := [] }

/-- The measurement record of an axis on which nothing was marked. -/
def unmarked : AxisMeasurement := { min := .nan, mid := .nan, max := .nan }

/-- A widget with the given connection flag and port state, nothing sent or
received. -/
def mkWidget (connected isOpen : Bool) : MotorControlWidget :=
  { serial := { isOpen := isOpen, written := [] }, connected := connected,
    measX := unmarked, measY := unmarked, measZ := unmarked, buffer := [],
    lastPosX := .ofInt 0, lastPosY := .ofInt 0, lastPosZ := .ofInt 0,
    statusLog := [], emitted := [] }

/-- A custom command with the given raw text. -/
def customCommand (text : QString) : GCodeCommand :=
  { mkCommand .Custom (.ofInt 0) (.ofInt 0) (.ofInt 0) with customCommand := text }

/-- The bytes delivered by a run of loop passes of `waitForResponse`: the data
of the passes whose wait succeeded, in order. -/
def received : List WaitStep → QByteArray
  | [] => []
  | s :: rest => if s.ready then s.data ++ received rest else received rest

/-- A successful wait at the given clock reading that delivers the given text. -/
def readText (elapsed : Int) (text : String) : WaitStep :=
  { elapsed := elapsed, ready := true, data := asciiCodec.toUtf8 text.toList }

/-! ## Qt primitives: floating-point values -/

namespace Double

/-- Remove up to `k` trailing zero bits of a mantissa, raising the exponent. -/
def stripZeros : Nat → Nat → Int → Nat × Int
  | 0, m, e => (m, e)
  | k + 1, m, e => if m % 2 = 0 then stripZeros k (m / 2) (e + 1) else (m, e)

/-- The canonical form of a value: a zero is `finite _ 0 0`, an integer has
exponent 0, any other finite value has an odd mantissa. -/
def canon : Double → Double
  | finite neg m e =>
    if m = 0 then finite neg 0 0
    else if 0 ≤ e then finite neg (m * 2 ^ e.toNat) 0
    else finite neg (stripZeros (-e).toNat m e).1 (stripZeros (-e).toNat m e).2
  | d => d

/-- Number of binary digits of `n`, counted in at most `fuel` halvings. -/
def bitLengthAux : Nat → Nat → Nat
  | 0, _ => 0
  | fuel + 1, n => if n = 0 then 0 else bitLengthAux fuel (n / 2) + 1

/-- Number of binary digits of a natural number. -/
def bitLength (n : Nat) : Nat := bitLengthAux n n

/-- Integer part of `num / den / 2 ^ e`. -/
def scaledFloor (num den : Nat) (e : Int) : Nat :=
  if 0 ≤ e then num / (den * 2 ^ e.toNat) else num * 2 ^ (-e).toNat / den

/-- The IEEE 754 binary64 value nearest to `± num / den` (ties to even):
53 significant bits, least exponent -1074, infinity from `2 ^ 1024` on. -/
def ofRat (neg : Bool) (num den : Nat) : Double :=
  if num = 0 then finite neg 0 0
  else
    let e0 : Int := (bitLength num : Int) - (bitLength den : Int) - 53
    let e1 : Int := if scaledFloor num den e0 < 2 ^ 53 then e0 else e0 + 1
    let e : Int := max e1 (-1074)
    let n1 : Nat := if 0 ≤ e then num else num * 2 ^ (-e).toNat
    let d1 : Nat := if 0 ≤ e then den * 2 ^ e.toNat else den
    let q : Nat := n1 / d1
    let r : Nat := n1 % d1
    let q1 : Nat := if d1 < 2 * r ∨ (2 * r = d1 ∧ q % 2 = 1) then q + 1 else q
    if 971 < e ∨ (e = 971 ∧ 2 ^ 53 ≤ q1) then inf neg else canon (finite neg q1 e)

/-- Unary minus. -/
def neg : Double → Double
  | nan => nan
  | inf s => inf (!s)
  | finite s m e => finite (!s) m e

/-- A mantissa with its sign, as an integer. -/
def signed (s : Bool) (m : Nat) : Int := if s then -(m : Int) else (m : Int)

/-- IEEE 754 addition, rounding to nearest. -/
def add : Double → Double → Double
  | nan, _ => nan
  | _, nan => nan
  | inf s, inf t => if s = t then inf s else nan
  | inf s, finite _ _ _ => inf s
  | finite _ _ _, inf t => inf t
  | finite s1 m1 e1, finite s2 m2 e2 =>
    let e : Int := min e1 e2
    let sum : Int := signed s1 (m1 * 2 ^ (e1 - e).toNat) + signed s2 (m2 * 2 ^ (e2 - e).toNat)
    if sum = 0 then finite (s1 && s2) 0 0
    else if 0 ≤ e then ofRat (decide (sum < 0)) (sum.natAbs * 2 ^ e.toNat) 1
    else ofRat (decide (sum < 0)) sum.natAbs (2 ^ (-e).toNat)

/-- IEEE 754 subtraction. -/
def sub (a b : Double) : Double := add a (neg b)

/-- Whether the value is a NaN. -/
def isNaN : Double → Bool
  | nan => true
  | _ => false

end Double

/-- Value of a string of decimal digits. -/
def digitsValue (ds : QString) : Nat :=
  ds.foldl (fun n c => 10 * n + (c.toNat - 48)) 0

/-- A parsed numeral: sign, digits before and after the point, and the
exponent part (sign and digits) if there is one. -/
structure Numeral where
  negative : Bool
  intDigits : QString
  fracDigits : QString
  expNegative : Bool
  expDigits : QString
  deriving DecidableEq, Repr

/-- Split off an optional sign. -/
def takeSign : QString → Bool × QString
  | '-' :: r => (true, r)
  | '+' :: r => (false, r)
  | s => (false, s)

/-- Read a numeral `[sign] digits [. digits] [e [sign] digits]` with a digit
before or after the point; the whole text must be used up. -/
def readNumeral (s : QString) : Option Numeral :=
  let (neg, r0) := takeSign s
  let ip := r0.takeWhile Char.isDigit
  let r1 := r0.dropWhile Char.isDigit
  let (fp, r2) := match r1 with
    | '.' :: r => (r.takeWhile Char.isDigit, r.dropWhile Char.isDigit)
    | r => ([], r)
  if ip.isEmpty && fp.isEmpty then none
  else match r2 with
    | [] => some ⟨neg, ip, fp, false, []⟩
    | c :: r =>
      if c = 'e' ∨ c = 'E' then
        let (eneg, r3) := takeSign r
        if !r3.isEmpty && r3.all Char.isDigit then some ⟨neg, ip, fp, eneg, r3⟩ else none
      else none

/-- The double denoted by a numeral. -/
def Numeral.value (n : Numeral) : Double :=
  let mant := digitsValue (n.intDigits ++ n.fracDigits)
  let x := digitsValue n.expDigits
  if n.expNegative then Double.ofRat n.negative mant (10 ^ (n.fracDigits.length + x))
  else Double.ofRat n.negative (mant * 10 ^ x) (10 ^ n.fracDigits.length)

/-- The call `QString::toDouble(&ok)` (C locale): the value and the `ok` flag.
White space around the number is ignored; `nan`, `inf`, `+inf`, `-inf` are
accepted in any letter case; an overflow gives an infinity and a non-zero
numeral that rounds to zero gives 0.0, both with `ok` false; any other text
gives 0.0 with `ok` false. -/
def toDouble (s : QString) : Double × Bool :=
  let t := (trimmed s).map Char.toLower
  if t = "nan".toList then (.nan, true)
  else if t = "inf".toList ∨ t = "+inf".toList then (.inf false, true)
  else if t = "-inf".toList then (.inf true, true)
  else match readNumeral t with
    | none => (.finite false 0 0, false)
    | some n =>
      match n.value with
      | .finite neg m e =>
        if m = 0 ∧ (n.intDigits ++ n.fracDigits).any (fun c => c != '0') then
          (.finite false 0 0, false)
        else (.finite neg m e, true)
      | d => (d, false)

/-! ## Qt primitives: number rendering and strings -/

/-- The `p` decimal digits of a number below `10 ^ p`, leading zeros kept. -/
def fracDigits : Nat → Nat → QString
  | 0, _ => []
  | p + 1, r => Nat.digitChar (r / 10 ^ p % 10) :: fracDigits p r

/-- The magnitude `m * 2 ^ e` times `10 ^ p`, rounded to the nearest integer
(a tie rounds away from zero). -/
def Double.scaled (p : Nat) (m : Nat) (e : Int) : Nat :=
  if 0 ≤ e then m * 2 ^ e.toNat * 10 ^ p
  else (2 * (m * 10 ^ p) + 2 ^ (-e).toNat) / (2 * 2 ^ (-e).toNat)

/-- Rendering of a double by `QString::arg(d, 0, 'f', p)`: fixed-point with `p`
decimals for a finite value (no sign on a zero), `nan`, `inf` or `-inf`
otherwise. -/
def argFixed (p : Nat) : Double → QString
  | .nan => "nan".toList
  | .inf neg => if neg then "-inf".toList else "inf".toList
  | .finite neg m e =>
    let q := Double.scaled p m e
    (if neg && m != 0 then ['-'] else []) ++ decDigits (q / 10 ^ p) ++
      (if p = 0 then [] else '.' :: fracDigits p (q % 10 ^ p))

/-- Whether `num / den` is at least `10 ^ k`. -/
def atLeastPow10 (num den : Nat) (k : Int) : Bool :=
  if 0 ≤ k then decide (den * 10 ^ k.toNat ≤ num) else decide (den ≤ num * 10 ^ (-k).toNat)

/-- The decimal exponent `x` of a positive `num / den`:
`10 ^ x ≤ num / den < 10 ^ (x + 1)`. -/
def decimalExponent (num den : Nat) : Int :=
  let k : Int := ((decDigits num).length : Int) - ((decDigits den).length : Int)
  if atLeastPow10 num den k then k else k - 1

/-- The integer nearest to `num / den / 10 ^ k` (a tie rounds up). -/
def roundScaled (num den : Nat) (k : Int) : Nat :=
  if 0 ≤ k then (2 * num + den * 10 ^ k.toNat) / (2 * (den * 10 ^ k.toNat))
  else (2 * (num * 10 ^ (-k).toNat) + den) / (2 * den)

/-- A digit string without its trailing zeros. -/
def chopZeros (ds : QString) : QString :=
  (ds.reverse.dropWhile (fun c => c == '0')).reverse

/-- The six significant decimal digits of a positive `num / den` (trailing
zeros removed) and the position of the decimal point relative to their start. -/
def significant6 (num den : Nat) : QString × Int :=
  let x := decimalExponent num den
  let d := roundScaled num den (x - 5)
  if d = 10 ^ 6 then (['1'], x + 2) else (chopZeros (decDigits d), x + 1)

/-- Exponent part of the `g` format: a sign and at least two digits. -/
def exponentText (x : Int) : QString :=
  (if x < 0 then '-' else '+') ::
    (if x.natAbs < 10 then '0' :: decDigits x.natAbs else decDigits x.natAbs)

/-- Layout of the `g` format with precision 6 for the digits `ds` and decimal
point position `decpt`: exponent form when `decpt ≤ -4` or `decpt > 6`,
plain decimal form otherwise. -/
def layoutG (ds : QString) (decpt : Int) : QString :=
  if decpt ≤ -4 ∨ 6 < decpt then
    (match ds with
      | [] => []
      | [d] => [d]
      | d :: rest => d :: '.' :: rest) ++ 'e' :: exponentText (decpt - 1)
  else if decpt ≤ 0 then
    '0' :: '.' :: (List.replicate (-decpt).toNat '0' ++ ds)
  else if ds.length ≤ decpt.toNat then
    ds ++ List.replicate (decpt.toNat - ds.length) '0'
  else
    ds.take decpt.toNat ++ '.' :: ds.drop decpt.toNat

/-- Rendering of a double by `QString::arg(d)`: format `g` with six
significant digits, trailing zeros removed. -/
def argG : Double → QString
  | .nan => "nan".toList
  | .inf neg => if neg then "-inf".toList else "inf".toList
  | .finite neg m e =>
    if m = 0 then ['0']
    else
      let num := if 0 ≤ e then m * 2 ^ e.toNat else m
      let den := if 0 ≤ e then 1 else 2 ^ (-e).toNat
      (if neg then ['-'] else []) ++
        layoutG (significant6 num den).1 (significant6 num den).2

/-- The two lowest distinct place-marker numbers among the pieces. -/
def minEscapeAbove (lo : Nat) : List ArgPiece → Option Nat
  | [] => none
  | .text _ :: ps => minEscapeAbove lo ps
  | .escape n _ :: ps =>
    match minEscapeAbove lo ps with
    | none => if lo < n then some n else none
    | some m => if lo < n then some (min n m) else some m

/-- Replace the markers numbered `m1` by `a1` and those numbered `m2` by `a2`
in one pass. -/
def replaceArgEscapes2 (m1 : Nat) (a1 : QString) (m2 : Option Nat) (a2 : QString) :
    List ArgPiece → QString
  | [] => []
  | .text c :: ps => c :: replaceArgEscapes2 m1 a1 m2 a2 ps
  | .escape n src :: ps =>
    (if n = m1 then a1 else if some n = m2 then a2 else src) ++
      replaceArgEscapes2 m1 a1 m2 a2 ps

/-- The call `QString::arg(a1, a2)`: the two lowest-numbered place markers are
replaced by `a1` and `a2` in one pass. -/
def arg2 (s a1 a2 : QString) : QString :=
  match minEscape (scanArg .plain s) with
  | none => s
  | some m1 =>
    replaceArgEscapes2 m1 a1 (minEscapeAbove m1 (scanArg .plain s)) a2 (scanArg .plain s)

/-- The result of `QString::toUpper`, on ASCII letters. -/
def toUpper (s : QString) : QString := s.map Char.toUpper

/-- The result of `QString::toLower`, on ASCII letters. -/
def toLower (s : QString) : QString := s.map Char.toLower

/-- Test `QString::startsWith`. -/
def startsWith (s pat : QString) : Bool := pat.isPrefixOf s

/-- Test `QString::contains` for a substring. -/
def containsText (s pat : QString) : Bool :=
  s.tails.any fun t => pat.isPrefixOf t

/-- Splitting loop of `QString::split`: `cur` is the part read so far. -/
def splitSkipEmptyAux (sep : Char) : QString → QString → List QString
  | cur, [] => if cur.isEmpty then [] else [cur]
  | cur, c :: cs =>
    if c = sep then
      if cur.isEmpty then splitSkipEmptyAux sep [] cs else cur :: splitSkipEmptyAux sep [] cs
    else splitSkipEmptyAux sep (cur ++ [c]) cs

/-- The call `QString::split(sep, Qt::SkipEmptyParts)` for a one-character
separator: the non-empty runs of characters between separators. -/
def splitSkipEmpty (sep : Char) (s : QString) : List QString :=
  splitSkipEmptyAux sep [] s

/-! ## The position pattern of `handleSerialRead`

The regular expression
`X:([-+]?\d*\.?\d+)\s+Y:([-+]?\d*\.?\d+)\s+Z:([-+]?\d*\.?\d+)` with the
matching rules of `QRegularExpression::match`: the leftmost match, greedy
quantifiers, alternatives tried in order with backtracking. -/

/-- Character class `\s` of the pattern: space and the controls U+0009..U+000D. -/
def isPatternSpace (c : Char) : Bool :=
  c == ' ' || (9 ≤ c.toNat && c.toNat ≤ 13)

/-- Character class `[-+]`. -/
def isSignChar (c : Char) : Bool := c == '-' || c == '+'

/-- The ways a greedy `c*` can match at the start of a text, longest first:
pairs of the matched text and the rest. -/
def greedySplits (p : Char → Bool) : QString → List (QString × QString)
  | [] => [([], [])]
  | c :: cs =>
    if p c then (greedySplits p cs).map (fun m => (c :: m.1, m.2)) ++ [([], c :: cs)]
    else [([], c :: cs)]

/-- The ways a greedy `c?` can match at the start of a text: one character,
then none. -/
def optionalSplits (p : Char → Bool) : QString → List (QString × QString)
  | [] => [([], [])]
  | c :: cs => if p c then [([c], cs), ([], c :: cs)] else [([], c :: cs)]

/-- The ways `[-+]?\d*\.?\d+` can match at the start of a text, in the order
in which the matcher tries them: pairs of the matched text and the rest. -/
def numberMatches (s : QString) : List (QString × QString) :=
  (optionalSplits isSignChar s).flatMap fun sg =>
    (greedySplits Char.isDigit sg.2).flatMap fun ds =>
      (optionalSplits (fun c => c == '.') ds.2).flatMap fun dot =>
        ((greedySplits Char.isDigit dot.2).filter fun fs => !fs.1.isEmpty).map fun fs =>
          (sg.1 ++ ds.1 ++ dot.1 ++ fs.1, fs.2)

/-- The ways `\s+` can match at the start of a text, longest first: the rests. -/
def spaceMatches (s : QString) : List QString :=
  ((greedySplits isPatternSpace s).filter fun m => !m.1.isEmpty).map fun m => m.2

/-- Remove a literal from the start of a text. -/
def stripLiteral : QString → QString → Option QString
  | [], s => some s
  | _ :: _, [] => none
  | a :: as, c :: cs => if a = c then stripLiteral as cs else none

/-- Match of the position pattern at the start of a text: the three captures. -/
def matchPositionHere (s : QString) : Option (QString × QString × QString) :=
  (stripLiteral "X:".toList s).bind fun r0 =>
    (numberMatches r0).findSome? fun n1 =>
      (spaceMatches n1.2).findSome? fun r1 =>
        (stripLiteral "Y:".toList r1).bind fun r2 =>
          (numberMatches r2).findSome? fun n2 =>
            (spaceMatches n2.2).findSome? fun r3 =>
              (stripLiteral "Z:".toList r3).bind fun r4 =>
                (numberMatches r4).head?.map fun n3 => (n1.1, n2.1, n3.1)

/-- The call `rx.match(line)`: the captures of the leftmost match of the
position pattern, if the line has one. -/
def matchPosition (line : QString) : Option (QString × QString × QString) :=
  line.tails.findSome? matchPositionHere

/-! ## Line reassembly (src/MotorControlWidget.cpp, src/backup/mainwindow.cpp) -/

/-- The call `QByteArray::indexOf(x)`: the position of the first `x`, or -1. -/
def indexOfByte (b : QByteArray) (x : Byte) : Int :=
  if b.contains x then (b.indexOf x : Int) else -1

/-- The axis names of the controls that `setupUI` puts into `axisControls`,
in their order there; each `AxisControlWidget` stores its name in lower case. -/
def axisControls : List QString :=
  ["X".toList, "Y".toList, "Z".toList].map toLower

namespace MotorControlWidget

/-- The colour `handleSerialRead` chooses for a received line. -/
def lineColour (line : QString) : Colour :=
  if startsWith line "ok".toList || containsText line "OK".toList then .green
  else if startsWith line "error".toList || startsWith line "Error".toList ||
      containsText line "error".toList || containsText line "Error".toList then .red
  else if startsWith line "//".toList || startsWith line ";".toList then .gray
  else .blue

/-- Body of the loop over `axisControls` in `handleSerialRead` for one control
(the update of the control's own display is left out). -/
def reportPosition (self : MotorControlWidget) (axisName : QString) : MotorControlWidget :=
  if axisName = "x".toList then self.emit (.positionChanged "X".toList self.lastPosX)
  else if axisName = "y".toList then self.emit (.positionChanged "Y".toList self.lastPosY)
  else if axisName = "z".toList then self.emit (.positionChanged "Z".toList self.lastPosZ)
  else self

/-- The part of the loop body of `handleSerialRead` that handles one non-empty
trimmed line (lines 889 to 943). -/
def handleLine (self : MotorControlWidget) (line : QString) : MotorControlWidget :=
  let self1 := { self with statusLog := self.statusLog ++ [LogLine.rx (lineColour line) line] }
  if containsText line "X:".toList && containsText line "Y:".toList &&
      containsText line "Z:".toList then
    match matchPosition line with
    | some (c1, c2, c3) =>
      let self2 := { self1 with
        lastPosX := (toDouble c1).1, lastPosY := (toDouble c2).1, lastPosZ := (toDouble c3).1 }
      axisControls.foldl reportPosition self2
    | none => self1
  else self1

/-- The `while` loop of `handleSerialRead`, run for at most `fuel` passes. -/
def handleSerialReadLoop (codec : TextCodec) : Nat → MotorControlWidget → MotorControlWidget
  | 0, self => self
  | fuel + 1, self =>
    if self.buffer.contains 10 then
      let lineEnd := indexOfByte self.buffer 10
      let lineData := self.buffer.take lineEnd.toNat
      let self1 := { self with buffer := self.buffer.drop (lineEnd + 1).toNat }
      let line := trimmed (codec.fromUtf8 lineData)
      if line.isEmpty then handleSerialReadLoop codec fuel self1
      else handleSerialReadLoop codec fuel (handleLine self1 line)
    else self

/-- Member `handleSerialRead`; `newData` is what `serial->readAll()` returns.
Every pass of the loop removes at least one byte from the buffer, so its length
bounds the number of passes. -/
def handleSerialRead (codec : TextCodec) (self : MotorControlWidget) (newData : QByteArray) :
    MotorControlWidget :=
  let self1 := { self with buffer := self.buffer ++ newData }
  handleSerialReadLoop codec self1.buffer.length self1

end MotorControlWidget

/-- The data members of the earlier `MainWindow` (src/backup/mainwindow.h) with
its serial port and status log. -/
structure MainWindow where
  serial : QSerialPort
  connected : Bool
  measX : AxisMeasurement
  measY : AxisMeasurement
  measZ : AxisMeasurement
  buffer : QByteArray
  lastPosX : Double
  lastPosY : Double
  lastPosZ : Double
  statusLog : List LogLine
  deriving DecidableEq, Repr

namespace MainWindow

/-- Member `updateStatus`. -/
def updateStatus (self : MainWindow) (msg : QString) : MainWindow :=
  { self with statusLog := self.statusLog ++ [LogLine.status msg] }

/-- The `while (true)` loop of `handleSerialRead`, run for at most `fuel`
passes. -/
def handleSerialReadLoop (codec : TextCodec) : Nat → MainWindow → MainWindow
  | 0, self => self
  | fuel + 1, self =>
    let newlineIndex := indexOfByte self.buffer 10
    if newlineIndex = -1 then self
    else
      let lineData := self.buffer.take (newlineIndex + 1).toNat
      let self1 := { self with buffer := self.buffer.drop (newlineIndex + 1).toNat }
      let line := trimmed (codec.fromUtf8 lineData)
      if line.isEmpty then handleSerialReadLoop codec fuel self1
      else handleSerialReadLoop codec fuel (self1.updateStatus line)

/-- Member `handleSerialRead`; `newData` is what `serial->readAll()` returns. -/
def handleSerialRead (codec : TextCodec) (self : MainWindow) (newData : QByteArray) :
    MainWindow :=
  let self1 := { self with buffer := self.buffer ++ newData }
  handleSerialReadLoop codec self1.buffer.length self1

end MainWindow

/-! ## Spec-side description of line reassembly -/

/-- Split a byte string at every newline: the newline-terminated segments
(without the newline) and the rest after the last newline; `cur` is the
unterminated text before the string. -/
def splitAtNewlines : QByteArray → QByteArray → List QByteArray × QByteArray
  | cur, [] => ([], cur)
  | cur, x :: xs =>
    if x = 10 then (cur :: (splitAtNewlines [] xs).1, (splitAtNewlines [] xs).2)
    else splitAtNewlines (cur ++ [x]) xs

/-- The newline-terminated segments of a byte string, in order, each without
its newline. -/
def segments (b : QByteArray) : List QByteArray := (splitAtNewlines [] b).1

/-- The part of a byte string after its last newline (all of it when it has
none). -/
def afterLastNewline (b : QByteArray) : QByteArray :=
  (b.reverse.takeWhile fun x => x != 10).reverse

/-- The lines reported for a list of segments: each decoded and trimmed, the
empty ones dropped. -/
def reportedLines (codec : TextCodec) (segs : List QByteArray) : List QString :=
  (segs.map fun seg => trimmed (codec.fromUtf8 seg)).filter fun line => !line.isEmpty

/-- What the loop of `MotorControlWidget::handleSerialRead` does with one
segment: decode, trim, skip an empty line, handle any other. -/
def MotorControlWidget.handleSegment (codec : TextCodec) (self : MotorControlWidget)
    (seg : QByteArray) : MotorControlWidget :=
  if (trimmed (codec.fromUtf8 seg)).isEmpty then self
  else self.handleLine (trimmed (codec.fromUtf8 seg))

/-- What the loop of `MainWindow::handleSerialRead` does with one segment: it
decodes the segment together with its newline, trims, and logs a non-empty
line. -/
def MainWindow.handleSegment (codec : TextCodec) (self : MainWindow) (seg : QByteArray) :
    MainWindow :=
  if (trimmed (codec.fromUtf8 (seg ++ [10]))).isEmpty then self
  else self.updateStatus (trimmed (codec.fromUtf8 (seg ++ [10])))

/-- The widget state with its buffer replaced. -/
def MotorControlWidget.setBuffer (self : MotorControlWidget) (b : QByteArray) :
    MotorControlWidget :=
  { self with buffer := b }

/-- The window state with its buffer replaced. -/
def MainWindow.setBuffer (self : MainWindow) (b : QByteArray) : MainWindow :=
  { self with buffer := b }

/-- The bytes of an ASCII text. -/
def asciiBytes (text : String) : QByteArray := asciiCodec.toUtf8 text.toList

/-- A main window with the given connection flag and port state, nothing sent
or received. -/
def mkWindow (connected isOpen : Bool) : MainWindow :=
  { serial := { isOpen := isOpen, written := [] }, connected := connected,
    measX := unmarked, measY := unmarked, measZ := unmarked, buffer := [],
    lastPosX := .ofInt 0, lastPosY := .ofInt 0, lastPosZ := .ofInt 0, statusLog := [] }

/-! ## Position query (src/TinybeeController.cpp) -/

/-- A `QHash<QString, QString>`, as the list of its entries (one per key). -/
abbrev QHash := List (QString × QString)

/-- The call `QHash::insert`: the value of an existing key is replaced. -/
def QHash.insert (h : QHash) (key value : QString) : QHash :=
  (key, value) :: h.filter fun e => e.1 != key

/-- The call `QHash::value(key)`: the value stored for the key, or an empty
string. -/
def QHash.value (h : QHash) (key : QString) : QString :=
  (h.lookup key).getD []

/-- The call `QString::indexOf(c)`: the position of the first `c`, or -1. -/
def indexOfChar (s : QString) (c : Char) : Int :=
  if s.contains c then (s.indexOf c : Int) else -1

/-- The C++ struct `MotorPosition`. -/
structure MotorPosition where
  x : Double
  y : Double
  z : Double
  deriving DecidableEq, Repr

namespace TinyBeeController

/-- Body of the loop over the parts in `parseResponse`. -/
def parsePart (parsed : QHash) (part : QString) : QHash :=
  let colonIndex := indexOfChar part ':'
  if 0 < colonIndex ∧ colonIndex < (part.length : Int) - 1 then
    let key := part.take colonIndex.toNat
    let val := part.drop (colonIndex + 1).toNat
    parsed.insert key val
  else parsed

/-- Member `parseResponse`: the result flag and the content of `parsed`
afterwards. -/
def parseResponse (_self : TinyBeeController) (response : QString) (_parsed : QHash) :
    Bool × QHash :=
  let parsed : QHash := []
  let parts := splitSkipEmpty ' ' (trimmed response)
  let parsed := parts.foldl parsePart parsed
  (!parsed.isEmpty, parsed)

/-- The command `GCodeCommand{GCodeCommandType::Custom, -1, 0, 0, 0, 0, "M114"}`
of `getPosition`. -/
def m114 : GCodeCommand :=
  ⟨.Custom, -1, .ofInt 0, .ofInt 0, .ofInt 0, 0, "M114".toList⟩

/-- Member `getPosition`: the result flag, the caller's `pos` afterwards and
the state afterwards. -/
def getPosition (codec : TextCodec) (self : TinyBeeController) (pos : MotorPosition)
    (timeoutMs : Int) (dev : DeviceReply) : Bool × MotorPosition × TinyBeeController :=
  match sendCommand codec self m114 (some []) timeoutMs dev with
  | (false, _, self1) => (false, pos, self1)
  | (true, response, self1) =>
    let response := response.getD []
    match parseResponse self1 response [] with
    | (false, _) => (false, pos, self1)
    | (true, parsed) =>
      let xVal := toDouble (parsed.value "X".toList)
      let yVal := toDouble (parsed.value "Y".toList)
      let zVal := toDouble (parsed.value "Z".toList)
      if !xVal.2 || !yVal.2 || !zVal.2 then (false, pos, self1)
      else
        let pos1 : MotorPosition := { x := xVal.1, y := yVal.1, z := zVal.1 }
        (true, pos1, self1.emit (.positionUpdated pos1.x pos1.y pos1.z))

end TinyBeeController

/-- Spec-side reading of one token: the text before its first colon and the
text after it, when the token has a colon and both texts are non-empty. -/
def tokenEntry (token : QString) : Option (QString × QString) :=
  match token.dropWhile (fun c => c != ':') with
  | [] => none
  | _ :: value =>
    if (token.takeWhile (fun c => c != ':')).isEmpty || value.isEmpty then none
    else some (token.takeWhile (fun c => c != ':'), value)

/-- The position the sample calls start from. -/
def origin : MotorPosition := { x := .ofInt 0, y := .ofInt 0, z := .ofInt 0 }

/-- A device that accepts the write and answers with the given text in one
read. -/
def replyWith (text : String) : DeviceReply :=
  { writeOk := true, bytesWritten := true, reads := [readText 5 text] }

/-! ## Jog helpers and position marks (src/MotorControlWidget.cpp,
src/backup/mainwindow.cpp)

The sender of a slot is an argument: the text of the clicked button, or the
axis control the button belongs to with the values of its spin boxes. The
display state of the controls (labels, check marks) is left out. -/

/-- What a slot reads from the `AxisControlWidget` of the clicked button: the
axis name and the values of the step and go-to spin boxes. -/
structure AxisControlWidget where
  axisName : QString
  stepSpin : Double
  goSpin : Double
  deriving DecidableEq, Repr

/-- The buttons of an `AxisControlWidget`. -/
inductive AxisButton where
  | homeBtn
  | moveMinusBtn
  | movePlusBtn
  | goBtn
  | markMinBtn
  | markMidBtn
  | markMaxBtn
  deriving DecidableEq, Repr

/-- The three measurement records of the widget, as returned by `measurement`. -/
inductive MeasurementRef where
  | measX
  | measY
  | measZ
  deriving DecidableEq, Repr

/-- The text `type` that `markPosition` derives from the clicked button. -/
def markType : AxisButton → QString
  | .markMinBtn => "min".toList
  | .markMidBtn => "mid".toList
  | .markMaxBtn => "max".toList
  | _ => []

/-- The assignments to `m->min`, `m->mid` or `m->max` in `markPosition`. -/
def assignMark (m : AxisMeasurement) (type : QString) (val : Double) : AxisMeasurement :=
  if type = "min".toList then { m with min := val }
  else if type = "mid".toList then { m with mid := val }
  else if type = "max".toList then { m with max := val }
  else m

/-- The offsets `dx` and `dy` that `directionalClicked` computes from the text
of the button (the same lines in the widget and in the earlier main window). -/
def directionalOffsets (dir : QString) : Double × Double :=
  let step := Double.ofInt 10
  let dx := Double.ofInt 0
  let dy := Double.ofInt 0
  let dy := if containsText dir "N".toList then dy.add step else dy
  let dy := if containsText dir "S".toList then dy.sub step else dy
  let dx := if containsText dir "E".toList then dx.sub step else dx
  let dx := if containsText dir "W".toList then dx.add step else dx
  (dx, dy)

/-- The target `pos` that `axisMoveStep` computes (the same lines in the widget
and in the earlier main window). -/
def axisMoveTarget (aw : AxisControlWidget) (senderIsMinus : Bool) : Double :=
  let minus := senderIsMinus
  let step := aw.stepSpin
  let curr := aw.goSpin
  let minus :=
    if toLower aw.axisName = "x".toList || toLower aw.axisName = "z".toList then !minus
    else minus
  curr.add (if minus then step.neg else step)

namespace MotorControlWidget

/-- Slot `directionalClicked`; `btn` is the text of the sending button, `none`
when the sender is not a button. -/
def directionalClicked (codec : TextCodec) (self : MotorControlWidget) (btn : Option QString) :
    MotorControlWidget :=
  if !self.isConnected then self.updateStatus "Error: Not connected".toList
  else match btn with
    | none => self
    | some dir =>
      if dir = "Home".toList then self.sendCustomCommand codec "G28".toList
      else
        let (dx, dy) := directionalOffsets dir
        let command := arg (arg "G1 X%1 Y%2 F3000".toList (argG dx)) (argG dy)
        self.sendCustomCommand codec command

/-- Slot `axisMoveStep`; `aw` is the axis control of the sending button (`none`
when the sender has none) and `senderIsMinus` tells whether the sender is its
minus button. -/
def axisMoveStep (codec : TextCodec) (self : MotorControlWidget)
    (aw : Option AxisControlWidget) (senderIsMinus : Bool) : MotorControlWidget :=
  match aw with
  | none => self
  | some aw =>
    let pos := axisMoveTarget aw senderIsMinus
    let command := arg (arg "G1 %1%2 F3000".toList (toUpper aw.axisName)) (argG pos)
    self.sendCustomCommand codec command

/-- Member `measurement`: which record the axis name selects, `none` for a null
pointer. -/
def measurement (axis : QString) : Option MeasurementRef :=
  let ax := toLower axis
  if ax = "x".toList then some .measX
  else if ax = "y".toList then some .measY
  else if ax = "z".toList then some .measZ
  else none

/-- Slot `markPosition`; `sender` is the clicked button with the axis control
it belongs to, `none` when the sender is not such a button. -/
def markPosition (self : MotorControlWidget) (sender : Option (AxisControlWidget × AxisButton)) :
    MotorControlWidget :=
  match sender with
  | none => self
  | some (aw, btn) =>
    let type := markType btn
    if type.isEmpty then self
    else
      let val :=
        if aw.axisName = "x".toList then self.lastPosX
        else if aw.axisName = "y".toList then self.lastPosY
        else if aw.axisName = "z".toList then self.lastPosZ
        else Double.ofInt 0
      match measurement aw.axisName with
      | none => self
      | some m =>
        let self1 :=
          match m with
          | .measX => { self with measX := assignMark self.measX type val }
          | .measY => { self with measY := assignMark self.measY type val }
          | .measZ => { self with measZ := assignMark self.measZ type val }
        self1.updateStatus
          (arg (arg2 "Marked %1 %2 position: %3 mm".toList (toUpper aw.axisName) type)
            (argFixed 2 val))

end MotorControlWidget

namespace MainWindow

/-- Slot `directionalClicked` of the earlier main window; `dir` is the text of
the sending button. -/
def directionalClicked (codec : TextCodec) (self : MainWindow) (dir : QString) : MainWindow :=
  if !self.connected then self.updateStatus "Not connected.".toList
  else
    let (dx, dy) := directionalOffsets dir
    if dir = "Home".toList then
      { self with serial := self.serial.write (asciiBytes "G28\n") }.updateStatus
        "Sent: Home all axes.".toList
    else
      let gcode := arg (arg "G1 X%1 Y%2 F3000\n".toList (argG dx)) (argG dy)
      { self with serial := self.serial.write (codec.toUtf8 gcode) }.updateStatus
        ("Sent: ".toList ++ trimmed gcode)

/-- Slot `axisMoveStep` of the earlier main window. -/
def axisMoveStep (codec : TextCodec) (self : MainWindow) (aw : AxisControlWidget)
    (senderIsMinus : Bool) : MainWindow :=
  let pos := axisMoveTarget aw senderIsMinus
  let cmd := arg (arg "G1 %1%2 F3000\n".toList (toUpper aw.axisName)) (argG pos)
  { self with serial := self.serial.write (codec.toUtf8 cmd) }.updateStatus
    ("Sent: ".toList ++ trimmed cmd)

end MainWindow

/-! ## Spec-side description of the jog helpers and marks -/

/-- The eight direction labels. -/
def directionLabels : List QString :=
  ["N".toList, "S".toList, "E".toList, "W".toList, "NE".toList, "NW".toList, "SE".toList,
    "SW".toList]

/-- The X component of a directional move: -10 for east, +10 for west. -/
def directionDx (dir : QString) : Double :=
  if containsText dir "E".toList then .ofInt (-10)
  else if containsText dir "W".toList then .ofInt 10
  else .ofInt 0

/-- The Y component of a directional move: +10 for north, -10 for south. -/
def directionDy (dir : QString) : Double :=
  if containsText dir "N".toList then .ofInt 10
  else if containsText dir "S".toList then .ofInt (-10)
  else .ofInt 0

/-- The three kinds of mark. -/
inductive MarkKind where
  | min
  | mid
  | max
  deriving DecidableEq, Repr

/-- The button of a mark kind. -/
def MarkKind.button : MarkKind → AxisButton
  | .min => .markMinBtn
  | .mid => .markMidBtn
  | .max => .markMaxBtn

/-- The field of a measurement record for a mark kind. -/
def AxisMeasurement.field (m : AxisMeasurement) : MarkKind → Double
  | .min => m.min
  | .mid => m.mid
  | .max => m.max

/-- The name an axis control stores for an axis. -/
def MeasurementRef.axisName : MeasurementRef → QString
  | .measX => "x".toList
  | .measY => "y".toList
  | .measZ => "z".toList

/-- The measurement record of an axis. -/
def MotorControlWidget.meas (w : MotorControlWidget) : MeasurementRef → AxisMeasurement
  | .measX => w.measX
  | .measY => w.measY
  | .measZ => w.measZ

/-- The last-known position of an axis. -/
def MotorControlWidget.lastPos (w : MotorControlWidget) : MeasurementRef → Double
  | .measX => w.lastPosX
  | .measY => w.lastPosY
  | .measZ => w.lastPosZ

/-- Character class of the captures of the position pattern: a sign, a digit or
the point. -/
def isNumberChar (c : Char) : Bool := isSignChar c || c.isDigit || c == '.'

/-- Whether none of the last-known positions is a NaN. -/
def MotorControlWidget.positionsValid (s : MotorControlWidget) : Bool :=
  !s.lastPosX.isNaN && !s.lastPosY.isNaN && !s.lastPosZ.isNaN

/-! ## Connection handling (src/TinybeeController.cpp, src/MotorControlWidget.cpp)

Whether `QSerialPort::open` succeeds and the text of `errorString()` are
arguments of a call. The settings of the port (name, baud rate, framing), the
poll timer and the message boxes are left out; a signal that the port itself
sends during a call reaches its slot as a separate call of that slot. -/

/-- The C++ enum `QSerialPort::SerialPortError`. -/
inductive SerialPortError where
  | NoError
  | DeviceNotFoundError
  | PermissionError
  | OpenError
  | NotOpenError
  | WriteError
  | ReadError
  | ResourceError
  | UnsupportedOperationError
  | TimeoutError
  | UnknownError
  deriving DecidableEq, Repr

/-- The call `QSerialPort::close()`. -/
def QSerialPort.close (p : QSerialPort) : QSerialPort :=
  { p with isOpen := false }

/-- The call `QSerialPort::open(QIODevice::ReadWrite)` with the given outcome:
the port afterwards. -/
def QSerialPort.open (p : QSerialPort) (openOk : Bool) : QSerialPort :=
  { p with isOpen := openOk }

namespace TinyBeeController

/-- Member `connected()` of the header, inline. -/
def connected (self : TinyBeeController) : Bool := self.m_connected

/-- Member `hasError()` of the header, inline. -/
def hasError (self : TinyBeeController) : Bool := self.m_hasError

/-- Member `connectPort`: the result flag and the state afterwards. -/
def connectPort (self : TinyBeeController) (portName : QString) (_baudRate : Int)
    (openOk : Bool) (errorString : QString) : Bool × TinyBeeController :=
  let self1 := if self.m_serial.isOpen then { self with m_serial := self.m_serial.close } else self
  let self2 := { self1 with m_serial := self1.m_serial.open openOk }
  if !openOk then
    let self3 := { self2 with m_hasError := true }
    let err := arg2 "Failed to open serial port %1: %2".toList portName errorString
    let self4 := self3.emit (.errorOccurred err)
    (false, { self4 with m_connected := false })
  else
    let self3 := { self2 with m_responseBuffer := [] }
    let self4 := { self3 with m_connected := true, m_hasError := false }
    (true, self4.emit .connected)

/-- Member `disconnectPort`. -/
def disconnectPort (self : TinyBeeController) : TinyBeeController :=
  let self1 := if self.m_serial.isOpen then { self with m_serial := self.m_serial.close } else self
  let self2 := { self1 with m_connected := false }
  self2.emit .disconnected

/-- Slot `onErrorOccurred`; `errorString` is the text of `m_serial.errorString()`. -/
def onErrorOccurred (self : TinyBeeController) (error : SerialPortError) (errorString : QString) :
    TinyBeeController :=
  if error = .NoError then self
  else
    let err := arg "Serial port error: %1".toList errorString
    let self1 := self.emit (.errorOccurred err)
    { self1 with m_hasError := true }

end TinyBeeController

namespace MotorControlWidget

/-- Slot `connectPort`; `portText` is the current text of the port combo box. -/
def connectPort (self : MotorControlWidget) (portText : QString) (openOk : Bool)
    (errorString : QString) : MotorControlWidget :=
  if portText = "No ports available".toList ∨ portText.isEmpty then self
  else
    let portName := portText.takeWhile fun c => c != ' '
    let self1 := if self.serial.isOpen then { self with serial := self.serial.close } else self
    let self2 := { self1 with serial := self1.serial.open openOk }
    if !openOk then
      let error := arg2 "Failed to open port %1: %2".toList portName errorString
      let self3 := self2.updateStatus ("Connection failed: ".toList ++ error)
      self3.emit (.errorOccurred error)
    else
      let self3 := { self2 with connected := true }
      let self4 := self3.updateStatus ("✅ Connected to ".toList ++ portName)
      self4.emit (.connectionStatusChanged true)

/-- Slot `disconnectPort`. -/
def disconnectPort (self : MotorControlWidget) : MotorControlWidget :=
  let self1 := if self.serial.isOpen then { self with serial := self.serial.close } else self
  let self2 := { self1 with connected := false }
  let self3 := self2.updateStatus "❌ Disconnected".toList
  self3.emit (.connectionStatusChanged false)

end MotorControlWidget

/-! ## The clock of `waitForResponse` and the mutex of `sendCommand`
(src/TinybeeController.cpp)

The loop of `waitForResponse` reads the clock twice in a pass: in the loop test
(line 163) and again in the argument of `waitForReadyRead` (line 165). -/

/-- One pass of the loop of `waitForResponse` with both clock readings: the
value of `timer.elapsed()` in the loop test, its value in the argument of
`waitForReadyRead`, and the bytes that arrive while that call waits (`none`
when nothing arrives). -/
structure ClockedStep where
  elapsedAtTest : Int
  elapsedAtWait : Int
  arrival : Option QByteArray
  deriving DecidableEq, Repr

/-- The call `QSerialPort::waitForReadyRead(msecs)`: `some true` when bytes
arrive, `some false` when the time runs out first, `none` when the call never
returns. With `msecs` equal to -1 the call has no timeout; any other value
without arriving bytes is taken to run out. -/
def waitForReadyRead (msecs : Int) (arrival : Option QByteArray) : Option Bool :=
  match arrival with
  | some _ => some true
  | none => if msecs = -1 then none else some false

/-- The pass as the loop of `TinyBeeController.waitForResponse` sees it when
the wait returns. -/
def ClockedStep.toWaitStep (s : ClockedStep) : WaitStep :=
  { elapsed := s.elapsedAtTest, ready := s.arrival.isSome, data := s.arrival.getD [] }

namespace TinyBeeController

/-- Member `waitForResponse` with both clock readings of a pass: `none` when
the function never returns, else the result flag, `outResponse` and the state
afterwards. -/
def waitForResponseClocked (codec : TextCodec) (self : TinyBeeController) (timeoutMs : Int) :
    List ClockedStep → Option (Bool × QString × TinyBeeController)
  | [] => some (false, [], self)
  | step :: rest =>
    if step.elapsedAtTest < timeoutMs then
      match waitForReadyRead (timeoutMs - step.elapsedAtWait) step.arrival with
      | none => none
      | some true =>
        let newData := step.arrival.getD []
        let self1 := { self with m_responseBuffer := self.m_responseBuffer ++ newData }
        if responseComplete self1.m_responseBuffer then
          some (true, codec.fromUtf8 self1.m_responseBuffer, { self1 with m_responseBuffer := [] })
        else
          waitForResponseClocked codec self1 timeoutMs rest
      | some false => waitForResponseClocked codec self timeoutMs rest
    else
      some (false, [], self)

end TinyBeeController

/-- What `sendCommand` does with `m_mutex` and where it blocks, as events in
program order. -/
inductive SyncOp where
  | lock
  | unlock
  | waitForBytesWritten
  | waitForReadyRead
  deriving DecidableEq, Repr

namespace TinyBeeController

/-- The calls of `waitForReadyRead` made by `waitForResponse`, one per pass of
its loop. -/
def waitForResponseOps (self : TinyBeeController) (timeoutMs : Int) : List WaitStep → List SyncOp
  | [] => []
  | step :: rest =>
    if step.elapsed < timeoutMs then
      if step.ready then
        let self1 := { self with m_responseBuffer := self.m_responseBuffer ++ step.data }
        if responseComplete self1.m_responseBuffer then [SyncOp.waitForReadyRead]
        else SyncOp.waitForReadyRead :: waitForResponseOps self1 timeoutMs rest
      else SyncOp.waitForReadyRead :: waitForResponseOps self timeoutMs rest
    else []

/-- The events of one `sendCommand`: the `QMutexLocker` of line 121 locks
`m_mutex` where it is declared and unlocks it when the function returns. -/
def sendCommandOps (self : TinyBeeController) (cmd : GCodeCommand) (timeoutMs : Int)
    (dev : DeviceReply) : List SyncOp :=
  if !self.isConnected then []
  else
    let cmdStr := buildCommandString self cmd
    if cmdStr.isEmpty then []
    else
      let self1 := { self with m_responseBuffer := [] }
      if !dev.writeOk then [SyncOp.lock, SyncOp.unlock]
      else if !dev.bytesWritten then [SyncOp.lock, SyncOp.waitForBytesWritten, SyncOp.unlock]
      else
        [SyncOp.lock, SyncOp.waitForBytesWritten] ++
          waitForResponseOps self1 timeoutMs dev.reads ++ [SyncOp.unlock]

end TinyBeeController

/-- Whether the calling thread holds `m_mutex` at each `waitForReadyRead` of a
run of events, given whether it holds it at the start. -/
def heldAtWaits : Bool → List SyncOp → List Bool
  | _, [] => []
  | _, .lock :: ops => heldAtWaits true ops
  | _, .unlock :: ops => heldAtWaits false ops
  | held, .waitForBytesWritten :: ops => heldAtWaits held ops
  | held, .waitForReadyRead :: ops => held :: heldAtWaits held ops

/-! ## The direction buttons of `setupUI` (src/MotorControlWidget.cpp) -/

/-- The direction buttons that `setupUI` connects to a lambda (lines 509 to
534). -/
inductive JogButton where
  | northBtn
  | southBtn
  | eastBtn
  | westBtn
  | neBtn
  | nwBtn
  | seBtn
  | swBtn
  | zUpBtn
  | zDownBtn
  deriving DecidableEq, Repr

/-- The lambda connected to `clicked` of a direction button; `step` is the
value of `stepSpinBox`. -/
def MotorControlWidget.jogClicked (codec : TextCodec) (self : MotorControlWidget)
    (btn : JogButton) (step : Double) : MotorControlWidget :=
  match btn with
  | .northBtn =>
    self.sendCustomCommand codec (arg "G91\nG1 Y%1 F1000\nG90".toList (argG step))
  | .southBtn =>
    self.sendCustomCommand codec (arg "G91\nG1 Y%1 F1000\nG90".toList (argG step.neg))
  | .eastBtn =>
    self.sendCustomCommand codec (arg "G91\nG1 X%1 F1000\nG90".toList (argG step.neg))
  | .westBtn =>
    self.sendCustomCommand codec (arg "G91\nG1 X%1 F1000\nG90".toList (argG step))
  | .neBtn =>
    self.sendCustomCommand codec
      (arg (arg "G91\nG1 X%1 Y%2 F1000\nG90".toList (argG step.neg)) (argG step))
  | .nwBtn =>
    self.sendCustomCommand codec
      (arg (arg "G91\nG1 X%1 Y%2 F1000\nG90".toList (argG step)) (argG step))
  | .seBtn =>
    self.sendCustomCommand codec
      (arg (arg "G91\nG1 X%1 Y%2 F1000\nG90".toList (argG step.neg)) (argG step.neg))
  | .swBtn =>
    self.sendCustomCommand codec
      (arg (arg "G91\nG1 X%1 Y%2 F1000\nG90".toList (argG step)) (argG step.neg))
  | .zUpBtn =>
    self.sendCustomCommand codec (arg "G91\nG1 Z%1 F1000\nG90".toList (argG step.neg))
  | .zDownBtn =>
    self.sendCustomCommand codec (arg "G91\nG1 Z%1 F1000\nG90".toList (argG step))

/-! ## Spec-side descriptions for the later claims -/

/-- Spec-side predicate, a decimal numeral with an optional leading sign and an
optional decimal point: an optional `-` or `+`, then digits, or digits (possibly
none), a point and at least one digit. -/
def isDecimalNumeral (s : QString) : Bool :=
  match (takeSign s).2.dropWhile Char.isDigit with
  | [] => !((takeSign s).2.takeWhile Char.isDigit).isEmpty
  | '.' :: fp => !fp.isEmpty && fp.all Char.isDigit
  | _ => false

/-- Spec-side form of a position line: `X:<a> Y:<b> Z:<c>` with the white
space `ws1` and `ws2` between the fields. -/
def positionLine (a ws1 b ws2 c : QString) : QString :=
  "X:".toList ++ a ++ ws1 ++ "Y:".toList ++ b ++ ws2 ++ "Z:".toList ++ c

/-- Spec-side predicate, a non-empty run of white space (space, tab, carriage
return and the other controls U+0009..U+000D). -/
def isWhiteSpaceRun (ws : QString) : Bool :=
  !ws.isEmpty && ws.all isPatternSpace

/-- Spec-side table of the jog buttons: the signed X, Y and Z components of the
relative move for step `s`, `none` for an axis that does not move. -/
def jogComponents (btn : JogButton) (s : Double) : Option Double × Option Double × Option Double :=
  match btn with
  | .eastBtn => (some s.neg, none, none)
  | .westBtn => (some s, none, none)
  | .northBtn => (none, some s, none)
  | .southBtn => (none, some s.neg, none)
  | .zUpBtn => (none, none, some s.neg)
  | .zDownBtn => (none, none, some s)
  | .neBtn => (some s.neg, some s, none)
  | .nwBtn => (some s, some s, none)
  | .seBtn => (some s.neg, some s.neg, none)
  | .swBtn => (some s, some s.neg, none)

/-- Spec-side rendering of one axis word of a move: the letter and the value,
nothing for an axis that does not move. -/
def axisWord (letter : Char) : Option Double → QString
  | none => []
  | some d => ' ' :: letter :: argG d

/-- Spec-side text of the `G1` line of a move with the given components at feed
rate 1000. -/
def moveLine (m : Option Double × Option Double × Option Double) : QString :=
  "G1".toList ++ axisWord 'X' m.1 ++ axisWord 'Y' m.2.1 ++ axisWord 'Z' m.2.2 ++ " F1000".toList

/-- Spec-side text of a relative move: the line `G91`, the `G1` line and the
line `G90`, each ended by a newline. -/
def relativeMoveText (m : Option Double × Option Double × Option Double) : QString :=
  "G91\n".toList ++ moveLine m ++ "\nG90\n".toList

/-- Whether a signal of the engine is a `positionUpdated`. -/
def Signal.isPositionUpdated : Signal → Bool
  | .positionUpdated _ _ _ => true
  | _ => false

/-- Whether a signal of the engine is an `errorOccurred`. -/
def Signal.isErrorOccurred : Signal → Bool
  | .errorOccurred _ => true
  | _ => false

/-! ## The `readyRead` slot during the wait (src/TinybeeController.cpp)

The constructor connects `readyRead` of the port to `onReadyRead` (line 10).
The port emits `readyRead` inside `waitForReadyRead` when bytes have arrived,
so in the thread of the engine the slot runs inside the wait, before
`waitForReadyRead` returns. -/

namespace TinyBeeController

/-- Slot `onReadyRead`; `pending` is what `m_serial.readAll()` returns and
`mutexHeld` tells whether the calling thread holds `m_mutex` already. `QMutex`
is not recursive, so the `QMutexLocker` of line 187 never gets a mutex that its
own thread holds: the result is `none` when the slot never returns. -/
def onReadyRead (self : TinyBeeController) (pending : QByteArray) (mutexHeld : Bool) :
    Option TinyBeeController :=
  let data := pending
  if mutexHeld then none
  else some { self with m_responseBuffer := self.m_responseBuffer ++ data }

/-- Member `waitForResponse` with the slot connected, called in the thread of
the engine with `m_mutex` in the state `mutexHeld`: `none` when the function
never returns, else the result flag, `outResponse` and the state afterwards.
In a pass whose wait succeeds the slot has taken the arrived bytes (`data` of
the pass) with its `readAll`, so the `readAll` of line 167 returns nothing. -/
def waitForResponseConnected (codec : TextCodec) (self : TinyBeeController) (timeoutMs : Int)
    (mutexHeld : Bool) : List WaitStep → Option (Bool × QString × TinyBeeController)
  | [] => some (false, [], self)
  | step :: rest =>
    if step.elapsed < timeoutMs then
      if step.ready then
        match onReadyRead self step.data mutexHeld with
        | none => none
        | some self1 =>
          let newData : QByteArray := []
          let self2 := { self1 with m_responseBuffer := self1.m_responseBuffer ++ newData }
          if responseComplete self2.m_responseBuffer then
            some (true, codec.fromUtf8 self2.m_responseBuffer, { self2 with m_responseBuffer := [] })
          else
            waitForResponseConnected codec self2 timeoutMs mutexHeld rest
      else
        waitForResponseConnected codec self timeoutMs mutexHeld rest
    else
      some (false, [], self)

end TinyBeeController

/-! ## Lemmas on the Qt primitives -/

theorem scanArg_plain_append (pre s : List Char) (h : ∀ c ∈ pre, c ≠ '%') :
    scanArg ScanState.plain (pre ++ s) = pre.map ArgPiece.text ++ scanArg ScanState.plain s := by
  induction pre with
  | nil => rfl
  | cons c cs ih =>
    have hc : c ≠ '%' := h c (List.mem_cons_self _ _)
    have hcs : ∀ d ∈ cs, d ≠ '%' := fun d hd => h d (List.mem_cons_of_mem _ hd)
    simp [scanArg, hc, ih hcs]

theorem minEscape_text_append (pre : List Char) (ps : List ArgPiece) :
    minEscape (pre.map ArgPiece.text ++ ps) = minEscape ps := by
  induction pre with
  | nil => rfl
  | cons c cs ih => simpa [minEscape] using ih

theorem replaceArgEscapes_text_append (m : Nat) (a : QString) (pre : List Char)
    (ps : List ArgPiece) :
    replaceArgEscapes m a (pre.map ArgPiece.text ++ ps) = pre ++ replaceArgEscapes m a ps := by
  induction pre with
  | nil => rfl
  | cons c cs ih => simpa [replaceArgEscapes] using ih

/-- Text without a percent sign in front of a format string is copied by `arg`. -/
theorem arg_append_left (pre s a : QString) (h : ∀ c ∈ pre, c ≠ '%') :
    arg (pre ++ s) a = pre ++ arg s a := by
  unfold arg
  rw [scanArg_plain_append pre s h, minEscape_text_append]
  cases minEscape (scanArg ScanState.plain s) with
  | none => rfl
  | some m => simp [replaceArgEscapes_text_append]

theorem digitChar_isDigit : ∀ k, k < 10 → (Nat.digitChar k).isDigit = true := by
  decide

theorem toDigitsCore_isDigit (fuel n : Nat) (ds : List Char)
    (h : ∀ c ∈ ds, c.isDigit = true) :
    ∀ c ∈ Nat.toDigitsCore 10 fuel n ds, c.isDigit = true := by
  induction fuel generalizing n ds with
  | zero => simpa [Nat.toDigitsCore] using h
  | succ fuel ih =>
    have hd : (Nat.digitChar (n % 10)).isDigit = true :=
      digitChar_isDigit _ (Nat.mod_lt _ (by decide))
    have hcons : ∀ c ∈ Nat.digitChar (n % 10) :: ds, c.isDigit = true := by
      intro c hc
      rcases List.mem_cons.mp hc with rfl | hc
      · exact hd
      · exact h c hc
    unfold Nat.toDigitsCore
    by_cases h0 : n / 10 = 0
    · simpa [h0] using hcons
    · simpa [h0] using ih (n / 10) _ hcons

theorem toDigitsCore_ne_nil (fuel n : Nat) (ds : List Char) (h : fuel ≠ 0 ∨ ds ≠ []) :
    Nat.toDigitsCore 10 fuel n ds ≠ [] := by
  induction fuel generalizing n ds with
  | zero => simpa [Nat.toDigitsCore] using h
  | succ fuel ih =>
    unfold Nat.toDigitsCore
    by_cases h0 : n / 10 = 0
    · simp [h0]
    · simpa [h0] using ih (n / 10) _ (Or.inr (List.cons_ne_nil _ _))

theorem decDigits_isDigit (n : Nat) : ∀ c ∈ decDigits n, c.isDigit = true :=
  toDigitsCore_isDigit _ _ _ (by simp)

theorem decDigits_ne_nil (n : Nat) : decDigits n ≠ [] :=
  toDigitsCore_ne_nil _ _ _ (Or.inl (Nat.succ_ne_zero _))

theorem pad3_isDigit (r : Nat) : ∀ c ∈ pad3 r, c.isDigit = true := by
  intro c hc
  simp only [pad3, List.mem_cons, List.mem_singleton, List.not_mem_nil, or_false] at hc
  rcases hc with rfl | rfl | rfl <;> exact digitChar_isDigit _ (Nat.mod_lt _ (by decide))

theorem isDigit_ne_percent (c : Char) (h : c.isDigit = true) : c ≠ '%' := by
  rintro rfl
  exact absurd h (by decide)

theorem argInt_no_percent (i : Int) : ∀ c ∈ argInt i, c ≠ '%' := by
  intro c hc
  unfold argInt at hc
  split at hc
  · rcases List.mem_cons.mp hc with rfl | hc
    · decide
    · exact isDigit_ne_percent c (decDigits_isDigit _ c hc)
  · exact isDigit_ne_percent c (decDigits_isDigit _ c hc)

theorem argF3_no_percent (d : Double) : ∀ c ∈ argF3 d, c ≠ '%' := by
  intro c hc
  cases d with
  | nan =>
    have : c ∈ ['n', 'a', 'n'] := hc
    rintro rfl
    exact absurd this (by decide)
  | inf neg =>
    cases neg
    · have : c ∈ ['i', 'n', 'f'] := hc
      rintro rfl
      exact absurd this (by decide)
    · have : c ∈ ['-', 'i', 'n', 'f'] := hc
      rintro rfl
      exact absurd this (by decide)
  | finite neg m e =>
    simp only [argF3, List.mem_append, List.mem_cons] at hc
    rcases hc with (hc | hc) | rfl | hc
    · split at hc
      · rw [List.mem_singleton] at hc
        subst hc
        decide
      · exact absurd hc (List.not_mem_nil _)
    · exact isDigit_ne_percent c (decDigits_isDigit _ c hc)
    · decide
    · exact isDigit_ne_percent c (pad3_isDigit _ c hc)

/-! ## Lemmas on command encoding -/

open TinyBeeController

theorem build_move (self : TinyBeeController) (cmd : GCodeCommand) (h : cmd.type = .Move) :
    buildCommandString self cmd =
      "G1 X".toList ++ argF3 cmd.x ++ " Y".toList ++ argF3 cmd.y ++ " Z".toList ++
        argF3 cmd.z ++ " F".toList ++ argInt cmd.feedrate ++ "\n".toList := by
  have h1 : ∀ a : QString, arg "G1 X%1 Y%2 Z%3 F%4\n".toList a =
      ("G1 X".toList ++ a) ++ " Y%2 Z%3 F%4\n".toList := fun a => rfl
  have h2 : ∀ a : QString, arg " Y%2 Z%3 F%4\n".toList a =
      (" Y".toList ++ a) ++ " Z%3 F%4\n".toList := fun a => rfl
  have h3 : ∀ a : QString, arg " Z%3 F%4\n".toList a =
      (" Z".toList ++ a) ++ " F%4\n".toList := fun a => rfl
  have h4 : ∀ a : QString, arg " F%4\n".toList a =
      (" F".toList ++ a) ++ "\n".toList := fun a => rfl
  have np : ∀ (lit : QString) (d : Double), (∀ c ∈ lit, c ≠ '%') →
      ∀ c ∈ lit ++ argF3 d, c ≠ '%' := by
    intro lit d hl c hc
    rcases List.mem_append.mp hc with hc | hc
    · exact hl c hc
    · exact argF3_no_percent d c hc
  unfold buildCommandString
  rw [h]
  simp only
  rw [h1, arg_append_left _ _ _ (np _ _ (by decide)), h2,
    ← List.append_assoc, arg_append_left _ _ _ (by
      intro c hc
      rcases List.mem_append.mp hc with hc | hc
      · exact np _ _ (by decide) c hc
      · exact np _ _ (by decide) c hc), h3,
    ← List.append_assoc, arg_append_left _ _ _ (by
      intro c hc
      rcases List.mem_append.mp hc with hc | hc
      · rcases List.mem_append.mp hc with hc | hc
        · exact np _ _ (by decide) c hc
        · exact np _ _ (by decide) c hc
      · exact np _ _ (by decide) c hc), h4]
  simp only [List.append_assoc]

theorem dropSign_cons (c : Char) (t : QString) (h : c ≠ '-') : dropSign (c :: t) = c :: t := by
  unfold dropSign
  split
  · rename_i u heq
    exact absurd (List.cons.inj heq).1 h
  · rfl

theorem isFixed3_digits (ds : QString) (a b c : Char) (hds : ∀ x ∈ ds, x.isDigit = true)
    (hne : ds ≠ []) (ha : a.isDigit = true) (hb : b.isDigit = true) (hc : c.isDigit = true)
    (body : QString) (hbody : dropSign body = ds ++ ['.', a, b, c]) :
    isFixed3 body = true := by
  have hdot : ('.' : Char).isDigit = false := by decide
  have htake : List.takeWhile Char.isDigit (ds ++ ['.', a, b, c]) = ds := by
    rw [List.takeWhile_append_of_pos hds]
    simp [List.takeWhile, hdot]
  have hdrop : List.dropWhile Char.isDigit (ds ++ ['.', a, b, c]) = ['.', a, b, c] := by
    rw [List.dropWhile_append_of_pos hds]
    simp [List.dropWhile, hdot]
  unfold isFixed3
  rw [hbody, htake, hdrop]
  simp [ha, hb, hc, hne]

theorem isFixed3_argF3 (d : Double) (h : d.isFinite = true) : isFixed3 (argF3 d) = true := by
  cases d with
  | nan => simp [Double.isFinite] at h
  | inf neg => simp [Double.isFinite] at h
  | finite neg m e =>
    simp only [argF3]
    generalize Double.thousandths m e = q
    have hd := decDigits_isDigit (q / 1000)
    have hn := decDigits_ne_nil (q / 1000)
    have hp := pad3_isDigit (q % 1000)
    generalize decDigits (q / 1000) = ds at hd hn
    simp only [pad3] at hp ⊢
    generalize Nat.digitChar (q % 1000 / 100 % 10) = a at hp
    generalize Nat.digitChar (q % 1000 / 10 % 10) = b at hp
    generalize Nat.digitChar (q % 1000 % 10) = c at hp
    have ha := hp a (by simp)
    have hb := hp b (by simp)
    have hc := hp c (by simp)
    apply isFixed3_digits ds a b c hd hn ha hb hc
    split
    · rfl
    · cases ds with
      | nil => exact absurd rfl hn
      | cons d0 ds =>
        have hd0 : d0.isDigit = true := hd d0 (List.mem_cons_self _ _)
        have hne : d0 ≠ '-' := by
          rintro rfl
          exact absurd hd0 (by decide)
        exact dropSign_cons d0 _ hne

theorem isFixed3_head (s : QString) (h : isFixed3 s = true) :
    ∃ c t, s = c :: t ∧ (c = '-' ∨ c.isDigit = true) := by
  cases s with
  | nil => exact absurd h (by decide)
  | cons c t =>
    refine ⟨c, t, rfl, ?_⟩
    by_cases hc : c = '-'
    · exact Or.inl hc
    · right
      unfold isFixed3 at h
      rw [dropSign_cons c t hc] at h
      by_contra hd
      simp [List.takeWhile, hd] at h

theorem build_home (self : TinyBeeController) (cmd : GCodeCommand) (h : cmd.type = .Home) :
    buildCommandString self cmd =
      if cmd.x.isZero && cmd.y.isZero && cmd.z.isZero then "G28\n".toList
      else "G28".toList ++ (if cmd.x.isZero then [] else " X".toList) ++
        (if cmd.y.isZero then [] else " Y".toList) ++
        (if cmd.z.isZero then [] else " Z".toList) ++ "\n".toList := by
  unfold buildCommandString
  rw [h]
  simp only
  generalize cmd.x.isZero = bx
  generalize cmd.y.isZero = bY
  generalize cmd.z.isZero = bz
  cases bx <;> cases bY <;> cases bz <;> rfl

/-! ## Command encoding -/

/-- C1: when the engine is not connected (m_connected false or the port not
open), sendCommand returns failure for every command, timeout and device
behaviour, hands nothing to the serial port and leaves the response buffer as
it was; and sendCustomCommand on a widget that is not connected hands nothing
to the serial port either. -/
theorem sendCommand_not_connected (codec : TextCodec) (self : TinyBeeController)
    (cmd : GCodeCommand) (response : Option QString) (timeoutMs : Int) (dev : DeviceReply)
    (w : MotorControlWidget) (command : QString)
    (h : self.isConnected = false) (hw : w.isConnected = false) :
    (sendCommand codec self cmd response timeoutMs dev).1 = false ∧
    (sendCommand codec self cmd response timeoutMs dev).2.2.m_serial.written
      = self.m_serial.written ∧
    (sendCommand codec self cmd response timeoutMs dev).2.2.m_responseBuffer
      = self.m_responseBuffer ∧
    (w.sendCustomCommand codec command).serial.written = w.serial.written := by
  refine ⟨?_, ?_, ?_, ?_⟩
  · simp [sendCommand, h]
  · simp [sendCommand, h, TinyBeeController.emit]
  · simp [sendCommand, h, TinyBeeController.emit]
  · simp [MotorControlWidget.sendCustomCommand, hw, MotorControlWidget.emit,
      MotorControlWidget.updateStatus]

/-- Instance of C1: an engine and a widget whose port is closed. -/
theorem sendCommand_not_connected_witness :
    disconnectedEngine.isConnected = false ∧ (mkWidget true false).isConnected = false ∧
    (sendCommand asciiCodec disconnectedEngine (customCommand "M114".toList) none 2000
      ⟨true, true, [⟨0, true, [111, 107, 10]⟩]⟩).1 = false ∧
    (sendCommand asciiCodec disconnectedEngine (customCommand "M114".toList) none 2000
      ⟨true, true, [⟨0, true, [111, 107, 10]⟩]⟩).2.2.m_serial.written = [] ∧
    (sendCommand asciiCodec disconnectedEngine (customCommand "M114".toList) none 2000
      ⟨true, true, [⟨0, true, [111, 107, 10]⟩]⟩).2.2.m_responseBuffer = [120] ∧
    ((mkWidget true false).sendCustomCommand asciiCodec "G28".toList).serial.written = [] :=
  ⟨by decide, by decide,
    sendCommand_not_connected asciiCodec disconnectedEngine (customCommand "M114".toList) none
      2000 ⟨true, true, [⟨0, true, [111, 107, 10]⟩]⟩ (mkWidget true false) "G28".toList
      (by decide) (by decide)⟩

/-- C2: for every command of every variant and every field value,
buildCommandString does not depend on the state of the engine it is called on,
and its result ends with the newline character. -/
theorem buildCommandString_newline (self other : TinyBeeController) (cmd : GCodeCommand) :
    buildCommandString self cmd = buildCommandString other cmd ∧
    (buildCommandString self cmd).getLast? = some '\n' := by
  refine ⟨rfl, ?_⟩
  cases hty : cmd.type with
  | FirmwareInfo => simp [buildCommandString, hty]
  | Home =>
    rw [build_home self cmd hty]
    generalize cmd.x.isZero = bx
    generalize cmd.y.isZero = bY
    generalize cmd.z.isZero = bz
    cases bx <;> cases bY <;> cases bz <;> decide
  | Move =>
    rw [build_move self cmd hty, List.getLast?_append]
    rfl
  | EmergencyStop => simp [buildCommandString, hty]
  | Custom => simp [buildCommandString, hty]

/-- C3, the claim as stated fails: a Home command with x, y and z all non-zero
is not encoded as "G28\n" but as "G28 X Y Z\n". -/
theorem home_all_nonzero_counterexample :
    (mkCommand .Home (.ofInt 1) (.ofInt 1) (.ofInt 1)).x.isZero = false ∧
    (mkCommand .Home (.ofInt 1) (.ofInt 1) (.ofInt 1)).y.isZero = false ∧
    (mkCommand .Home (.ofInt 1) (.ofInt 1) (.ofInt 1)).z.isZero = false ∧
    buildCommandString connectedEngine (mkCommand .Home (.ofInt 1) (.ofInt 1) (.ofInt 1))
      = "G28 X Y Z\n".toList ∧
    buildCommandString connectedEngine (mkCommand .Home (.ofInt 1) (.ofInt 1) (.ofInt 1))
      ≠ "G28\n".toList := by
  decide

/-- C3 as amended: a Home command whose x, y and z are all zero is encoded as
exactly "G28\n" (home all axes), and a Home command whose x, y and z are all
non-zero as exactly "G28 X Y Z\n". -/
theorem home_all_axes (self : TinyBeeController) (cmd : GCodeCommand)
    (h : cmd.type = .Home) :
    (cmd.x.isZero = true → cmd.y.isZero = true → cmd.z.isZero = true →
      buildCommandString self cmd = "G28\n".toList) ∧
    (cmd.x.isZero = false → cmd.y.isZero = false → cmd.z.isZero = false →
      buildCommandString self cmd = "G28 X Y Z\n".toList) := by
  rw [build_home self cmd h]
  constructor
  · intro hx hy hz
    rw [hx, hy, hz]
    rfl
  · intro hx hy hz
    rw [hx, hy, hz]
    rfl

/-- Instance of C3 as amended: all three values zero, and all three non-zero. -/
theorem home_all_axes_witness :
    buildCommandString connectedEngine (mkCommand .Home (.ofInt 0) (.ofInt 0) (.ofInt 0))
      = "G28\n".toList ∧
    buildCommandString connectedEngine (mkCommand .Home (.ofInt 2) (.ofInt 1) .nan)
      = "G28 X Y Z\n".toList :=
  ⟨(home_all_axes connectedEngine (mkCommand .Home (.ofInt 0) (.ofInt 0) (.ofInt 0)) rfl).1
      (by decide) (by decide) (by decide),
    (home_all_axes connectedEngine (mkCommand .Home (.ofInt 2) (.ofInt 1) .nan) rfl).2
      (by decide) (by decide) (by decide)⟩

/-- C4: for every Home command in which some but not all of x, y, z are
non-zero, buildCommandString returns "G28", then " X", " Y", " Z" for the
non-zero ones in this order, then "\n"; the letter of an axis whose value is
zero does not occur in the result. -/
theorem home_some_axes (self : TinyBeeController) (cmd : GCodeCommand)
    (h : cmd.type = .Home)
    (hsome : cmd.x.isZero = false ∨ cmd.y.isZero = false ∨ cmd.z.isZero = false)
    (hnotall : cmd.x.isZero = true ∨ cmd.y.isZero = true ∨ cmd.z.isZero = true) :
    buildCommandString self cmd =
      "G28".toList ++ (if cmd.x.isZero then [] else " X".toList) ++
        (if cmd.y.isZero then [] else " Y".toList) ++
        (if cmd.z.isZero then [] else " Z".toList) ++ "\n".toList ∧
    (cmd.x.isZero = true → 'X' ∉ buildCommandString self cmd) ∧
    (cmd.y.isZero = true → 'Y' ∉ buildCommandString self cmd) ∧
    (cmd.z.isZero = true → 'Z' ∉ buildCommandString self cmd) := by
  rw [build_home self cmd h]
  revert hsome hnotall
  generalize cmd.x.isZero = bx
  generalize cmd.y.isZero = bY
  generalize cmd.z.isZero = bz
  cases bx <;> cases bY <;> cases bz <;> decide

/-- Instance of C4: x and z selected gives "G28 X Z\n". -/
theorem home_some_axes_witness :
    buildCommandString connectedEngine (mkCommand .Home (.ofInt 1) (.ofInt 0) (.ofInt 1))
      = "G28 X Z\n".toList ∧
    'Y' ∉ buildCommandString connectedEngine (mkCommand .Home (.ofInt 1) (.ofInt 0) (.ofInt 1)) :=
  ⟨(home_some_axes connectedEngine (mkCommand .Home (.ofInt 1) (.ofInt 0) (.ofInt 1)) rfl
      (by decide) (by decide)).1.trans (by decide),
    (home_some_axes connectedEngine (mkCommand .Home (.ofInt 1) (.ofInt 0) (.ofInt 1)) rfl
      (by decide) (by decide)).2.2.1 (by decide)⟩

/-- C5, the claim as stated fails: for a Move command whose x is NaN the text
between "G1 X" and " Y" is "nan", so the result is not of the form
"G1 X" f3 " Y" f3 " Z" f3 " F" dec "\n" for any three fixed-point renderings
with three digits after the decimal point. -/
theorem move_nan_counterexample :
    buildCommandString connectedEngine (mkCommand .Move .nan (.ofInt 0) (.ofInt 0))
      = "G1 Xnan Y0.000 Z0.000 F1000\n".toList ∧
    ¬ ∃ sx sy sz : QString, isFixed3 sx = true ∧ isFixed3 sy = true ∧ isFixed3 sz = true ∧
      buildCommandString connectedEngine (mkCommand .Move .nan (.ofInt 0) (.ofInt 0))
        = "G1 X".toList ++ sx ++ " Y".toList ++ sy ++ " Z".toList ++ sz ++ " F".toList ++
          argInt 1000 ++ "\n".toList := by
  have hval : buildCommandString connectedEngine (mkCommand .Move .nan (.ofInt 0) (.ofInt 0))
      = "G1 Xnan Y0.000 Z0.000 F1000\n".toList := by decide
  refine ⟨hval, ?_⟩
  rintro ⟨sx, sy, sz, hx, -, -, heq⟩
  rw [hval] at heq
  obtain ⟨c, t, rfl, hc⟩ := isFixed3_head sx hx
  have hn : 'n' = c := by
    have := heq
    simp only [String.toList, List.cons_append, List.nil_append, List.append_assoc,
      List.cons.injEq, true_and] at this
    exact this.1
  subst hn
  rcases hc with hc | hc
  · exact absurd hc (by decide)
  · exact absurd hc (by decide)

/-- C5 as amended: for every Move command, buildCommandString returns
"G1 X" f3(x) " Y" f3(y) " Z" f3(z) " F" dec(feedrate) "\n", where dec renders
the integer feedrate in decimal and f3 renders a finite coordinate in
fixed-point notation with exactly three digits after the decimal point (a NaN
or infinite coordinate is rendered as nan, inf or -inf). -/
theorem move_wire_text (self : TinyBeeController) (cmd : GCodeCommand)
    (h : cmd.type = .Move) :
    buildCommandString self cmd =
      "G1 X".toList ++ argF3 cmd.x ++ " Y".toList ++ argF3 cmd.y ++ " Z".toList ++
        argF3 cmd.z ++ " F".toList ++ argInt cmd.feedrate ++ "\n".toList ∧
    (cmd.x.isFinite = true → isFixed3 (argF3 cmd.x) = true) ∧
    (cmd.y.isFinite = true → isFixed3 (argF3 cmd.y) = true) ∧
    (cmd.z.isFinite = true → isFixed3 (argF3 cmd.z) = true) :=
  ⟨build_move self cmd h, isFixed3_argF3 _, isFixed3_argF3 _, isFixed3_argF3 _⟩

/-- Instance of C5 as amended: Move(1, -2.5, 0, 1000). -/
theorem move_wire_text_witness :
    buildCommandString connectedEngine
        (mkCommand .Move (.ofInt 1) (.finite true 5 (-1)) (.ofInt 0))
      = "G1 X1.000 Y-2.500 Z0.000 F1000\n".toList ∧
    isFixed3 (argF3 (.finite true 5 (-1))) = true :=
  ⟨(move_wire_text connectedEngine
        (mkCommand .Move (.ofInt 1) (.finite true 5 (-1)) (.ofInt 0)) rfl).1.trans (by decide),
    (move_wire_text connectedEngine
        (mkCommand .Move (.ofInt 1) (.finite true 5 (-1)) (.ofInt 0)) rfl).2.2.1 rfl⟩

/-- C6: a command of type FirmwareInfo is encoded as exactly "M115\n" and a
command of type EmergencyStop as exactly "M112\n", whatever the values of the
motor index, the coordinates, the feedrate and the custom text. -/
theorem firmwareInfo_emergencyStop_text (self : TinyBeeController) (motorIndex : Int)
    (x y z : Double) (feedrate : Int) (customCommand : QString) :
    buildCommandString self
        ⟨.FirmwareInfo, motorIndex, x, y, z, feedrate, customCommand⟩ = "M115\n".toList ∧
    buildCommandString self
        ⟨.EmergencyStop, motorIndex, x, y, z, feedrate, customCommand⟩ = "M112\n".toList :=
  ⟨rfl, rfl⟩

/-! ## Lemmas on trimming -/

theorem trimmed_getLast_not_space (s : QString) (c : Char)
    (h : (trimmed s).getLast? = some c) : isSpace c = false := by
  unfold trimmed at h
  rw [List.getLast?_reverse] at h
  have := List.head?_dropWhile_not isSpace (s.dropWhile isSpace).reverse
  rw [h] at this
  exact this

theorem trimmed_head_not_space (s : QString) (c : Char)
    (h : (trimmed s).head? = some c) : isSpace c = false := by
  have hpre : trimmed s <+: s.dropWhile isSpace := List.rdropWhile_prefix isSpace _
  obtain ⟨u, hu⟩ := hpre
  cases ht : trimmed s with
  | nil => rw [ht] at h; exact absurd h (by simp)
  | cons d t =>
    rw [ht] at h hu
    have hd : d = c := by simpa using h
    subst hd
    have := List.head?_dropWhile_not isSpace s
    rw [← hu] at this
    exact this

theorem newline_isSpace : isSpace '\n' = true := by decide

/-! ## Custom commands -/

/-- C7: for every Custom command whose trimmed text is non-empty, the wire text
is the trimmed text followed by one newline (the trimmed text itself does not
end with a newline), and sendCustomCommand on a connected widget hands to the
serial port exactly the bytes of that wire text. -/
theorem custom_wire_text (codec : TextCodec) (self : TinyBeeController)
    (w : MotorControlWidget) (cmd : GCodeCommand) (h : cmd.type = .Custom)
    (hne : trimmed cmd.customCommand ≠ []) (hw : w.isConnected = true) :
    buildCommandString self cmd = trimmed cmd.customCommand ++ ['\n'] ∧
    (trimmed cmd.customCommand).getLast? ≠ some '\n' ∧
    (w.sendCustomCommand codec cmd.customCommand).serial.written
      = w.serial.written ++ [codec.toUtf8 (buildCommandString self cmd)] := by
  have hbuild : buildCommandString self cmd = trimmed cmd.customCommand ++ ['\n'] := by
    simp [buildCommandString, h]
  have hlast : (trimmed cmd.customCommand).getLast? ≠ some '\n' := by
    intro hl
    have := trimmed_getLast_not_space _ _ hl
    rw [newline_isSpace] at this
    exact absurd this (by decide)
  refine ⟨hbuild, hlast, ?_⟩
  have hends : endsWithChar (trimmed cmd.customCommand) '\n' = false := by
    simpa [endsWithChar] using hlast
  rw [hbuild]
  simp [MotorControlWidget.sendCustomCommand, hw, hne, hends, MotorControlWidget.emit,
    MotorControlWidget.updateStatus, QSerialPort.write]

/-- Instance of C7: the raw text "  M114 \n" on both send paths. -/
theorem custom_wire_text_witness :
    buildCommandString connectedEngine (customCommand "  M114 \n".toList) = "M114\n".toList ∧
    ((mkWidget true true).sendCustomCommand asciiCodec "  M114 \n".toList).serial.written
      = [[77, 49, 49, 52, 10]] :=
  ⟨(custom_wire_text asciiCodec connectedEngine (mkWidget true true)
      (customCommand "  M114 \n".toList) rfl (by decide) (by decide)).1.trans (by decide),
    (custom_wire_text asciiCodec connectedEngine (mkWidget true true)
      (customCommand "  M114 \n".toList) rfl (by decide) (by decide)).2.2.trans (by decide)⟩

/-- C8, what the code does on a blank Custom command: on a connected engine
sendCommand hands the single byte "\n" to the serial port and, when the device
answers, returns success; the widget's sendCustomCommand refuses the same text
without writing. -/
theorem sendCommand_blank_custom_writes :
    trimmed "  ".toList = [] ∧
    sendCommand asciiCodec connectedEngine (customCommand "  ".toList) none 2000
        ⟨true, true, [⟨0, true, [111, 107, 10]⟩]⟩
      = (true, none, { connectedEngine with m_serial := { isOpen := true, written := [[10]] } }) ∧
    ((mkWidget true true).sendCustomCommand asciiCodec "  ".toList).serial.written = [] := by
  decide

/-! ## Waiting for the response -/

theorem received_append (p q : List WaitStep) : received (p ++ q) = received p ++ received q := by
  induction p with
  | nil => rfl
  | cons s p ih =>
    by_cases hs : s.ready = true
    · simp [received, hs, ih]
    · simp [received, hs, ih]

theorem waitForResponse_at_first (codec : TextCodec) (timeoutMs : Int) (pre : List WaitStep)
    (ev : WaitStep) (post : List WaitStep) (self : TinyBeeController)
    (hpre : ∀ s ∈ pre, s.elapsed < timeoutMs) (hev : ev.elapsed < timeoutMs)
    (hready : ev.ready = true)
    (hearlier : ∀ p q s, pre = p ++ s :: q → s.ready = true →
      responseComplete (self.m_responseBuffer ++ received (p ++ [s])) = false)
    (hdone : responseComplete (self.m_responseBuffer ++ received (pre ++ [ev])) = true) :
    waitForResponse codec self timeoutMs (pre ++ ev :: post)
      = (true, codec.fromUtf8 (self.m_responseBuffer ++ received (pre ++ [ev])),
          { self with m_responseBuffer := [] }) := by
  induction pre generalizing self with
  | nil =>
    have hd : responseComplete (self.m_responseBuffer ++ ev.data) = true := by
      simpa [received, hready] using hdone
    simp [waitForResponse, hev, hready, hd, received]
  | cons s pre ih =>
    have hs : s.elapsed < timeoutMs := hpre s (List.mem_cons_self _ _)
    have hpre' : ∀ x ∈ pre, x.elapsed < timeoutMs :=
      fun x hx => hpre x (List.mem_cons_of_mem _ hx)
    by_cases hr : s.ready = true
    · have hnot : responseComplete (self.m_responseBuffer ++ s.data) = false := by
        simpa [received, hr] using hearlier [] pre s rfl hr
      have hstep := ih { self with m_responseBuffer := self.m_responseBuffer ++ s.data }
        hpre'
        (by
          intro p q x hx hxr
          have := hearlier (s :: p) q x (by rw [hx]; rfl) hxr
          simpa [received, hr, List.append_assoc] using this)
        (by simpa [received, hr, List.append_assoc] using hdone)
      simp only [List.cons_append, waitForResponse, hs, hr, hnot, if_true]
      simpa [received, hr, List.append_assoc] using hstep
    · have hstep := ih self hpre'
        (by
          intro p q x hx hxr
          have := hearlier (s :: p) q x (by rw [hx]; rfl) hxr
          simpa [received, hr] using this)
        (by simpa [received, hr] using hdone)
      simp only [List.cons_append, waitForResponse, hs, hr, if_true]
      simpa [received, hr] using hstep

theorem waitForResponse_success (codec : TextCodec) (timeoutMs : Int) (steps : List WaitStep)
    (self : TinyBeeController) (out : QString) (self1 : TinyBeeController)
    (h : waitForResponse codec self timeoutMs steps = (true, out, self1)) :
    ∃ pre ev post, steps = pre ++ ev :: post ∧ ev.ready = true ∧
      responseComplete (self.m_responseBuffer ++ received (pre ++ [ev])) = true ∧
      out = codec.fromUtf8 (self.m_responseBuffer ++ received (pre ++ [ev])) ∧
      self1 = { self with m_responseBuffer := [] } := by
  induction steps generalizing self with
  | nil => simp [waitForResponse] at h
  | cons s rest ih =>
    unfold waitForResponse at h
    by_cases hs : s.elapsed < timeoutMs
    · by_cases hr : s.ready = true
      · by_cases hc : responseComplete (self.m_responseBuffer ++ s.data) = true
        · simp only [hs, hr, hc, if_true, Prod.mk.injEq, true_and] at h
          refine ⟨[], s, rest, rfl, hr, ?_, ?_, ?_⟩
          · simpa [received, hr] using hc
          · simpa [received, hr] using h.1.symm
          · exact h.2.symm
        · simp only [hs, hr, hc, if_true] at h
          obtain ⟨pre, ev, post, h1, h2, h3, h4, h5⟩ := ih _ h
          refine ⟨s :: pre, ev, post, by rw [h1]; rfl, h2, ?_, ?_, ?_⟩
          · simpa [received, hr, List.append_assoc] using h3
          · simpa [received, hr, List.append_assoc] using h4
          · simpa using h5
      · simp only [hs, hr, if_true] at h
        obtain ⟨pre, ev, post, h1, h2, h3, h4, h5⟩ := ih _ h
        refine ⟨s :: pre, ev, post, by rw [h1]; rfl, h2, ?_, ?_, h5⟩
        · simpa [received, hr] using h3
        · simpa [received, hr] using h4
    · simp [hs] at h

/-- The loop of `waitForResponse` taken by itself, the `readyRead` slot left
out: let the passes before the timeout be `pre`, then a read event `ev`, where
`ev` is the first read event after which the accumulated buffer contains "\nok"
or ends with a newline. Then the loop succeeds at `ev` whatever follows, returns
the whole accumulated buffer and leaves the buffer empty; and on the events
before `ev` alone it does not succeed. -/
theorem waitForResponse_first_complete (codec : TextCodec) (self : TinyBeeController)
    (timeoutMs : Int) (pre : List WaitStep) (ev : WaitStep) (post : List WaitStep)
    (hpre : ∀ s ∈ pre, s.elapsed < timeoutMs) (hev : ev.elapsed < timeoutMs)
    (hready : ev.ready = true)
    (hearlier : ∀ p q s, pre = p ++ s :: q → s.ready = true →
      responseComplete (self.m_responseBuffer ++ received (p ++ [s])) = false)
    (hdone : responseComplete (self.m_responseBuffer ++ received (pre ++ [ev])) = true) :
    waitForResponse codec self timeoutMs (pre ++ ev :: post)
      = (true, codec.fromUtf8 (self.m_responseBuffer ++ received (pre ++ [ev])),
          { self with m_responseBuffer := [] }) ∧
    (waitForResponse codec self timeoutMs pre).1 = false := by
  refine ⟨waitForResponse_at_first codec timeoutMs pre ev post self hpre hev hready hearlier hdone,
    ?_⟩
  rcases hres : waitForResponse codec self timeoutMs pre with ⟨b, out, self1⟩
  cases b with
  | false => rfl
  | true =>
    obtain ⟨p, s, q, h1, h2, h3, -, -⟩ :=
      waitForResponse_success codec timeoutMs pre self out self1 hres
    rw [hearlier p q s h1 h2] at h3
    exact absurd h3 (by decide)

/-- An instance for the loop without the slot: a reply split over two reads with
a failed wait in between. -/
theorem waitForResponse_first_complete_witness :
    waitForResponse asciiCodec connectedEngine 2000
        [readText 3 "X:1 Y:2", WaitStep.mk 10 false [], readText 20 " Z:3\n", readText 30 "ok\n"]
      = (true, "X:1 Y:2 Z:3\n".toList, connectedEngine) ∧
    (waitForResponse asciiCodec connectedEngine 2000
        [readText 3 "X:1 Y:2", WaitStep.mk 10 false []]).1 = false :=
  waitForResponse_first_complete asciiCodec connectedEngine 2000
    [readText 3 "X:1 Y:2", WaitStep.mk 10 false []] (readText 20 " Z:3\n") [readText 30 "ok\n"]
    (by decide) (by decide) (by decide)
    (by
      intro p q s h hs
      rcases p with _ | ⟨a, p⟩
      · simp only [List.nil_append, List.cons.injEq] at h
        rw [← h.1]
        decide
      · rcases p with _ | ⟨b, p⟩
        · simp only [List.cons_append, List.nil_append, List.cons.injEq] at h
          rw [← h.2.1] at hs
          exact absurd hs (by decide)
        · simp only [List.cons_append, List.cons.injEq] at h
          exact absurd h.2.2 (by simp))
    (by decide)

/-- C10: whenever sendCommand succeeds and the caller passed a non-null response
pointer, the text stored there is the accumulated response (the bytes received
since the buffer was cleared, up to the read event that completed the
response) with leading and trailing whitespace removed; it neither begins nor
ends with a whitespace character. -/
theorem sendCommand_response_trimmed (codec : TextCodec) (self : TinyBeeController)
    (cmd : GCodeCommand) (old : QString) (timeoutMs : Int) (dev : DeviceReply)
    (r : Option QString) (self1 : TinyBeeController)
    (h : sendCommand codec self cmd (some old) timeoutMs dev = (true, r, self1)) :
    ∃ pre ev post, dev.reads = pre ++ ev :: post ∧
      r = some (trimmed (codec.fromUtf8 (received (pre ++ [ev])))) ∧
      (∀ t c, r = some t → t.head? = some c → isSpace c = false) ∧
      (∀ t c, r = some t → t.getLast? = some c → isSpace c = false) := by
  unfold sendCommand at h
  split at h
  · simp at h
  · simp only at h
    split at h
    · simp at h
    · split at h
      · simp at h
      · split at h
        · simp at h
        · split at h
          · simp at h
          · rename_i resp self3 hw
            obtain ⟨pre, ev, post, h1, -, -, h4, -⟩ :=
              waitForResponse_success codec timeoutMs dev.reads _ resp self3 hw
            simp only [Option.map_some', Prod.mk.injEq, true_and] at h
            refine ⟨pre, ev, post, h1, ?_, ?_, ?_⟩
            · rw [← h.1, h4]
              rfl
            · intro t c ht hc
              rw [← h.1] at ht
              cases ht
              exact trimmed_head_not_space _ _ hc
            · intro t c ht hc
              rw [← h.1] at ht
              cases ht
              exact trimmed_getLast_not_space _ _ hc

/-- Instance of C10: an M114 exchange whose reply carries blanks at both ends. -/
theorem sendCommand_response_trimmed_witness :
    sendCommand asciiCodec connectedEngine (customCommand "M114".toList) (some []) 2000
        ⟨true, true, [readText 3 "  X:1 Y:2", readText 20 " Z:3 \r\n", readText 30 "ok\n"]⟩
      = (true, some "X:1 Y:2 Z:3".toList,
          { connectedEngine with
            m_serial := { isOpen := true, written := [[77, 49, 49, 52, 10]] } }) ∧
    ∃ pre ev post,
      [readText 3 "  X:1 Y:2", readText 20 " Z:3 \r\n", readText 30 "ok\n"] = pre ++ ev :: post ∧
      some "X:1 Y:2 Z:3".toList = some (trimmed (asciiCodec.fromUtf8 (received (pre ++ [ev])))) ∧
      (∀ t c, some "X:1 Y:2 Z:3".toList = some t → t.head? = some c → isSpace c = false) ∧
      (∀ t c, some "X:1 Y:2 Z:3".toList = some t → t.getLast? = some c → isSpace c = false) :=
  ⟨by decide,
    sendCommand_response_trimmed asciiCodec connectedEngine (customCommand "M114".toList) []
      2000 ⟨true, true, [readText 3 "  X:1 Y:2", readText 20 " Z:3 \r\n", readText 30 "ok\n"]⟩
      (some "X:1 Y:2 Z:3".toList)
      { connectedEngine with
        m_serial := { isOpen := true, written := [[77, 49, 49, 52, 10]] } }
      (by decide)⟩

/-! ## Lemmas on line reassembly -/

theorem splitAtNewlines_append (cur x b : QByteArray) :
    splitAtNewlines cur (x ++ b) =
      ((splitAtNewlines cur x).1 ++ (splitAtNewlines (splitAtNewlines cur x).2 b).1,
        (splitAtNewlines (splitAtNewlines cur x).2 b).2) := by
  induction x generalizing cur with
  | nil => rfl
  | cons y ys ih =>
    by_cases hy : y = 10
    · simp [splitAtNewlines, hy, ih]
    · simp [splitAtNewlines, hy, ih]

theorem splitAtNewlines_of_not_mem (cur b : QByteArray) (h : (10 : Byte) ∉ b) :
    splitAtNewlines cur b = ([], cur ++ b) := by
  induction b generalizing cur with
  | nil => simp [splitAtNewlines]
  | cons y ys ih =>
    have hy : y ≠ 10 := fun e => h (e ▸ List.mem_cons_self _ _)
    have hys : (10 : Byte) ∉ ys := fun e => h (List.mem_cons_of_mem _ e)
    simp [splitAtNewlines, hy, ih _ hys]

theorem splitAtNewlines_of_mem (cur b : QByteArray) (h : (10 : Byte) ∈ b) :
    splitAtNewlines cur b =
      ((cur ++ b.take (b.indexOf 10)) :: (splitAtNewlines [] (b.drop (b.indexOf 10 + 1))).1,
        (splitAtNewlines [] (b.drop (b.indexOf 10 + 1))).2) := by
  induction b generalizing cur with
  | nil => simp at h
  | cons y ys ih =>
    by_cases hy : y = 10
    · subst hy
      simp [splitAtNewlines, List.indexOf_cons_self]
    · have hys : (10 : Byte) ∈ ys := by
        rcases List.mem_cons.mp h with e | e
        · exact absurd e.symm hy
        · exact e
      have hidx : List.indexOf (10 : Byte) (y :: ys) = List.indexOf (10 : Byte) ys + 1 :=
        List.indexOf_cons_ne _ hy
      rw [hidx]
      simp [splitAtNewlines, hy, ih _ hys]

theorem segments_length_le (cur b : QByteArray) : (splitAtNewlines cur b).1.length ≤ b.length := by
  induction b generalizing cur with
  | nil => simp [splitAtNewlines]
  | cons y ys ih =>
    by_cases hy : y = 10
    · simp only [splitAtNewlines, hy, if_true, List.length_cons]
      exact Nat.succ_le_succ (ih [])
    · simp only [splitAtNewlines, hy, if_false, List.length_cons]
      exact Nat.le_succ_of_le (ih _)

theorem segments_no_newline (cur b : QByteArray) (hcur : (10 : Byte) ∉ cur) :
    (∀ seg ∈ (splitAtNewlines cur b).1, (10 : Byte) ∉ seg) ∧
      (10 : Byte) ∉ (splitAtNewlines cur b).2 := by
  induction b generalizing cur with
  | nil => simpa [splitAtNewlines] using hcur
  | cons y ys ih =>
    by_cases hy : y = 10
    · have := ih [] (by simp)
      simp only [splitAtNewlines, hy, if_true, List.mem_cons, forall_eq_or_imp]
      exact ⟨⟨hcur, this.1⟩, this.2⟩
    · simp only [splitAtNewlines, hy, if_false]
      apply ih
      intro hm
      rcases List.mem_append.mp hm with e | e
      · exact hcur e
      · exact hy (List.mem_singleton.mp e).symm

theorem segments_join (cur b : QByteArray) :
    cur ++ b = ((splitAtNewlines cur b).1.map fun seg => seg ++ [10]).flatten ++
      (splitAtNewlines cur b).2 := by
  induction b generalizing cur with
  | nil => simp [splitAtNewlines]
  | cons y ys ih =>
    by_cases hy : y = 10
    · have := ih []
      simp only [List.nil_append] at this
      simp only [splitAtNewlines, hy, if_true, List.map_cons, List.flatten_cons, List.append_assoc,
        List.singleton_append, List.cons_append]
      rw [← this]
      rfl
    · have := ih (cur ++ [y])
      simp only [splitAtNewlines, hy, if_false]
      rw [← this]
      simp

theorem afterLastNewline_eq (b : QByteArray) : afterLastNewline b = (splitAtNewlines [] b).2 := by
  have hj := segments_join [] b
  have hn := (segments_no_newline [] b (by simp)).2
  generalize (splitAtNewlines [] b).2 = r at hj hn
  generalize (splitAtNewlines [] b).1 = segs at hj
  simp only [List.nil_append] at hj
  rw [hj]
  unfold afterLastNewline
  have hr : ∀ x ∈ r.reverse, (x != 10) = true := by
    intro x hx
    have hx' : x ∈ r := List.mem_reverse.mp hx
    simpa using fun e : x = 10 => hn (e ▸ hx')
  rw [List.reverse_append]
  induction segs using List.reverseRecOn with
  | nil =>
    simp only [List.map_nil, List.flatten_nil, List.reverse_nil, List.append_nil]
    rw [List.takeWhile_eq_self_iff.mpr hr, List.reverse_reverse]
  | append_singleton segs seg _ =>
    simp only [List.map_append, List.map_cons, List.map_nil, List.flatten_append, List.flatten_cons,
      List.flatten_nil, List.append_nil, List.reverse_append, List.reverse_cons, List.reverse_nil,
      List.nil_append, List.singleton_append, List.cons_append]
    rw [List.takeWhile_append_of_pos hr]
    simp

theorem indexOfByte_of_mem (b : QByteArray) (h : (10 : Byte) ∈ b) :
    indexOfByte b 10 = (b.indexOf (10 : Byte) : Int) := by
  simp [indexOfByte, h]

theorem indexOfByte_of_not_mem (b : QByteArray) (h : (10 : Byte) ∉ b) :
    indexOfByte b 10 = -1 := by
  simp [indexOfByte, h]

namespace MotorControlWidget

theorem foldl_reportPosition (s : MotorControlWidget) :
    axisControls.foldl reportPosition s =
      ((s.emit (.positionChanged "X".toList s.lastPosX)).emit
        (.positionChanged "Y".toList s.lastPosY)).emit
        (.positionChanged "Z".toList s.lastPosZ) := rfl

theorem setBuffer_setBuffer (s : MotorControlWidget) (b c : QByteArray) :
    (s.setBuffer b).setBuffer c = s.setBuffer c := rfl

theorem setBuffer_self (s : MotorControlWidget) : s.setBuffer s.buffer = s := rfl

theorem handleLine_setBuffer (s : MotorControlWidget) (b : QByteArray) (line : QString) :
    handleLine (s.setBuffer b) line = (handleLine s line).setBuffer b := by
  unfold handleLine
  simp only [foldl_reportPosition]
  split
  · split <;> rfl
  · rfl

theorem handleLine_buffer (s : MotorControlWidget) (line : QString) :
    (handleLine s line).buffer = s.buffer := by
  unfold handleLine
  simp only [foldl_reportPosition]
  split
  · split <;> rfl
  · rfl

theorem handleSegment_setBuffer (codec : TextCodec) (s : MotorControlWidget) (b : QByteArray)
    (seg : QByteArray) :
    handleSegment codec (s.setBuffer b) seg = (handleSegment codec s seg).setBuffer b := by
  unfold handleSegment
  split
  · rfl
  · exact handleLine_setBuffer s b _

theorem foldl_handleSegment_setBuffer (codec : TextCodec) (segs : List QByteArray)
    (s : MotorControlWidget) (b : QByteArray) :
    segs.foldl (handleSegment codec) (s.setBuffer b)
      = (segs.foldl (handleSegment codec) s).setBuffer b := by
  induction segs generalizing s with
  | nil => rfl
  | cons seg segs ih =>
    simp only [List.foldl_cons]
    rw [handleSegment_setBuffer, ih]

/-- One pass of the loop on a buffer that holds a newline. -/
theorem handleSerialReadLoop_succ (codec : TextCodec) (fuel : Nat) (s : MotorControlWidget)
    (hm : (10 : Byte) ∈ s.buffer) :
    handleSerialReadLoop codec (fuel + 1) s =
      handleSerialReadLoop codec fuel
        ((handleSegment codec s (s.buffer.take (s.buffer.indexOf (10 : Byte)))).setBuffer
          (s.buffer.drop (s.buffer.indexOf (10 : Byte) + 1))) := by
  have hc : s.buffer.contains 10 = true := by simpa using hm
  have h1 : (indexOfByte s.buffer 10).toNat = s.buffer.indexOf (10 : Byte) := by
    rw [indexOfByte_of_mem _ hm]
    rfl
  have h2 : (indexOfByte s.buffer 10 + 1).toNat = s.buffer.indexOf (10 : Byte) + 1 := by
    rw [indexOfByte_of_mem _ hm]
    rfl
  rw [← handleSegment_setBuffer]
  conv_lhs => unfold handleSerialReadLoop
  simp only [hc, if_true, h1, h2]
  unfold handleSegment
  cases (trimmed (codec.fromUtf8 (s.buffer.take (s.buffer.indexOf (10 : Byte))))).isEmpty <;> rfl

/-- The loop on a buffer without newline. -/
theorem handleSerialReadLoop_done (codec : TextCodec) (fuel : Nat) (s : MotorControlWidget)
    (hm : (10 : Byte) ∉ s.buffer) : handleSerialReadLoop codec fuel s = s := by
  have hc : s.buffer.contains 10 = false := by simpa using hm
  cases fuel with
  | zero => rfl
  | succ fuel =>
    unfold handleSerialReadLoop
    simp only [hc]
    rfl

/-- The loop, given enough passes, handles the segments of the buffer in order
and leaves the rest after the last newline. -/
theorem handleSerialReadLoop_eq (codec : TextCodec) (fuel : Nat) (s : MotorControlWidget)
    (h : (segments s.buffer).length ≤ fuel) :
    handleSerialReadLoop codec fuel s =
      ((segments s.buffer).foldl (handleSegment codec) s).setBuffer
        (splitAtNewlines [] s.buffer).2 := by
  induction fuel generalizing s with
  | zero =>
    have hnil : segments s.buffer = [] := List.length_eq_zero.mp (Nat.le_zero.mp h)
    have hmem : (10 : Byte) ∉ s.buffer := by
      intro hm
      have := splitAtNewlines_of_mem [] s.buffer hm
      unfold segments at hnil
      rw [this] at hnil
      exact absurd hnil (List.cons_ne_nil _ _)
    rw [hnil, splitAtNewlines_of_not_mem [] _ hmem]
    rfl
  | succ fuel ih =>
    by_cases hm : (10 : Byte) ∈ s.buffer
    · have hsplit := splitAtNewlines_of_mem [] s.buffer hm
      have hseg : segments s.buffer = s.buffer.take (s.buffer.indexOf (10 : Byte)) ::
          segments (s.buffer.drop (s.buffer.indexOf (10 : Byte) + 1)) := by
        unfold segments
        rw [hsplit]
        rfl
      have hlen : (segments (s.buffer.drop (s.buffer.indexOf (10 : Byte) + 1))).length ≤ fuel := by
        rw [hseg] at h
        exact Nat.le_of_succ_le_succ h
      rw [handleSerialReadLoop_succ codec fuel s hm, ih _ hlen, hseg, hsplit, List.foldl_cons]
      show (List.foldl (handleSegment codec) (setBuffer _ _) _).setBuffer _ = _
      rw [foldl_handleSegment_setBuffer, setBuffer_setBuffer]
      rfl
    · rw [handleSerialReadLoop_done codec _ s hm]
      have : segments s.buffer = [] := by
        unfold segments
        rw [splitAtNewlines_of_not_mem [] _ hm]
      rw [this, splitAtNewlines_of_not_mem [] _ hm]
      rfl

/-- Closed form of `handleSerialRead`. -/
theorem handleSerialRead_eq (codec : TextCodec) (s : MotorControlWidget) (data : QByteArray) :
    handleSerialRead codec s data =
      ((segments (s.buffer ++ data)).foldl (handleSegment codec) s).setBuffer
        (splitAtNewlines [] (s.buffer ++ data)).2 := by
  show handleSerialReadLoop codec (s.buffer ++ data).length (s.setBuffer (s.buffer ++ data)) = _
  rw [handleSerialReadLoop_eq codec (s.buffer ++ data).length (s.setBuffer (s.buffer ++ data))
    (segments_length_le [] _)]
  show (List.foldl (handleSegment codec) (s.setBuffer _) _).setBuffer _ = _
  rw [foldl_handleSegment_setBuffer, setBuffer_setBuffer]
  rfl

end MotorControlWidget

theorem take_indexOf_succ (b : QByteArray) (h : (10 : Byte) ∈ b) :
    b.take (b.indexOf (10 : Byte) + 1) = b.take (b.indexOf (10 : Byte)) ++ [10] := by
  induction b with
  | nil => simp at h
  | cons y ys ih =>
    by_cases hy : y = 10
    · subst hy
      simp [List.indexOf_cons_self]
    · have hys : (10 : Byte) ∈ ys := by
        rcases List.mem_cons.mp h with e | e
        · exact absurd e.symm hy
        · exact e
      have hidx : List.indexOf (10 : Byte) (y :: ys) = List.indexOf (10 : Byte) ys + 1 :=
        List.indexOf_cons_ne _ hy
      rw [hidx]
      simp [ih hys]

namespace MainWindow

theorem window_setBuffer_setBuffer (s : MainWindow) (b c : QByteArray) :
    (s.setBuffer b).setBuffer c = s.setBuffer c := rfl

theorem window_handleSegment_setBuffer (codec : TextCodec) (s : MainWindow) (b : QByteArray)
    (seg : QByteArray) :
    handleSegment codec (s.setBuffer b) seg = (handleSegment codec s seg).setBuffer b := by
  unfold handleSegment
  split <;> rfl

theorem window_foldl_handleSegment_setBuffer (codec : TextCodec) (segs : List QByteArray)
    (s : MainWindow) (b : QByteArray) :
    segs.foldl (handleSegment codec) (s.setBuffer b)
      = (segs.foldl (handleSegment codec) s).setBuffer b := by
  induction segs generalizing s with
  | nil => rfl
  | cons seg segs ih =>
    simp only [List.foldl_cons]
    rw [window_handleSegment_setBuffer, ih]

/-- One pass of the loop on a buffer that holds a newline. -/
theorem window_handleSerialReadLoop_succ (codec : TextCodec) (fuel : Nat) (s : MainWindow)
    (hm : (10 : Byte) ∈ s.buffer) :
    handleSerialReadLoop codec (fuel + 1) s =
      handleSerialReadLoop codec fuel
        ((handleSegment codec s (s.buffer.take (s.buffer.indexOf (10 : Byte)))).setBuffer
          (s.buffer.drop (s.buffer.indexOf (10 : Byte) + 1))) := by
  have h0 : ¬ indexOfByte s.buffer 10 = -1 := by
    rw [indexOfByte_of_mem _ hm]
    omega
  have h2 : (indexOfByte s.buffer 10 + 1).toNat = s.buffer.indexOf (10 : Byte) + 1 := by
    rw [indexOfByte_of_mem _ hm]
    rfl
  rw [← window_handleSegment_setBuffer]
  conv_lhs => unfold handleSerialReadLoop
  simp only [h0, if_false, h2, take_indexOf_succ _ hm]
  unfold handleSegment
  cases (trimmed (codec.fromUtf8 (s.buffer.take (s.buffer.indexOf (10 : Byte)) ++ [10]))).isEmpty
    <;> rfl

/-- The loop on a buffer without newline. -/
theorem window_handleSerialReadLoop_done (codec : TextCodec) (fuel : Nat) (s : MainWindow)
    (hm : (10 : Byte) ∉ s.buffer) : handleSerialReadLoop codec fuel s = s := by
  cases fuel with
  | zero => rfl
  | succ fuel =>
    unfold handleSerialReadLoop
    simp only [indexOfByte_of_not_mem _ hm, if_true]

/-- The loop, given enough passes, handles the segments of the buffer in order
and leaves the rest after the last newline. -/
theorem window_handleSerialReadLoop_eq (codec : TextCodec) (fuel : Nat) (s : MainWindow)
    (h : (segments s.buffer).length ≤ fuel) :
    handleSerialReadLoop codec fuel s =
      ((segments s.buffer).foldl (handleSegment codec) s).setBuffer
        (splitAtNewlines [] s.buffer).2 := by
  induction fuel generalizing s with
  | zero =>
    have hnil : segments s.buffer = [] := List.length_eq_zero.mp (Nat.le_zero.mp h)
    have hmem : (10 : Byte) ∉ s.buffer := by
      intro hm
      have := splitAtNewlines_of_mem [] s.buffer hm
      unfold segments at hnil
      rw [this] at hnil
      exact absurd hnil (List.cons_ne_nil _ _)
    rw [hnil, splitAtNewlines_of_not_mem [] _ hmem]
    rfl
  | succ fuel ih =>
    by_cases hm : (10 : Byte) ∈ s.buffer
    · have hsplit := splitAtNewlines_of_mem [] s.buffer hm
      have hseg : segments s.buffer = s.buffer.take (s.buffer.indexOf (10 : Byte)) ::
          segments (s.buffer.drop (s.buffer.indexOf (10 : Byte) + 1)) := by
        unfold segments
        rw [hsplit]
        rfl
      have hlen : (segments (s.buffer.drop (s.buffer.indexOf (10 : Byte) + 1))).length ≤ fuel := by
        rw [hseg] at h
        exact Nat.le_of_succ_le_succ h
      rw [window_handleSerialReadLoop_succ codec fuel s hm, ih _ hlen, hseg, hsplit, List.foldl_cons]
      show (List.foldl (handleSegment codec) (setBuffer _ _) _).setBuffer _ = _
      rw [window_foldl_handleSegment_setBuffer, window_setBuffer_setBuffer]
      rfl
    · rw [window_handleSerialReadLoop_done codec _ s hm]
      have : segments s.buffer = [] := by
        unfold segments
        rw [splitAtNewlines_of_not_mem [] _ hm]
      rw [this, splitAtNewlines_of_not_mem [] _ hm]
      rfl

/-- Closed form of `handleSerialRead`. -/
theorem window_handleSerialRead_eq (codec : TextCodec) (s : MainWindow) (data : QByteArray) :
    handleSerialRead codec s data =
      ((segments (s.buffer ++ data)).foldl (handleSegment codec) s).setBuffer
        (splitAtNewlines [] (s.buffer ++ data)).2 := by
  show handleSerialReadLoop codec (s.buffer ++ data).length (s.setBuffer (s.buffer ++ data)) = _
  rw [window_handleSerialReadLoop_eq codec (s.buffer ++ data).length (s.setBuffer (s.buffer ++ data))
    (segments_length_le [] _)]
  show (List.foldl (handleSegment codec) (s.setBuffer _) _).setBuffer _ = _
  rw [window_foldl_handleSegment_setBuffer, window_setBuffer_setBuffer]
  rfl

end MainWindow

namespace MotorControlWidget

theorem handleLine_statusLog (s : MotorControlWidget) (line : QString) :
    (handleLine s line).statusLog = s.statusLog ++ [LogLine.rx (lineColour line) line] := by
  unfold handleLine
  simp only [foldl_reportPosition]
  split
  · split <;> rfl
  · rfl

theorem foldl_handleSegment_statusLog (codec : TextCodec) (segs : List QByteArray)
    (s : MotorControlWidget) :
    (segs.foldl (handleSegment codec) s).statusLog =
      s.statusLog ++ (reportedLines codec segs).map fun l => LogLine.rx (lineColour l) l := by
  induction segs generalizing s with
  | nil => simp [reportedLines]
  | cons seg segs ih =>
    rw [List.foldl_cons, ih]
    unfold handleSegment
    by_cases he : (trimmed (codec.fromUtf8 seg)).isEmpty = true
    · simp [reportedLines, he]
    · simp [reportedLines, he, handleLine_statusLog]

/-- What one line does to the last-known positions: nothing, or all three are
replaced by the captures of the position pattern in that line. -/
theorem handleLine_positions (s : MotorControlWidget) (line : QString) :
    ((handleLine s line).lastPosX = s.lastPosX ∧ (handleLine s line).lastPosY = s.lastPosY ∧
      (handleLine s line).lastPosZ = s.lastPosZ) ∨
    ∃ c1 c2 c3, matchPosition line = some (c1, c2, c3) ∧
      (handleLine s line).lastPosX = (toDouble c1).1 ∧
      (handleLine s line).lastPosY = (toDouble c2).1 ∧
      (handleLine s line).lastPosZ = (toDouble c3).1 := by
  unfold handleLine
  simp only [foldl_reportPosition]
  split
  · split
    · rename_i c1 c2 c3 hm
      exact Or.inr ⟨c1, c2, c3, hm, rfl, rfl, rfl⟩
    · exact Or.inl ⟨rfl, rfl, rfl⟩
  · exact Or.inl ⟨rfl, rfl, rfl⟩

end MotorControlWidget

namespace MainWindow

theorem window_foldl_handleSegment_statusLog (codec : TextCodec) (segs : List QByteArray)
    (s : MainWindow) :
    (segs.foldl (handleSegment codec) s).statusLog =
      s.statusLog ++ (reportedLines codec (segs.map fun seg => seg ++ [10])).map
        fun l => LogLine.status l := by
  induction segs generalizing s with
  | nil => simp [reportedLines]
  | cons seg segs ih =>
    rw [List.foldl_cons, ih]
    unfold handleSegment
    by_cases he : (trimmed (codec.fromUtf8 (seg ++ [10]))).isEmpty = true
    · simp [reportedLines, he]
    · simp [reportedLines, he, updateStatus]

end MainWindow

/-- C12, the claim as stated fails: the chunk "ok\nX:1.0 Y:2.0 Z:3.0\nok\n"
fed to an empty buffer yields three lines, not two. -/
theorem handleSerialRead_three_lines_counterexample :
    ((mkWidget true true).handleSerialRead asciiCodec
        (asciiBytes "ok\nX:1.0 Y:2.0 Z:3.0\nok\n")).statusLog.length = 3 ∧
    ((mkWidget true true).handleSerialRead asciiCodec
        (asciiBytes "ok\nX:1.0 Y:2.0 Z:3.0\nok\n")).statusLog.length ≠ 2 ∧
    ((mkWindow true true).handleSerialRead asciiCodec
        (asciiBytes "ok\nX:1.0 Y:2.0 Z:3.0\nok\n")).statusLog.length ≠ 2 := by
  decide

/-- C12 as amended: the chunk "ok\nX:1.0 Y:2.0 Z:3.0\nok\n" fed to an empty
buffer yields the three lines "ok", "X:1.0 Y:2.0 Z:3.0", "ok" in stream order
and leaves no residual, in the widget and in the earlier main window. -/
theorem handleSerialRead_single_chunk :
    ((mkWidget true true).handleSerialRead asciiCodec
        (asciiBytes "ok\nX:1.0 Y:2.0 Z:3.0\nok\n")).statusLog
      = [LogLine.rx .green "ok".toList, LogLine.rx .blue "X:1.0 Y:2.0 Z:3.0".toList,
          LogLine.rx .green "ok".toList] ∧
    ((mkWidget true true).handleSerialRead asciiCodec
        (asciiBytes "ok\nX:1.0 Y:2.0 Z:3.0\nok\n")).buffer = [] ∧
    ((mkWindow true true).handleSerialRead asciiCodec
        (asciiBytes "ok\nX:1.0 Y:2.0 Z:3.0\nok\n")).statusLog
      = [LogLine.status "ok".toList, LogLine.status "X:1.0 Y:2.0 Z:3.0".toList,
          LogLine.status "ok".toList] ∧
    ((mkWindow true true).handleSerialRead asciiCodec
        (asciiBytes "ok\nX:1.0 Y:2.0 Z:3.0\nok\n")).buffer = [] := by
  decide

/-- C13: after every call of handleSerialRead, for every prior buffer and every
incoming byte string, the buffer holds no newline and is the part of
old buffer ++ new bytes after its last newline (all of it when there is none);
the bytes before it are newline-terminated segments, and the lines logged by
the call are exactly these segments, decoded and trimmed, the empty ones left
out, in order. This holds in the widget and in the earlier main window. -/
theorem handleSerialRead_buffer_and_lines (codec : TextCodec) (w : MotorControlWidget)
    (m : MainWindow) (data : QByteArray) :
    ((10 : Byte) ∉ (w.handleSerialRead codec data).buffer ∧
      (w.handleSerialRead codec data).buffer = afterLastNewline (w.buffer ++ data) ∧
      ∃ segs : List QByteArray, (∀ seg ∈ segs, (10 : Byte) ∉ seg) ∧
        w.buffer ++ data
          = (segs.map fun seg => seg ++ [10]).flatten ++ (w.handleSerialRead codec data).buffer ∧
        (w.handleSerialRead codec data).statusLog = w.statusLog ++
          (reportedLines codec segs).map fun l => LogLine.rx (MotorControlWidget.lineColour l) l) ∧
    ((10 : Byte) ∉ (m.handleSerialRead codec data).buffer ∧
      (m.handleSerialRead codec data).buffer = afterLastNewline (m.buffer ++ data) ∧
      ∃ segs : List QByteArray, (∀ seg ∈ segs, (10 : Byte) ∉ seg) ∧
        m.buffer ++ data
          = (segs.map fun seg => seg ++ [10]).flatten ++ (m.handleSerialRead codec data).buffer ∧
        (m.handleSerialRead codec data).statusLog = m.statusLog ++
          (reportedLines codec (segs.map fun seg => seg ++ [10])).map
            fun l => LogLine.status l) := by
  constructor
  · rw [MotorControlWidget.handleSerialRead_eq]
    have hn := segments_no_newline [] (w.buffer ++ data) (by simp)
    refine ⟨hn.2, (afterLastNewline_eq _).symm, segments (w.buffer ++ data), hn.1, ?_, ?_⟩
    · exact segments_join [] (w.buffer ++ data)
    · exact MotorControlWidget.foldl_handleSegment_statusLog codec _ w
  · rw [MainWindow.window_handleSerialRead_eq]
    have hn := segments_no_newline [] (m.buffer ++ data) (by simp)
    refine ⟨hn.2, (afterLastNewline_eq _).symm, segments (m.buffer ++ data), hn.1, ?_, ?_⟩
    · exact segments_join [] (m.buffer ++ data)
    · exact MainWindow.window_foldl_handleSegment_statusLog codec _ m

namespace MotorControlWidget

theorem handleSegment_positions (codec : TextCodec) (s : MotorControlWidget) (seg : QByteArray) :
    ((handleSegment codec s seg).lastPosX = s.lastPosX ∧
      (handleSegment codec s seg).lastPosY = s.lastPosY ∧
      (handleSegment codec s seg).lastPosZ = s.lastPosZ) ∨
    ∃ c1 c2 c3, matchPosition (trimmed (codec.fromUtf8 seg)) = some (c1, c2, c3) ∧
      (handleSegment codec s seg).lastPosX = (toDouble c1).1 ∧
      (handleSegment codec s seg).lastPosY = (toDouble c2).1 ∧
      (handleSegment codec s seg).lastPosZ = (toDouble c3).1 := by
  unfold handleSegment
  split
  · exact Or.inl ⟨rfl, rfl, rfl⟩
  · exact handleLine_positions s _

theorem foldl_handleSegment_positions (codec : TextCodec) (segs : List QByteArray)
    (s : MotorControlWidget) :
    ((segs.foldl (handleSegment codec) s).lastPosX = s.lastPosX ∧
      (segs.foldl (handleSegment codec) s).lastPosY = s.lastPosY ∧
      (segs.foldl (handleSegment codec) s).lastPosZ = s.lastPosZ) ∨
    ∃ seg ∈ segs, ∃ c1 c2 c3, matchPosition (trimmed (codec.fromUtf8 seg)) = some (c1, c2, c3) ∧
      (segs.foldl (handleSegment codec) s).lastPosX = (toDouble c1).1 ∧
      (segs.foldl (handleSegment codec) s).lastPosY = (toDouble c2).1 ∧
      (segs.foldl (handleSegment codec) s).lastPosZ = (toDouble c3).1 := by
  induction segs generalizing s with
  | nil => exact Or.inl ⟨rfl, rfl, rfl⟩
  | cons seg segs ih =>
    rw [List.foldl_cons]
    rcases ih (handleSegment codec s seg) with ⟨hx, hy, hz⟩ | ⟨seg1, hmem, c1, c2, c3, hm, hx, hy, hz⟩
    · rcases handleSegment_positions codec s seg with ⟨kx, ky, kz⟩ | ⟨c1, c2, c3, hm, kx, ky, kz⟩
      · exact Or.inl ⟨hx.trans kx, hy.trans ky, hz.trans kz⟩
      · exact Or.inr ⟨seg, List.mem_cons_self _ _, c1, c2, c3, hm, hx.trans kx, hy.trans ky,
          hz.trans kz⟩
    · exact Or.inr ⟨seg1, List.mem_cons_of_mem _ hmem, c1, c2, c3, hm, hx, hy, hz⟩

end MotorControlWidget

/-- C20: position updates are all-or-nothing. Every inbound line either leaves
lastPosX, lastPosY and lastPosZ all unchanged or replaces all three by the
numbers captured from that line; and after a call of handleSerialRead the three
are either all as before the call or all three captured from one and the same
line of the input. -/
theorem position_update_all_or_nothing (codec : TextCodec) (w : MotorControlWidget)
    (line : QString) (data : QByteArray) :
    (((w.handleLine line).lastPosX = w.lastPosX ∧ (w.handleLine line).lastPosY = w.lastPosY ∧
        (w.handleLine line).lastPosZ = w.lastPosZ) ∨
      ∃ c1 c2 c3, matchPosition line = some (c1, c2, c3) ∧
        (w.handleLine line).lastPosX = (toDouble c1).1 ∧
        (w.handleLine line).lastPosY = (toDouble c2).1 ∧
        (w.handleLine line).lastPosZ = (toDouble c3).1) ∧
    (((w.handleSerialRead codec data).lastPosX = w.lastPosX ∧
        (w.handleSerialRead codec data).lastPosY = w.lastPosY ∧
        (w.handleSerialRead codec data).lastPosZ = w.lastPosZ) ∨
      ∃ seg ∈ segments (w.buffer ++ data), ∃ c1 c2 c3,
        matchPosition (trimmed (codec.fromUtf8 seg)) = some (c1, c2, c3) ∧
        (w.handleSerialRead codec data).lastPosX = (toDouble c1).1 ∧
        (w.handleSerialRead codec data).lastPosY = (toDouble c2).1 ∧
        (w.handleSerialRead codec data).lastPosZ = (toDouble c3).1) := by
  refine ⟨MotorControlWidget.handleLine_positions w line, ?_⟩
  rw [MotorControlWidget.handleSerialRead_eq]
  exact MotorControlWidget.foldl_handleSegment_positions codec _ w

/-! ## Lemmas on response parsing -/

theorem takeWhile_ne_eq_take (a : Char) (l : QString) :
    l.takeWhile (fun c => c != a) = l.take (l.indexOf a) := by
  induction l with
  | nil => rfl
  | cons c cs ih =>
    by_cases hc : c = a
    · subst hc
      simp [List.indexOf_cons_self]
    · have hb : (c != a) = true := by simpa using hc
      rw [List.indexOf_cons_ne _ (fun e => hc e)]
      simp [List.takeWhile, hb, ih]

theorem dropWhile_ne_eq_drop (a : Char) (l : QString) :
    l.dropWhile (fun c => c != a) = l.drop (l.indexOf a) := by
  induction l with
  | nil => rfl
  | cons c cs ih =>
    by_cases hc : c = a
    · subst hc
      simp [List.indexOf_cons_self]
    · have hb : (c != a) = true := by simpa using hc
      rw [List.indexOf_cons_ne _ (fun e => hc e)]
      simp [List.dropWhile, hb, ih]

theorem drop_indexOf_of_mem (a : Char) (l : QString) (h : a ∈ l) :
    l.drop (l.indexOf a) = a :: l.drop (l.indexOf a + 1) := by
  induction l with
  | nil => simp at h
  | cons c cs ih =>
    by_cases hc : c = a
    · subst hc
      simp [List.indexOf_cons_self]
    · have hcs : a ∈ cs := by
        rcases List.mem_cons.mp h with e | e
        · exact absurd e.symm hc
        · exact e
      rw [List.indexOf_cons_ne _ (fun e => hc e)]
      simpa using ih hcs

theorem tokenEntry_eq_some (t k v : QString) :
    tokenEntry t = some (k, v) ↔ (t = k ++ ':' :: v ∧ ':' ∉ k ∧ k ≠ [] ∧ v ≠ []) := by
  constructor
  · intro h
    unfold tokenEntry at h
    have hsplit := List.takeWhile_append_dropWhile (fun c => c != ':') t
    have hk : ∀ c ∈ t.takeWhile (fun c => c != ':'), c ≠ ':' := by
      intro c hc
      simpa using List.mem_takeWhile_imp hc
    have hhead := List.head?_dropWhile_not (fun c => c != ':') t
    generalize t.takeWhile (fun c => c != ':') = key at h hsplit hk
    generalize t.dropWhile (fun c => c != ':') = rest at h hsplit hhead
    cases rest with
    | nil => simp at h
    | cons c value =>
      have hc : c = ':' := by simpa using hhead
      subst hc
      simp only at h
      split at h
      · simp at h
      · rename_i hne
        simp only [Option.some.injEq, Prod.mk.injEq] at h
        obtain ⟨rfl, rfl⟩ := h
        simp only [Bool.or_eq_true, List.isEmpty_iff, not_or] at hne
        exact ⟨hsplit.symm, fun hm => hk _ hm rfl, hne.1, hne.2⟩
  · rintro ⟨rfl, hk, hkne, hvne⟩
    have hpos : ∀ c ∈ k, (c != ':') = true := by
      intro c hc
      simpa using fun e : c = ':' => hk (e ▸ hc)
    unfold tokenEntry
    rw [List.dropWhile_append_of_pos hpos, List.takeWhile_append_of_pos hpos]
    simp [List.dropWhile, List.takeWhile, hkne, hvne]

namespace TinyBeeController

/-- The loop body of `parseResponse` adds the entry of the token, if it has one. -/
theorem parsePart_eq (parsed : QHash) (part : QString) :
    parsePart parsed part =
      match tokenEntry part with
      | some e => parsed.insert e.1 e.2
      | none => parsed := by
  unfold parsePart tokenEntry
  rw [takeWhile_ne_eq_take, dropWhile_ne_eq_drop]
  by_cases hm : ':' ∈ part
  · have hidx : indexOfChar part ':' = (part.indexOf ':' : Int) := by
      simp [indexOfChar, hm]
    have hlt : part.indexOf ':' < part.length := List.indexOf_lt_length.mpr hm
    rw [hidx, drop_indexOf_of_mem _ _ hm]
    have h1 : ((part.indexOf ':' : Nat) : Int).toNat = part.indexOf ':' := rfl
    have h2 : ((part.indexOf ':' : Int) + 1).toNat = part.indexOf ':' + 1 := rfl
    simp only [h1, h2]
    by_cases hc : 0 < (part.indexOf ':' : Int) ∧ (part.indexOf ':' : Int) < (part.length : Int) - 1
    · have hk : (part.take (part.indexOf ':')).isEmpty = false := by
        rw [List.isEmpty_eq_false]
        intro e
        have := congrArg List.length e
        rw [List.length_take, List.length_nil] at this
        omega
      have hv : (part.drop (part.indexOf ':' + 1)).isEmpty = false := by
        rw [List.isEmpty_eq_false]
        intro e
        have := List.drop_eq_nil_iff.mp e
        omega
      rw [if_pos hc]
      simp only [hk, hv, Bool.or_self, Bool.false_eq_true, if_false]
    · have hkv : ((part.take (part.indexOf ':')).isEmpty ||
          (part.drop (part.indexOf ':' + 1)).isEmpty) = true := by
        rw [Bool.or_eq_true, List.isEmpty_iff, List.isEmpty_iff]
        by_cases h0 : part.indexOf ':' = 0
        · left
          simp [h0]
        · right
          rw [List.drop_eq_nil_iff]
          omega
      rw [if_neg hc]
      simp only [hkv, if_true]
  · have hidx : indexOfChar part ':' = -1 := by
      simp [indexOfChar, hm]
    have hlen : part.indexOf ':' = part.length := List.indexOf_eq_length.mpr hm
    rw [hidx, hlen]
    simp

theorem foldl_parsePart (parts : List QString) (parsed : QHash) :
    parts.foldl parsePart parsed =
      (parts.filterMap tokenEntry).foldl (fun h e => h.insert e.1 e.2) parsed := by
  induction parts generalizing parsed with
  | nil => rfl
  | cons p ps ih =>
    rw [List.foldl_cons, ih, parsePart_eq]
    cases he : tokenEntry p with
    | none => simp [List.filterMap_cons, he]
    | some e => simp [List.filterMap_cons, he]

theorem foldl_insert_isEmpty (es : List (QString × QString)) (parsed : QHash) :
    (es.foldl (fun h e => QHash.insert h e.1 e.2) parsed).isEmpty = (es.isEmpty && parsed.isEmpty) := by
  induction es generalizing parsed with
  | nil => simp
  | cons e es ih =>
    rw [List.foldl_cons, ih]
    simp [QHash.insert]

end TinyBeeController

theorem toDouble_value_ok (h : QHash) (key : QString) :
    (toDouble (h.value key)).2 = true ↔
      ∃ v, h.lookup key = some v ∧ (toDouble v).2 = true := by
  unfold QHash.value
  cases hl : h.lookup key with
  | none =>
    have : (toDouble []).2 = false := by decide
    simp [this]
  | some v => simp

/-! ## Position query -/

open TinyBeeController

/-- C14: when the M114 exchange returns a response text, getPosition succeeds
if and only if the mapping parsed from it has, for each of the keys X, Y and Z,
a value that toDouble accepts as a number; on success the caller's position
holds those three numbers. -/
theorem getPosition_iff (codec : TextCodec) (self : TinyBeeController) (pos : MotorPosition)
    (timeoutMs : Int) (dev : DeviceReply) (response : QString) (self1 : TinyBeeController)
    (h : sendCommand codec self m114 (some []) timeoutMs dev = (true, some response, self1)) :
    ((getPosition codec self pos timeoutMs dev).1 = true ↔
      (∃ v, (parseResponse self1 response []).2.lookup "X".toList = some v ∧
        (toDouble v).2 = true) ∧
      (∃ v, (parseResponse self1 response []).2.lookup "Y".toList = some v ∧
        (toDouble v).2 = true) ∧
      (∃ v, (parseResponse self1 response []).2.lookup "Z".toList = some v ∧
        (toDouble v).2 = true)) ∧
    ((getPosition codec self pos timeoutMs dev).1 = true →
      (getPosition codec self pos timeoutMs dev).2.1 =
        { x := (toDouble ((parseResponse self1 response []).2.value "X".toList)).1,
          y := (toDouble ((parseResponse self1 response []).2.value "Y".toList)).1,
          z := (toDouble ((parseResponse self1 response []).2.value "Z".toList)).1 }) := by
  have hflag : (parseResponse self1 response []).1 = !(parseResponse self1 response []).2.isEmpty :=
    rfl
  unfold getPosition
  rw [h]
  simp only [Option.getD_some]
  rw [← toDouble_value_ok, ← toDouble_value_ok, ← toDouble_value_ok]
  rcases hp : parseResponse self1 response [] with ⟨ok, parsed⟩
  rw [hp] at hflag
  simp only at hflag ⊢
  cases ok with
  | false =>
    have hnil : parsed = [] := by
      cases parsed with
      | nil => rfl
      | cons e es => simp at hflag
    subst hnil
    refine ⟨⟨fun hf => absurd hf (by simp), ?_⟩, fun hf => absurd hf (by simp)⟩
    rintro ⟨hx, -, -⟩
    exact absurd hx (by decide)
  | true =>
    simp only
    cases hx : (toDouble (QHash.value parsed "X".toList)).2 <;>
      cases hy : (toDouble (QHash.value parsed "Y".toList)).2 <;>
      cases hz : (toDouble (QHash.value parsed "Z".toList)).2 <;> simp

/-- Instance of C14: the reply "X:10.00 Y:15.00 Z:5.00 E:0.00" gives
(10, 15, 5); the reply "X:abc Y:1 Z:1" makes getPosition fail. -/
theorem getPosition_iff_witness :
    (getPosition asciiCodec connectedEngine origin 2000
        (replyWith "X:10.00 Y:15.00 Z:5.00 E:0.00\n")).2.1
      = { x := .ofInt 10, y := .ofInt 15, z := .ofInt 5 } ∧
    (getPosition asciiCodec connectedEngine origin 2000 (replyWith "X:abc Y:1 Z:1\n")).1 = false :=
  ⟨((getPosition_iff asciiCodec connectedEngine origin 2000
        (replyWith "X:10.00 Y:15.00 Z:5.00 E:0.00\n") "X:10.00 Y:15.00 Z:5.00 E:0.00".toList
        { connectedEngine with
          m_serial := { isOpen := true, written := [[77, 49, 49, 52, 10]] } }
        (by decide)).2 (by decide)).trans (by decide),
    by decide⟩

/-- C15, what the code does on the response "X:1 Y:2 Z:3\nok": the exchange
returns this text when the reply and its "ok" arrive in one read, parseResponse
splits it at spaces only and stores "3\nok" for the key Z, and getPosition
fails. -/
theorem parseResponse_newline_in_token :
    (sendCommand asciiCodec connectedEngine m114 (some []) 2000
        (replyWith "X:1 Y:2 Z:3\nok\n")).2.1 = some "X:1 Y:2 Z:3\nok".toList ∧
    (parseResponse connectedEngine "X:1 Y:2 Z:3\nok".toList []).2.value "Z".toList
      = "3\nok".toList ∧
    (toDouble "3\nok".toList).2 = false ∧
    (getPosition asciiCodec connectedEngine origin 2000 (replyWith "X:1 Y:2 Z:3\nok\n")).1
      = false ∧
    (getPosition asciiCodec connectedEngine origin 2000 (replyWith "X:1 Y:2 Z:3\n")).2.1
      = { x := .ofInt 1, y := .ofInt 2, z := .ofInt 3 } := by
  decide

/-- C16: parseResponse empties the map, splits every token at its first colon
only (the key is the text before it, the value everything after it, later
colons included), adds an entry exactly for the tokens whose key and value are
both non-empty, ignores tokens without a colon, and returns true exactly when
at least one entry was produced. -/
theorem parseResponse_entries (self : TinyBeeController) (response : QString)
    (parsed0 : QHash) :
    (∀ t k v, tokenEntry t = some (k, v) ↔ (t = k ++ ':' :: v ∧ ':' ∉ k ∧ k ≠ [] ∧ v ≠ [])) ∧
    (parseResponse self response parsed0).2 =
      ((splitSkipEmpty ' ' (trimmed response)).filterMap tokenEntry).foldl
        (fun h e => QHash.insert h e.1 e.2) [] ∧
    ((parseResponse self response parsed0).1 = true ↔
      (splitSkipEmpty ' ' (trimmed response)).filterMap tokenEntry ≠ []) := by
  refine ⟨tokenEntry_eq_some, ?_, ?_⟩
  · exact foldl_parsePart _ _
  · show (!(List.foldl parsePart [] (splitSkipEmpty ' ' (trimmed response))).isEmpty) = true ↔ _
    rw [foldl_parsePart, foldl_insert_isEmpty]
    simp

/-! ## Lemmas on the jog helpers -/

theorem trimmed_of_ends (c d : Char) (mid : QString) (hc : isSpace c = false)
    (hd : isSpace d = false) : trimmed (c :: (mid ++ [d])) = c :: (mid ++ [d]) := by
  unfold trimmed
  have h1 : List.dropWhile isSpace (c :: (mid ++ [d])) = c :: (mid ++ [d]) := by
    simp [List.dropWhile, hc]
  rw [h1]
  have h2 : (c :: (mid ++ [d])).reverse = d :: (c :: mid).reverse := by simp
  rw [h2]
  have h3 : List.dropWhile isSpace (d :: (c :: mid).reverse) = d :: (c :: mid).reverse := by
    simp [List.dropWhile, hd]
  rw [h3]
  simp

theorem sendCustomCommand_written (codec : TextCodec) (w : MotorControlWidget)
    (command : QString) (hw : w.isConnected = true) (hne : trimmed command ≠ []) :
    (w.sendCustomCommand codec command).serial.written
      = w.serial.written ++ [codec.toUtf8 (trimmed command ++ ['\n'])] := by
  have hlast : (trimmed command).getLast? ≠ some '\n' := by
    intro hl
    have := trimmed_getLast_not_space _ _ hl
    rw [newline_isSpace] at this
    exact absurd this (by decide)
  have hends : endsWithChar (trimmed command) '\n' = false := by
    simpa [endsWithChar] using hlast
  simp [MotorControlWidget.sendCustomCommand, hw, hne, hends, MotorControlWidget.emit,
    MotorControlWidget.updateStatus, QSerialPort.write]

theorem directionalOffsets_labels (dir : QString) (h : dir ∈ directionLabels) :
    directionalOffsets dir = (directionDx dir, directionDy dir) := by
  simp only [directionLabels, List.mem_cons, List.mem_singleton, List.not_mem_nil, or_false] at h
  rcases h with rfl | rfl | rfl | rfl | rfl | rfl | rfl | rfl <;> decide

theorem directional_command (dir : QString) (h : dir ∈ directionLabels) :
    dir ≠ "Home".toList ∧
    arg (arg "G1 X%1 Y%2 F3000".toList (argG (directionalOffsets dir).1))
        (argG (directionalOffsets dir).2)
      = "G1 X".toList ++ argG (directionDx dir) ++ " Y".toList ++ argG (directionDy dir) ++
          " F3000".toList ∧
    arg (arg "G1 X%1 Y%2 F3000\n".toList (argG (directionalOffsets dir).1))
        (argG (directionalOffsets dir).2)
      = "G1 X".toList ++ argG (directionDx dir) ++ " Y".toList ++ argG (directionDy dir) ++
          " F3000\n".toList ∧
    trimmed ("G1 X".toList ++ argG (directionDx dir) ++ " Y".toList ++ argG (directionDy dir) ++
        " F3000".toList)
      = "G1 X".toList ++ argG (directionDx dir) ++ " Y".toList ++ argG (directionDy dir) ++
          " F3000".toList := by
  simp only [directionLabels, List.mem_cons, List.mem_singleton, List.not_mem_nil, or_false] at h
  rcases h with rfl | rfl | rfl | rfl | rfl | rfl | rfl | rfl <;> decide

/-! ## Jog helpers -/

/-- C17: for every direction label among N, S, E, W, NE, NW, SE, SW,
directionalClicked (fixed step 10) computes dx = -10 if the label contains E,
+10 if it contains W, else 0, and dy = +10 if it contains N, -10 if it contains
S, else 0, and sends the line "G1 X<dx> Y<dy> F3000" with these values, in
the widget (when connected) and in the earlier main window. -/
theorem directionalClicked_moves (codec : TextCodec) (w : MotorControlWidget) (m : MainWindow)
    (dir : QString) (hdir : dir ∈ directionLabels) (hw : w.isConnected = true)
    (hm : m.connected = true) :
    directionalOffsets dir = (directionDx dir, directionDy dir) ∧
    (w.directionalClicked codec (some dir)).serial.written = w.serial.written ++
      [codec.toUtf8 ("G1 X".toList ++ argG (directionDx dir) ++ " Y".toList ++
        argG (directionDy dir) ++ " F3000\n".toList)] ∧
    (m.directionalClicked codec dir).serial.written = m.serial.written ++
      [codec.toUtf8 ("G1 X".toList ++ argG (directionDx dir) ++ " Y".toList ++
        argG (directionDy dir) ++ " F3000\n".toList)] := by
  obtain ⟨hhome, hcmd, hcmdn, htrim⟩ := directional_command dir hdir
  refine ⟨directionalOffsets_labels dir hdir, ?_, ?_⟩
  · have hstep : w.directionalClicked codec (some dir) = w.sendCustomCommand codec
        ("G1 X".toList ++ argG (directionDx dir) ++ " Y".toList ++ argG (directionDy dir) ++
          " F3000".toList) := by
      unfold MotorControlWidget.directionalClicked
      simp only [hw, Bool.not_true, Bool.false_eq_true, if_false, hhome]
      rw [hcmd]
    rw [hstep, sendCustomCommand_written codec w _ hw (by rw [htrim]; simp), htrim]
    simp
  · unfold MainWindow.directionalClicked
    simp only [hm, Bool.not_true, Bool.false_eq_true, if_false, hhome]
    rw [hcmdn]
    rfl

/-- Instance of C17: "E" gives x = -10, y = 0 and "NW" gives x = +10, y = +10. -/
theorem directionalClicked_moves_witness :
    directionalOffsets "E".toList = (.ofInt (-10), .ofInt 0) ∧
    directionalOffsets "NW".toList = (.ofInt 10, .ofInt 10) ∧
    ((mkWidget true true).directionalClicked asciiCodec (some "E".toList)).serial.written
      = [asciiBytes "G1 X-10 Y0 F3000\n"] ∧
    ((mkWindow true true).directionalClicked asciiCodec "NW".toList).serial.written
      = [asciiBytes "G1 X10 Y10 F3000\n"] :=
  ⟨(directionalClicked_moves asciiCodec (mkWidget true true) (mkWindow true true) "E".toList
      (by decide) (by decide) (by decide)).1,
    (directionalClicked_moves asciiCodec (mkWidget true true) (mkWindow true true) "NW".toList
      (by decide) (by decide) (by decide)).1,
    (directionalClicked_moves asciiCodec (mkWidget true true) (mkWindow true true) "E".toList
      (by decide) (by decide) (by decide)).2.1.trans (by decide),
    (directionalClicked_moves asciiCodec (mkWidget true true) (mkWindow true true) "NW".toList
      (by decide) (by decide) (by decide)).2.2.trans (by decide)⟩

theorem axisMove_trimmed (letter : Char) (a : QString) :
    trimmed ("G1 ".toList ++ [letter] ++ a ++ " F3000".toList)
      = "G1 ".toList ++ [letter] ++ a ++ " F3000".toList := by
  have e : "G1 ".toList ++ [letter] ++ a ++ " F3000".toList
      = 'G' :: (('1' :: ' ' :: letter :: (a ++ [' ', 'F', '3', '0', '0'])) ++ ['0']) := by
    show 'G' :: '1' :: ' ' :: letter :: (a ++ [' ', 'F', '3', '0', '0', '0']) = _
    simp
  rw [e]
  exact trimmed_of_ends 'G' '0' _ (by decide) (by decide)

theorem axisMove_command (name : QString) (h : name ∈ ["x".toList, "y".toList, "z".toList]) :
    ∃ letter : Char, toUpper name = [letter] ∧
      (∀ a : QString, arg (arg "G1 %1%2 F3000".toList (toUpper name)) a
        = "G1 ".toList ++ [letter] ++ a ++ " F3000".toList) ∧
      (∀ a : QString, arg (arg "G1 %1%2 F3000\n".toList (toUpper name)) a
        = "G1 ".toList ++ [letter] ++ a ++ " F3000\n".toList) := by
  simp only [List.mem_cons, List.mem_singleton, List.not_mem_nil, or_false] at h
  rcases h with rfl | rfl | rfl
  · exact ⟨'X', by decide, fun a => rfl, fun a => rfl⟩
  · exact ⟨'Y', by decide, fun a => rfl, fun a => rfl⟩
  · exact ⟨'Z', by decide, fun a => rfl, fun a => rfl⟩

theorem axisMove_command_upper (name : QString)
    (h : name ∈ ["x".toList, "y".toList, "z".toList]) :
    toUpper (toUpper name) = toUpper name ∧ toLower (toUpper name) = name ∧
      (∀ a : QString, arg (arg "G1 %1%2 F3000\n".toList (toUpper (toUpper name))) a
        = "G1 ".toList ++ toUpper name ++ a ++ " F3000\n".toList) := by
  simp only [List.mem_cons, List.mem_singleton, List.not_mem_nil, or_false] at h
  rcases h with rfl | rfl | rfl
  · exact ⟨by decide, by decide, fun a => rfl⟩
  · exact ⟨by decide, by decide, fun a => rfl⟩
  · exact ⟨by decide, by decide, fun a => rfl⟩

/-- C18: for every current position c and step s, axisMoveStep computes the
target c + s for the minus button and c - s for the plus button on the axes X
and Z (inverted), and c - s for the minus button and c + s for the plus button
on the axis Y, both for the axis names x, y, z that the controls of the widget
store and for the names X, Y, Z that the controls of the earlier main window
store; the line sent is "G1 <AXIS><target> F3000", by the widget (when
connected) for its names and by the main window for its names. -/
theorem axisMoveStep_target (codec : TextCodec) (w : MotorControlWidget) (m : MainWindow)
    (name : QString) (c s : Double) (minus : Bool)
    (hname : name ∈ ["x".toList, "y".toList, "z".toList]) (hw : w.isConnected = true) :
    (axisMoveTarget ⟨"x".toList, s, c⟩ true = c.add s ∧
      axisMoveTarget ⟨"x".toList, s, c⟩ false = c.sub s) ∧
    (axisMoveTarget ⟨"z".toList, s, c⟩ true = c.add s ∧
      axisMoveTarget ⟨"z".toList, s, c⟩ false = c.sub s) ∧
    (axisMoveTarget ⟨"y".toList, s, c⟩ true = c.sub s ∧
      axisMoveTarget ⟨"y".toList, s, c⟩ false = c.add s) ∧
    (w.axisMoveStep codec (some ⟨name, s, c⟩) minus).serial.written = w.serial.written ++
      [codec.toUtf8 ("G1 ".toList ++ toUpper name ++ argG (axisMoveTarget ⟨name, s, c⟩ minus) ++
        " F3000\n".toList)] ∧
    (m.axisMoveStep codec ⟨name, s, c⟩ minus).serial.written = m.serial.written ++
      [codec.toUtf8 ("G1 ".toList ++ toUpper name ++ argG (axisMoveTarget ⟨name, s, c⟩ minus) ++
        " F3000\n".toList)] ∧
    (axisMoveTarget ⟨"X".toList, s, c⟩ true = c.add s ∧
      axisMoveTarget ⟨"X".toList, s, c⟩ false = c.sub s) ∧
    (axisMoveTarget ⟨"Z".toList, s, c⟩ true = c.add s ∧
      axisMoveTarget ⟨"Z".toList, s, c⟩ false = c.sub s) ∧
    (axisMoveTarget ⟨"Y".toList, s, c⟩ true = c.sub s ∧
      axisMoveTarget ⟨"Y".toList, s, c⟩ false = c.add s) ∧
    axisMoveTarget ⟨toUpper name, s, c⟩ minus = axisMoveTarget ⟨name, s, c⟩ minus ∧
    (m.axisMoveStep codec ⟨toUpper name, s, c⟩ minus).serial.written = m.serial.written ++
      [codec.toUtf8 ("G1 ".toList ++ toUpper name ++
        argG (axisMoveTarget ⟨toUpper name, s, c⟩ minus) ++ " F3000\n".toList)] := by
  obtain ⟨letter, hup, hcmd, hcmdn⟩ := axisMove_command name hname
  obtain ⟨hupup, hlow, hcmdu⟩ := axisMove_command_upper name hname
  have htarget : axisMoveTarget ⟨toUpper name, s, c⟩ minus = axisMoveTarget ⟨name, s, c⟩ minus := by
    have hlow2 : toLower name = name := by
      simp only [List.mem_cons, List.mem_singleton, List.not_mem_nil, or_false] at hname
      rcases hname with rfl | rfl | rfl <;> decide
    unfold axisMoveTarget
    simp only [hlow, hlow2]
  refine ⟨⟨rfl, rfl⟩, ⟨rfl, rfl⟩, ⟨rfl, rfl⟩, ?_, ?_, ⟨rfl, rfl⟩, ⟨rfl, rfl⟩, ⟨rfl, rfl⟩,
    htarget, ?_⟩
  · have hstep : w.axisMoveStep codec (some ⟨name, s, c⟩) minus = w.sendCustomCommand codec
        ("G1 ".toList ++ [letter] ++ argG (axisMoveTarget ⟨name, s, c⟩ minus) ++
          " F3000".toList) := by
      unfold MotorControlWidget.axisMoveStep
      simp only [hcmd]
    rw [hstep, sendCustomCommand_written codec w _ hw
      (by rw [axisMove_trimmed _ _]; simp), axisMove_trimmed _ _, hup]
    simp
  · have hcmdn1 := hcmdn
    rw [hup] at hcmdn1
    unfold MainWindow.axisMoveStep
    simp only [hup, hcmdn1]
    rfl
  · unfold MainWindow.axisMoveStep
    simp only [hcmdu]
    rfl

/-- Instance of C18: axis X, minus button, step 5, current position 20 gives
the target 25 = current + 5, in the widget (axis name x) and in the earlier
main window (axis name X). -/
theorem axisMoveStep_target_witness :
    axisMoveTarget ⟨"x".toList, .ofInt 5, .ofInt 20⟩ true = .ofInt 25 ∧
    ((mkWidget true true).axisMoveStep asciiCodec (some ⟨"x".toList, .ofInt 5, .ofInt 20⟩)
        true).serial.written = [asciiBytes "G1 X25 F3000\n"] ∧
    axisMoveTarget ⟨"X".toList, .ofInt 5, .ofInt 20⟩ true = .ofInt 25 ∧
    ((mkWindow true true).axisMoveStep asciiCodec ⟨"X".toList, .ofInt 5, .ofInt 20⟩
        true).serial.written = [asciiBytes "G1 X25 F3000\n"] :=
  ⟨(axisMoveStep_target asciiCodec (mkWidget true true) (mkWindow true true) "x".toList
      (.ofInt 20) (.ofInt 5) true (by decide) (by decide)).1.1.trans (by decide),
    (axisMoveStep_target asciiCodec (mkWidget true true) (mkWindow true true) "x".toList
      (.ofInt 20) (.ofInt 5) true (by decide) (by decide)).2.2.2.1.trans (by decide),
    (axisMoveStep_target asciiCodec (mkWidget true true) (mkWindow true true) "x".toList
      (.ofInt 20) (.ofInt 5) true (by decide) (by decide)).2.2.2.2.2.1.1.trans (by decide),
    (axisMoveStep_target asciiCodec (mkWidget true true) (mkWindow true true) "x".toList
      (.ofInt 20) (.ofInt 5) true (by decide) (by decide)).2.2.2.2.2.2.2.2.2.trans (by decide)⟩

/-- C19: for every axis a in x, y, z and every mark kind k in min, mid, max,
markPosition sets field k of a's AxisMeasurement to a's own last-known position
and leaves the other two fields of a, all fields of the other two axes and the
last-known positions unchanged; hence marking min, then mid, then max on one
axis leaves all three of its fields equal to the axis position (not NaN when
that position is not NaN) and changes nothing on the other axes. -/
theorem markPosition_fields (w : MotorControlWidget) (a : MeasurementRef) (k : MarkKind)
    (aw : AxisControlWidget) (haw : aw.axisName = a.axisName) :
    ((w.markPosition (some (aw, k.button))).meas a).field k = w.lastPos a ∧
    (∀ k1, k1 ≠ k →
      ((w.markPosition (some (aw, k.button))).meas a).field k1 = (w.meas a).field k1) ∧
    (∀ a1, a1 ≠ a → (w.markPosition (some (aw, k.button))).meas a1 = w.meas a1) ∧
    (∀ a1, (w.markPosition (some (aw, k.button))).lastPos a1 = w.lastPos a1) ∧
    (((w.markPosition (some (aw, .markMinBtn))).markPosition
        (some (aw, .markMidBtn))).markPosition (some (aw, .markMaxBtn))).meas a
      = { min := w.lastPos a, mid := w.lastPos a, max := w.lastPos a } ∧
    (∀ a1, a1 ≠ a →
      (((w.markPosition (some (aw, .markMinBtn))).markPosition
        (some (aw, .markMidBtn))).markPosition (some (aw, .markMaxBtn))).meas a1 = w.meas a1) ∧
    ((w.lastPos a).isNaN = false → ∀ k1,
      (((((w.markPosition (some (aw, .markMinBtn))).markPosition
        (some (aw, .markMidBtn))).markPosition (some (aw, .markMaxBtn))).meas a).field
          k1).isNaN = false) := by
  obtain ⟨name, s, c⟩ := aw
  simp only at haw
  subst haw
  refine ⟨?_, ?_, ?_, ?_, ?_, ?_, ?_⟩
  · cases a <;> cases k <;> rfl
  · intro k1 hk
    cases a <;> cases k <;> cases k1 <;> first | rfl | exact absurd rfl hk
  · intro a1 ha
    cases a <;> cases k <;> cases a1 <;> first | rfl | exact absurd rfl ha
  · intro a1
    cases a <;> cases k <;> cases a1 <;> rfl
  · cases a <;> rfl
  · intro a1 ha
    cases a <;> cases a1 <;> first | rfl | exact absurd rfl ha
  · intro hn k1
    cases a <;> cases k1 <;> exact hn

/-- Instance of C19: with last-known X position 7, marking min, mid and max on
the axis x sets all three fields of measX to 7 and leaves measY unmarked. -/
theorem markPosition_fields_witness :
    ((({ mkWidget true true with lastPosX := .ofInt 7 }.markPosition
        (some (⟨"x".toList, .ofInt 10, .ofInt 0⟩, .markMinBtn))).markPosition
        (some (⟨"x".toList, .ofInt 10, .ofInt 0⟩, .markMidBtn))).markPosition
        (some (⟨"x".toList, .ofInt 10, .ofInt 0⟩, .markMaxBtn))).measX
      = { min := .ofInt 7, mid := .ofInt 7, max := .ofInt 7 } ∧
    ((({ mkWidget true true with lastPosX := .ofInt 7 }.markPosition
        (some (⟨"x".toList, .ofInt 10, .ofInt 0⟩, .markMinBtn))).markPosition
        (some (⟨"x".toList, .ofInt 10, .ofInt 0⟩, .markMidBtn))).markPosition
        (some (⟨"x".toList, .ofInt 10, .ofInt 0⟩, .markMaxBtn))).measY = unmarked :=
  ⟨(markPosition_fields { mkWidget true true with lastPosX := .ofInt 7 } .measX .min
      ⟨"x".toList, .ofInt 10, .ofInt 0⟩ rfl).2.2.2.2.1,
    (markPosition_fields { mkWidget true true with lastPosX := .ofInt 7 } .measX .min
      ⟨"x".toList, .ofInt 10, .ofInt 0⟩ rfl).2.2.2.2.2.1 .measY (by decide)⟩

/-! ## The last-known positions are never NaN -/

theorem Double.ite_isNaN (c : Prop) [Decidable c] (a b : Double) (ha : a.isNaN = false)
    (hb : b.isNaN = false) : (if c then a else b).isNaN = false := by
  split <;> assumption

theorem Double.canon_isNaN (neg : Bool) (m : Nat) (e : Int) :
    (Double.canon (.finite neg m e)).isNaN = false := by
  simp only [Double.canon]
  exact Double.ite_isNaN _ _ _ rfl (Double.ite_isNaN _ _ _ rfl rfl)

theorem Double.ofRat_isNaN (neg : Bool) (num den : Nat) :
    (Double.ofRat neg num den).isNaN = false := by
  unfold Double.ofRat
  exact Double.ite_isNaN _ _ _ rfl (Double.ite_isNaN _ _ _ rfl (Double.canon_isNaN _ _ _))

theorem Numeral.value_isNaN (n : Numeral) : n.value.isNaN = false := by
  unfold Numeral.value
  exact Double.ite_isNaN _ _ _ (Double.ofRat_isNaN _ _ _) (Double.ofRat_isNaN _ _ _)

/-- The function `toDouble` returns a NaN only for the text `nan`. -/
theorem toDouble_isNaN (s : QString) (h : (toDouble s).1.isNaN = true) :
    (trimmed s).map Char.toLower = "nan".toList := by
  unfold toDouble at h
  simp only at h
  split at h
  · assumption
  · split at h
    · exact absurd h (by decide)
    · split at h
      · exact absurd h (by decide)
      · split at h
        · exact absurd h (by decide)
        · rename_i n hn
          have hv := Numeral.value_isNaN n
          split at h
          · split at h
            · exact absurd h (by decide)
            · simp [Double.isNaN] at h
          · rename_i d hd
            cases hd2 : n.value with
            | nan => rw [hd2] at hv; exact absurd hv (by decide)
            | inf sgn => rw [hd2] at h; simp [Double.isNaN] at h
            | finite sgn m e => rw [hd2] at h; simp [Double.isNaN] at h

/-- The characters a capture of the position pattern can hold. -/
theorem greedySplits_mem (p : Char → Bool) (s a r : QString) (h : (a, r) ∈ greedySplits p s) :
    ∀ c ∈ a, p c = true := by
  induction s generalizing a r with
  | nil =>
    simp only [greedySplits, List.mem_singleton, Prod.mk.injEq] at h
    rw [h.1]
    simp
  | cons x xs ih =>
    unfold greedySplits at h
    by_cases hx : p x = true
    · simp only [hx, if_true, List.mem_append, List.mem_map, List.mem_singleton,
        Prod.mk.injEq] at h
      rcases h with ⟨⟨a1, r1⟩, hm, rfl, rfl⟩ | ⟨rfl, -⟩
      · intro c hc
        rcases List.mem_cons.mp hc with rfl | hc
        · exact hx
        · exact ih a1 r1 hm c hc
      · simp
    · simp only [hx, Bool.false_eq_true, if_false, List.mem_singleton, Prod.mk.injEq] at h
      rw [h.1]
      simp

theorem optionalSplits_mem (p : Char → Bool) (s a r : QString)
    (h : (a, r) ∈ optionalSplits p s) : ∀ c ∈ a, p c = true := by
  cases s with
  | nil =>
    simp only [optionalSplits, List.mem_singleton, Prod.mk.injEq] at h
    rw [h.1]
    simp
  | cons x xs =>
    unfold optionalSplits at h
    by_cases hx : p x = true
    · simp only [hx, if_true, List.mem_cons, Prod.mk.injEq, List.mem_singleton,
        List.not_mem_nil, or_false] at h
      rcases h with ⟨rfl, -⟩ | ⟨rfl, -⟩
      · simpa using hx
      · simp
    · simp only [hx, Bool.false_eq_true, if_false, List.mem_singleton, Prod.mk.injEq] at h
      rw [h.1]
      simp

theorem numberMatches_mem (s a r : QString) (h : (a, r) ∈ numberMatches s) :
    ∀ c ∈ a, isNumberChar c = true := by
  simp only [numberMatches, List.mem_flatMap, List.mem_map, List.mem_filter, Prod.mk.injEq] at h
  obtain ⟨sg, hsg, ds, hds, dot, hdot, fs, ⟨hfs, -⟩, rfl, -⟩ := h
  intro c hc
  simp only [List.mem_append] at hc
  unfold isNumberChar
  rcases hc with ((hc | hc) | hc) | hc
  · simp [optionalSplits_mem _ _ _ _ hsg c hc]
  · simp [greedySplits_mem _ _ _ _ hds c hc]
  · have := optionalSplits_mem _ _ _ _ hdot c hc
    simp only [beq_iff_eq] at this
    simp [this]
  · simp [greedySplits_mem _ _ _ _ hfs c hc]

theorem matchPositionHere_captures (s c1 c2 c3 : QString)
    (h : matchPositionHere s = some (c1, c2, c3)) :
    (∀ c ∈ c1, isNumberChar c = true) ∧ (∀ c ∈ c2, isNumberChar c = true) ∧
      (∀ c ∈ c3, isNumberChar c = true) := by
  unfold matchPositionHere at h
  obtain ⟨r0, -, h⟩ := Option.bind_eq_some.mp h
  obtain ⟨n1, hn1, h⟩ := List.exists_of_findSome?_eq_some h
  obtain ⟨r1, -, h⟩ := List.exists_of_findSome?_eq_some h
  obtain ⟨r2, -, h⟩ := Option.bind_eq_some.mp h
  obtain ⟨n2, hn2, h⟩ := List.exists_of_findSome?_eq_some h
  obtain ⟨r3, -, h⟩ := List.exists_of_findSome?_eq_some h
  obtain ⟨r4, -, h⟩ := Option.bind_eq_some.mp h
  obtain ⟨n3, hn3, h⟩ := Option.map_eq_some'.mp h
  simp only [Prod.mk.injEq] at h
  obtain ⟨rfl, rfl, rfl⟩ := h
  exact ⟨numberMatches_mem _ n1.1 n1.2 hn1, numberMatches_mem _ n2.1 n2.2 hn2,
    numberMatches_mem _ n3.1 n3.2 (List.mem_of_mem_head? hn3)⟩

theorem matchPosition_captures (line c1 c2 c3 : QString)
    (h : matchPosition line = some (c1, c2, c3)) :
    (∀ c ∈ c1, isNumberChar c = true) ∧ (∀ c ∈ c2, isNumberChar c = true) ∧
      (∀ c ∈ c3, isNumberChar c = true) := by
  unfold matchPosition at h
  obtain ⟨t, -, h⟩ := List.exists_of_findSome?_eq_some h
  exact matchPositionHere_captures t c1 c2 c3 h

theorem trimmed_subset (s : QString) : ∀ c ∈ trimmed s, c ∈ s := by
  intro c hc
  have h1 : trimmed s <+: s.dropWhile isSpace := List.rdropWhile_prefix isSpace _
  exact (List.dropWhile_suffix isSpace).subset (h1.subset hc)

theorem toDouble_numberChars (s : QString) (h : ∀ c ∈ s, isNumberChar c = true) :
    (toDouble s).1.isNaN = false := by
  cases hn : (toDouble s).1.isNaN with
  | false => rfl
  | true =>
    have hnan := toDouble_isNaN s hn
    have hlen : (trimmed s).length = 3 := by
      have := congrArg List.length hnan
      simpa using this
    match ht : trimmed s, hlen with
    | [a, b, c], _ =>
      have ha : isNumberChar a = true := h a (trimmed_subset s a (by rw [ht]; simp))
      rw [ht] at hnan
      simp only [List.map_cons, List.map_nil] at hnan
      have hlow : a.toLower = 'n' := (List.cons.inj hnan).1
      have hno : a.toLower ≠ 'n' := by
        unfold isNumberChar isSignChar at ha
        simp only [Bool.or_eq_true, beq_iff_eq] at ha
        rcases ha with ((rfl | rfl) | hd) | rfl
        · decide
        · decide
        · have h57 : a.toNat ≤ 57 := by
            simp only [Char.isDigit, Bool.and_eq_true, decide_eq_true_eq] at hd
            exact hd.2
          have : a.toLower = a := by
            unfold Char.toLower
            simp only
            split
            · omega
            · rfl
          rw [this]
          rintro rfl
          exact absurd h57 (by decide)
        · decide
      exact absurd hlow hno

namespace MotorControlWidget

theorem positionsValid_iff (s : MotorControlWidget) :
    s.positionsValid = true ↔
      s.lastPosX.isNaN = false ∧ s.lastPosY.isNaN = false ∧ s.lastPosZ.isNaN = false := by
  unfold positionsValid
  cases s.lastPosX.isNaN <;> cases s.lastPosY.isNaN <;> cases s.lastPosZ.isNaN <;> decide

theorem handleLine_positionsValid (s : MotorControlWidget) (line : QString)
    (h : s.positionsValid = true) : (handleLine s line).positionsValid = true := by
  rw [positionsValid_iff] at h ⊢
  rcases handleLine_positions s line with ⟨hx, hy, hz⟩ | ⟨c1, c2, c3, hm, hx, hy, hz⟩
  · rw [hx, hy, hz]
    exact h
  · obtain ⟨k1, k2, k3⟩ := matchPosition_captures line c1 c2 c3 hm
    rw [hx, hy, hz]
    exact ⟨toDouble_numberChars c1 k1, toDouble_numberChars c2 k2, toDouble_numberChars c3 k3⟩

/-- The widget starts with positions 0.0, and `handleSerialRead`, the only
function that assigns them, never stores a NaN. -/
theorem handleSerialRead_positionsValid (codec : TextCodec) (s : MotorControlWidget)
    (data : QByteArray) (h : s.positionsValid = true) :
    (handleSerialRead codec s data).positionsValid = true := by
  rw [handleSerialRead_eq]
  show (List.foldl (handleSegment codec) s (segments (s.buffer ++ data))).positionsValid = true
  generalize segments (s.buffer ++ data) = segs
  induction segs generalizing s with
  | nil => exact h
  | cons seg segs ih =>
    rw [List.foldl_cons]
    apply ih
    unfold handleSegment
    split
    · exact h
    · exact handleLine_positionsValid s _ h

end MotorControlWidget

/-! ## Lemmas on the match of the position pattern -/

theorem greedySplits_append (p : Char → Bool) (run r : QString) (hrun : ∀ c ∈ run, p c = true) :
    ∃ tail, greedySplits p (run ++ r)
      = (greedySplits p r).map (fun m => (run ++ m.1, m.2)) ++ tail := by
  induction run with
  | nil => exact ⟨[], by simp⟩
  | cons x xs ih =>
    obtain ⟨tail, ht⟩ := ih (fun c hc => hrun c (List.mem_cons_of_mem _ hc))
    have hx : p x = true := hrun x (List.mem_cons_self _ _)
    refine ⟨tail.map (fun m => (x :: m.1, m.2)) ++ [([], x :: (xs ++ r))], ?_⟩
    show greedySplits p (x :: (xs ++ r)) = _
    rw [greedySplits]
    simp only [hx, if_true, ht, List.map_append, List.map_map, List.append_assoc]
    rfl

theorem greedySplits_stop (p : Char → Bool) (r : QString)
    (hr : ∀ c, r.head? = some c → p c = false) : greedySplits p r = [([], r)] := by
  cases r with
  | nil => rfl
  | cons c cs =>
    have hc : p c = false := hr c rfl
    simp [greedySplits, hc]

theorem greedySplits_head (p : Char → Bool) (run r : QString) (hrun : ∀ c ∈ run, p c = true)
    (hr : ∀ c, r.head? = some c → p c = false) :
    ∃ tail, greedySplits p (run ++ r) = (run, r) :: tail := by
  obtain ⟨tail, ht⟩ := greedySplits_append p run r hrun
  rw [greedySplits_stop p r hr] at ht
  exact ⟨tail, by simpa using ht⟩

theorem greedySplits_snoc (p : Char → Bool) (run : QString) (d : Char) (r : QString)
    (hrun : ∀ c ∈ run, p c = true) (hd : p d = true)
    (hr : ∀ c, r.head? = some c → p c = false) :
    ∃ tail, greedySplits p (run ++ d :: r) = (run ++ [d], r) :: (run, d :: r) :: tail := by
  obtain ⟨tail, ht⟩ := greedySplits_append p run (d :: r) hrun
  have h1 : greedySplits p (d :: r) = [([d], r), ([], d :: r)] := by
    rw [greedySplits]
    simp [hd, greedySplits_stop p r hr]
  rw [h1] at ht
  exact ⟨tail, by simpa using ht⟩

theorem spaceMatches_run (ws r : QString) (hws : isWhiteSpaceRun ws = true)
    (hr : ∀ c, r.head? = some c → isPatternSpace c = false) :
    ∃ tail, spaceMatches (ws ++ r) = r :: tail := by
  unfold isWhiteSpaceRun at hws
  simp only [Bool.and_eq_true, Bool.not_eq_true', List.all_eq_true] at hws
  obtain ⟨tail, ht⟩ := greedySplits_head isPatternSpace ws r hws.2 hr
  unfold spaceMatches
  rw [ht]
  have hne : (!ws.isEmpty) = true := by simp [hws.1]
  simp only [List.filter_cons, hne, if_true, List.map_cons]
  exact ⟨_, rfl⟩

theorem optionalSplits_stop (p : Char → Bool) (r : QString)
    (hr : ∀ c, r.head? = some c → p c = false) : optionalSplits p r = [([], r)] := by
  cases r with
  | nil => rfl
  | cons c cs =>
    have hc : p c = false := hr c rfl
    simp [optionalSplits, hc]

theorem isNumberChar_false (c : Char) (h : isNumberChar c = false) :
    isSignChar c = false ∧ c.isDigit = false ∧ (c == '.') = false := by
  unfold isNumberChar at h
  simpa [Bool.or_eq_false_iff, and_assoc] using h

theorem isDigit_not_point (d : Char) (hd : d.isDigit = true) : (d == '.') = false := by
  cases h : d == '.' with
  | false => rfl
  | true =>
    have : d = '.' := by simpa using h
    subst this
    exact absurd hd (by decide)

theorem isDigit_not_sign (d : Char) (hd : d.isDigit = true) : isSignChar d = false := by
  cases h : isSignChar d with
  | false => rfl
  | true =>
    unfold isSignChar at h
    simp only [Bool.or_eq_true, beq_iff_eq] at h
    rcases h with rfl | rfl <;> exact absurd hd (by decide)

/-- The matcher's first way through `\d*\.?\d+` on digits without a point that
are followed by no further number character: all the digits. -/
theorem numberBody_int (sg ip : QString) (d : Char) (r : QString)
    (hip : ∀ c ∈ ip, c.isDigit = true) (hd : d.isDigit = true)
    (hr : ∀ c, r.head? = some c → isNumberChar c = false) :
    ∃ tail, ((greedySplits Char.isDigit (ip ++ d :: r)).flatMap fun ds =>
      (optionalSplits (fun c => c == '.') ds.2).flatMap fun dot =>
        ((greedySplits Char.isDigit dot.2).filter fun fs => !fs.1.isEmpty).map fun fs =>
          (sg ++ ds.1 ++ dot.1 ++ fs.1, fs.2)) = (sg ++ (ip ++ [d]), r) :: tail := by
  have hrd : ∀ c, r.head? = some c → c.isDigit = false :=
    fun c hc => (isNumberChar_false c (hr c hc)).2.1
  have hrp : ∀ c, r.head? = some c → (fun c => c == '.') c = false :=
    fun c hc => (isNumberChar_false c (hr c hc)).2.2
  obtain ⟨tail, ht⟩ := greedySplits_snoc Char.isDigit ip d r hip hd hrd
  have h1 : optionalSplits (fun c => c == '.') r = [([], r)] := optionalSplits_stop _ r hrp
  have h2 : greedySplits Char.isDigit r = [([], r)] := greedySplits_stop _ r hrd
  have h3 : optionalSplits (fun c => c == '.') (d :: r) = [([], d :: r)] :=
    optionalSplits_stop _ _ (fun c hc => by
      simp only [List.head?_cons, Option.some.injEq] at hc
      subst hc
      exact isDigit_not_point _ hd)
  have h4 : greedySplits Char.isDigit (d :: r) = [([d], r), ([], d :: r)] := by
    rw [greedySplits]
    simp [hd, h2]
  rw [ht]
  simp only [List.flatMap_cons, h1, h2, h3, h4, List.flatMap_nil, List.filter_cons,
    List.filter_nil, List.map_cons, List.map_nil, List.isEmpty_nil, List.isEmpty_cons,
    Bool.not_true, Bool.not_false, Bool.false_eq_true, if_false, if_true, List.append_nil,
    List.nil_append, List.cons_append, List.append_assoc]
  exact ⟨_, rfl⟩

/-- The matcher's first way through `\d*\.?\d+` on digits, a point and digits
that are followed by no further digit: all of it. -/
theorem numberBody_frac (sg ip fp r : QString)
    (hip : ∀ c ∈ ip, c.isDigit = true) (hfp : ∀ c ∈ fp, c.isDigit = true) (hne : fp ≠ [])
    (hr : ∀ c, r.head? = some c → isNumberChar c = false) :
    ∃ tail, ((greedySplits Char.isDigit (ip ++ '.' :: (fp ++ r))).flatMap fun ds =>
      (optionalSplits (fun c => c == '.') ds.2).flatMap fun dot =>
        ((greedySplits Char.isDigit dot.2).filter fun fs => !fs.1.isEmpty).map fun fs =>
          (sg ++ ds.1 ++ dot.1 ++ fs.1, fs.2)) = (sg ++ (ip ++ '.' :: fp), r) :: tail := by
  have hrd : ∀ c, r.head? = some c → c.isDigit = false :=
    fun c hc => (isNumberChar_false c (hr c hc)).2.1
  obtain ⟨tail, ht⟩ := greedySplits_head Char.isDigit ip ('.' :: (fp ++ r)) hip (fun c hc => by
    simp only [List.head?_cons, Option.some.injEq] at hc
    subst hc
    decide)
  obtain ⟨tail2, ht2⟩ := greedySplits_head Char.isDigit fp r hfp hrd
  have h3 : optionalSplits (fun c => c == '.') ('.' :: (fp ++ r))
      = [(['.'], fp ++ r), ([], '.' :: (fp ++ r))] := by
    simp [optionalSplits]
  have hne2 : (!fp.isEmpty) = true := by
    cases fp with
    | nil => exact absurd rfl hne
    | cons _ _ => rfl
  rw [ht]
  simp only [List.flatMap_cons, h3, ht2, List.filter_cons, hne2, if_true, List.map_cons,
    List.cons_append, List.append_assoc, List.nil_append]
  exact ⟨_, rfl⟩

theorem takeSign_split (a : QString) :
    ∃ sg, a = sg ++ (takeSign a).2 ∧ (sg = [] ∨ sg = ['-'] ∨ sg = ['+']) := by
  unfold takeSign
  split
  · exact ⟨['-'], rfl, Or.inr (Or.inl rfl)⟩
  · exact ⟨['+'], rfl, Or.inr (Or.inr rfl)⟩
  · exact ⟨[], rfl, Or.inl rfl⟩

/-- The two shapes of a decimal numeral: a sign part, then digits ending in a
digit, or digits, a point and at least one digit. -/
theorem isDecimalNumeral_shape (a : QString) (h : isDecimalNumeral a = true) :
    ∃ sg u, a = sg ++ u ∧ (sg = [] ∨ sg = ['-'] ∨ sg = ['+']) ∧
      ((∃ ip d, u = ip ++ [d] ∧ (∀ c ∈ ip, c.isDigit = true) ∧ d.isDigit = true) ∨
       (∃ ip fp, u = ip ++ '.' :: fp ∧ (∀ c ∈ ip, c.isDigit = true) ∧
          (∀ c ∈ fp, c.isDigit = true) ∧ fp ≠ [])) := by
  obtain ⟨sg, hsplit, hsg⟩ := takeSign_split a
  refine ⟨sg, (takeSign a).2, hsplit, hsg, ?_⟩
  unfold isDecimalNumeral at h
  generalize (takeSign a).2 = u at h
  have hu : u.takeWhile Char.isDigit ++ u.dropWhile Char.isDigit = u :=
    List.takeWhile_append_dropWhile _ _
  have htw : ∀ c ∈ u.takeWhile Char.isDigit, c.isDigit = true :=
    fun c hc => (List.mem_takeWhile_imp hc)
  split at h
  · rename_i hd
    left
    rw [hd, List.append_nil] at hu
    have hne : u.takeWhile Char.isDigit ≠ [] := by
      intro e
      rw [e] at h
      exact absurd h (by decide)
    refine ⟨(u.takeWhile Char.isDigit).dropLast, (u.takeWhile Char.isDigit).getLast hne, ?_, ?_, ?_⟩
    · rw [List.dropLast_append_getLast hne, hu]
    · exact fun c hc => htw c (List.mem_of_mem_dropLast hc)
    · exact htw _ (List.getLast_mem hne)
  · rename_i fp hd
    right
    rw [hd] at hu
    simp only [Bool.and_eq_true, Bool.not_eq_true', List.all_eq_true] at h
    refine ⟨u.takeWhile Char.isDigit, fp, hu.symm, htw, h.2, ?_⟩
    intro e
    rw [e] at h
    exact absurd h.1 (by decide)
  · exact absurd h (by decide)

theorem numberMatches_numeral (a r : QString) (h : isDecimalNumeral a = true)
    (hr : ∀ c, r.head? = some c → isNumberChar c = false) :
    ∃ tail, numberMatches (a ++ r) = (a, r) :: tail := by
  obtain ⟨sg, u, rfl, hsg, hu⟩ := isDecimalNumeral_shape a h
  have hhead : ∀ c, (u ++ r).head? = some c → isSignChar c = false := by
    intro c hc
    rcases hu with ⟨ip, d, rfl, hip, hd⟩ | ⟨ip, fp, rfl, hip, hfp, hne⟩
    · cases ip with
      | nil =>
        simp only [List.nil_append, List.cons_append, List.head?_cons, Option.some.injEq] at hc
        subst hc
        exact isDigit_not_sign _ hd
      | cons x xs =>
        simp only [List.cons_append, List.head?_cons, Option.some.injEq] at hc
        subst hc
        exact isDigit_not_sign _ (hip _ (List.mem_cons_self _ _))
    · cases ip with
      | nil =>
        simp only [List.nil_append, List.cons_append, List.head?_cons, Option.some.injEq] at hc
        subst hc
        decide
      | cons x xs =>
        simp only [List.cons_append, List.head?_cons, Option.some.injEq] at hc
        subst hc
        exact isDigit_not_sign _ (hip _ (List.mem_cons_self _ _))
  have hsplits : ∃ more, optionalSplits isSignChar (sg ++ u ++ r) = (sg, u ++ r) :: more := by
    rcases hsg with rfl | rfl | rfl
    · exact ⟨[], by simpa using optionalSplits_stop isSignChar (u ++ r) hhead⟩
    · exact ⟨_, by simp [optionalSplits, isSignChar]; rfl⟩
    · exact ⟨_, by simp [optionalSplits, isSignChar]; rfl⟩
  obtain ⟨more, hmore⟩ := hsplits
  unfold numberMatches
  rw [hmore, List.flatMap_cons]
  rcases hu with ⟨ip, d, rfl, hip, hd⟩ | ⟨ip, fp, rfl, hip, hfp, hne⟩
  · obtain ⟨tail, ht⟩ := numberBody_int sg ip d r hip hd hr
    have e : ip ++ [d] ++ r = ip ++ d :: r := by simp
    simp only [e]
    rw [ht]
    exact ⟨_, rfl⟩
  · obtain ⟨tail, ht⟩ := numberBody_frac sg ip fp r hip hfp hne hr
    have e : ip ++ '.' :: fp ++ r = ip ++ '.' :: (fp ++ r) := by simp
    simp only [e]
    rw [ht]
    exact ⟨_, rfl⟩

theorem isPatternSpace_not_number (c : Char) (h : isPatternSpace c = true) :
    isNumberChar c = false := by
  cases hn : isNumberChar c with
  | false => rfl
  | true =>
    unfold isNumberChar isSignChar at hn
    unfold isPatternSpace at h
    simp only [Bool.or_eq_true, beq_iff_eq, Bool.and_eq_true, decide_eq_true_eq] at hn h
    rcases hn with ((rfl | rfl) | hd) | rfl
    · exact absurd h (by decide)
    · exact absurd h (by decide)
    · simp only [Char.isDigit, Bool.and_eq_true, decide_eq_true_eq] at hd
      rcases h with rfl | h
      · exact absurd hd (by decide)
      · have h1 : c.val.toNat = c.toNat := rfl
        have h2 : (48 : UInt32) ≤ c.val := hd.1
        have h3 : (48 : UInt32).toNat ≤ c.val.toNat := h2
        have h4 : (48 : UInt32).toNat = 48 := rfl
        omega
    · exact absurd h (by decide)

theorem whiteSpaceRun_head (ws r : QString) (hws : isWhiteSpaceRun ws = true) :
    ∀ c, (ws ++ r).head? = some c → isNumberChar c = false := by
  intro c hc
  unfold isWhiteSpaceRun at hws
  simp only [Bool.and_eq_true, Bool.not_eq_true', List.all_eq_true] at hws
  cases ws with
  | nil => exact absurd hws.1 (by decide)
  | cons x xs =>
    simp only [List.cons_append, List.head?_cons, Option.some.injEq] at hc
    subst hc
    exact isPatternSpace_not_number _ (hws.2 _ (List.mem_cons_self _ _))

theorem findSome?_head {α β : Type} (f : α → Option β) (x : α) (xs : List α) (b : β)
    (h : f x = some b) : (x :: xs).findSome? f = some b := by
  simp [List.findSome?_cons, h]

/-- On a position line the pattern matches at the start, with the three
numerals as its captures. -/
theorem matchPositionHere_positionLine (a ws1 b ws2 c : QString)
    (ha : isDecimalNumeral a = true) (hb : isDecimalNumeral b = true)
    (hc : isDecimalNumeral c = true) (h1 : isWhiteSpaceRun ws1 = true)
    (h2 : isWhiteSpaceRun ws2 = true) :
    matchPositionHere (positionLine a ws1 b ws2 c) = some (a, b, c) := by
  have e : positionLine a ws1 b ws2 c
      = 'X' :: ':' :: (a ++ (ws1 ++ ('Y' :: ':' :: (b ++ (ws2 ++ ('Z' :: ':' :: (c ++ []))))))) := by
    simp [positionLine]
  obtain ⟨t1, n1⟩ := numberMatches_numeral a (ws1 ++ ('Y' :: ':' :: (b ++ (ws2 ++
    ('Z' :: ':' :: (c ++ [])))))) ha (whiteSpaceRun_head ws1 _ h1)
  obtain ⟨t2, s1⟩ := spaceMatches_run ws1 ('Y' :: ':' :: (b ++ (ws2 ++ ('Z' :: ':' :: (c ++ [])))))
    h1 (fun x hx => by
      simp only [List.head?_cons, Option.some.injEq] at hx
      subst hx
      decide)
  obtain ⟨t3, n2⟩ := numberMatches_numeral b (ws2 ++ ('Z' :: ':' :: (c ++ []))) hb
    (whiteSpaceRun_head ws2 _ h2)
  obtain ⟨t4, s2⟩ := spaceMatches_run ws2 ('Z' :: ':' :: (c ++ [])) h2 (fun x hx => by
      simp only [List.head?_cons, Option.some.injEq] at hx
      subst hx
      decide)
  obtain ⟨t5, n3⟩ := numberMatches_numeral c [] hc (fun x hx => by simp at hx)
  rw [e]
  unfold matchPositionHere
  have l1 : stripLiteral "X:".toList ('X' :: ':' :: (a ++ (ws1 ++ ('Y' :: ':' :: (b ++ (ws2 ++
      ('Z' :: ':' :: (c ++ [])))))))) = some (a ++ (ws1 ++ ('Y' :: ':' :: (b ++ (ws2 ++
      ('Z' :: ':' :: (c ++ []))))))) := by
    simp [stripLiteral]
  have l2 : stripLiteral "Y:".toList ('Y' :: ':' :: (b ++ (ws2 ++ ('Z' :: ':' :: (c ++ [])))))
      = some (b ++ (ws2 ++ ('Z' :: ':' :: (c ++ [])))) := by
    simp [stripLiteral]
  have l3 : stripLiteral "Z:".toList ('Z' :: ':' :: (c ++ [])) = some (c ++ []) := by
    simp [stripLiteral]
  rw [l1, Option.some_bind, n1]
  apply findSome?_head
  rw [s1]
  apply findSome?_head
  rw [l2, Option.some_bind, n2]
  apply findSome?_head
  rw [s2]
  apply findSome?_head
  rw [l3, Option.some_bind, n3]
  rfl

theorem matchPosition_positionLine (a ws1 b ws2 c : QString)
    (ha : isDecimalNumeral a = true) (hb : isDecimalNumeral b = true)
    (hc : isDecimalNumeral c = true) (h1 : isWhiteSpaceRun ws1 = true)
    (h2 : isWhiteSpaceRun ws2 = true) :
    matchPosition (positionLine a ws1 b ws2 c) = some (a, b, c) := by
  have hm := matchPositionHere_positionLine a ws1 b ws2 c ha hb hc h1 h2
  unfold matchPosition
  have e : ∃ x xs, positionLine a ws1 b ws2 c = x :: xs := ⟨'X', _, rfl⟩
  obtain ⟨x, xs, e⟩ := e
  rw [e] at hm ⊢
  rw [List.tails]
  exact findSome?_head _ _ _ _ hm

theorem containsText_append (pre pat post : QString) :
    containsText (pre ++ (pat ++ post)) pat = true := by
  unfold containsText
  rw [List.any_eq_true]
  refine ⟨pat ++ post, ?_, ?_⟩
  · rw [List.mem_tails]
    exact List.suffix_append _ _
  · rw [List.isPrefixOf_iff_prefix]
    exact List.prefix_append _ _

theorem positionLine_contains (a ws1 b ws2 c : QString) :
    containsText (positionLine a ws1 b ws2 c) "X:".toList = true ∧
    containsText (positionLine a ws1 b ws2 c) "Y:".toList = true ∧
    containsText (positionLine a ws1 b ws2 c) "Z:".toList = true := by
  refine ⟨?_, ?_, ?_⟩
  · have := containsText_append [] "X:".toList (a ++ ws1 ++ "Y:".toList ++ b ++ ws2 ++ "Z:".toList ++ c)
    simpa [positionLine] using this
  · have := containsText_append ("X:".toList ++ a ++ ws1) "Y:".toList (b ++ ws2 ++ "Z:".toList ++ c)
    simpa [positionLine] using this
  · have := containsText_append ("X:".toList ++ a ++ ws1 ++ "Y:".toList ++ b ++ ws2) "Z:".toList c
    simpa [positionLine] using this

namespace MotorControlWidget

theorem handleLine_positionLine (w : MotorControlWidget) (a ws1 b ws2 c : QString)
    (ha : isDecimalNumeral a = true) (hb : isDecimalNumeral b = true)
    (hc : isDecimalNumeral c = true) (h1 : isWhiteSpaceRun ws1 = true)
    (h2 : isWhiteSpaceRun ws2 = true) :
    handleLine w (positionLine a ws1 b ws2 c) =
      { w with
        statusLog := w.statusLog ++
          [LogLine.rx (lineColour (positionLine a ws1 b ws2 c)) (positionLine a ws1 b ws2 c)],
        lastPosX := (toDouble a).1, lastPosY := (toDouble b).1, lastPosZ := (toDouble c).1,
        emitted := w.emitted ++ [WidgetSignal.positionChanged "X".toList (toDouble a).1,
          WidgetSignal.positionChanged "Y".toList (toDouble b).1,
          WidgetSignal.positionChanged "Z".toList (toDouble c).1] } := by
  obtain ⟨cx, cy, cz⟩ := positionLine_contains a ws1 b ws2 c
  unfold handleLine
  simp only [cx, cy, cz, Bool.and_self, if_true,
    matchPosition_positionLine a ws1 b ws2 c ha hb hc h1 h2, foldl_reportPosition]
  simp [emit]

end MotorControlWidget

theorem readNumeral_decimalNumeral (a : QString) (h : isDecimalNumeral a = true) :
    ∃ n, readNumeral a = some n ∧ n.negative = (takeSign a).1 ∧ n.expDigits = [] := by
  unfold isDecimalNumeral at h
  unfold readNumeral
  generalize takeSign a = ts at h ⊢
  obtain ⟨neg, u⟩ := ts
  simp only at h ⊢
  split at h
  · rename_i hd
    have hne : (u.takeWhile Char.isDigit).isEmpty = false := by simpa using h
    simp only [hd, hne, Bool.false_and, Bool.false_eq_true, if_false]
    exact ⟨_, rfl, rfl, rfl⟩
  · rename_i fp hd
    simp only [Bool.and_eq_true, Bool.not_eq_true', List.all_eq_true] at h
    have h1 : fp.takeWhile Char.isDigit = fp := List.takeWhile_eq_self_iff.mpr h.2
    have h2 : fp.dropWhile Char.isDigit = [] := List.dropWhile_eq_nil_iff.mpr h.2
    simp only [hd, h1, h2, h.1, Bool.and_false, Bool.false_eq_true, if_false]
    exact ⟨_, rfl, rfl, rfl⟩
  · exact absurd h (by decide)

theorem isNumberChar_le (c : Char) (h : isNumberChar c = true) : c.toNat ≤ 57 := by
  unfold isNumberChar isSignChar at h
  simp only [Bool.or_eq_true, beq_iff_eq] at h
  rcases h with ((rfl | rfl) | hd) | rfl
  · decide
  · decide
  · simp only [Char.isDigit, Bool.and_eq_true, decide_eq_true_eq] at hd
    exact hd.2
  · decide

theorem isNumberChar_ge (c : Char) (h : isNumberChar c = true) : 43 ≤ c.toNat := by
  unfold isNumberChar isSignChar at h
  simp only [Bool.or_eq_true, beq_iff_eq] at h
  rcases h with ((rfl | rfl) | hd) | rfl
  · decide
  · decide
  · simp only [Char.isDigit, Bool.and_eq_true, decide_eq_true_eq] at hd
    have h2 : (48 : UInt32).toNat ≤ c.val.toNat := hd.1
    have h4 : (48 : UInt32).toNat = 48 := rfl
    have h1 : c.val.toNat = c.toNat := rfl
    omega
  · decide

theorem isNumberChar_not_space (c : Char) (h : isNumberChar c = true) : isSpace c = false := by
  have h1 := isNumberChar_le c h
  have h2 := isNumberChar_ge c h
  cases hs : isSpace c with
  | false => rfl
  | true =>
    unfold isSpace at hs
    simp only [Bool.or_eq_true, Bool.and_eq_true, beq_iff_eq, decide_eq_true_eq] at hs
    rcases hs with (hs | hs) | hs <;> omega

theorem isNumberChar_toLower (c : Char) (h : isNumberChar c = true) : c.toLower = c := by
  have h1 := isNumberChar_le c h
  unfold Char.toLower
  simp only
  split
  · omega
  · rfl

theorem dropWhile_head_false (p : Char → Bool) (s : QString)
    (h : ∀ c, s.head? = some c → p c = false) : s.dropWhile p = s := by
  cases s with
  | nil => rfl
  | cons x xs => simp [List.dropWhile, h x rfl]

theorem trimmed_eq_self (s : QString) (h : ∀ c ∈ s, isSpace c = false) : trimmed s = s := by
  unfold trimmed
  rw [dropWhile_head_false isSpace s (fun c hc => h c (List.mem_of_mem_head? hc)),
    dropWhile_head_false isSpace s.reverse (fun c hc =>
      h c (List.mem_reverse.mp (List.mem_of_mem_head? hc))), List.reverse_reverse]

theorem isDecimalNumeral_chars (a : QString) (h : isDecimalNumeral a = true) :
    ∀ c ∈ a, isNumberChar c = true := by
  obtain ⟨tail, ht⟩ := numberMatches_numeral a [] h (fun c hc => by simp at hc)
  have hm : (a, []) ∈ numberMatches (a ++ []) := by
    rw [ht]
    exact List.mem_cons_self _ _
  exact numberMatches_mem _ a [] hm

/-- The number `toDouble` reads from a decimal numeral is the value of the
numeral: the text is a well-formed number, and the result is its nearest
double (a zero when the numeral rounds to zero). -/
theorem toDouble_decimalNumeral (a : QString) (h : isDecimalNumeral a = true) :
    ∃ n, readNumeral a = some n ∧ n.expDigits = [] ∧
      ((toDouble a).1 = n.value ∨ ((toDouble a).1.isZero = true ∧ n.value.isZero = true)) := by
  have hch := isDecimalNumeral_chars a h
  have htrim : trimmed a = a := trimmed_eq_self a (fun c hc => isNumberChar_not_space c (hch c hc))
  have hlow : a.map Char.toLower = a := by
    conv_rhs => rw [← List.map_id a]
    exact List.map_congr_left (fun c hc => isNumberChar_toLower c (hch c hc))
  have hnot : ∀ lit : QString, (∃ c ∈ lit, isNumberChar c = false) → a ≠ lit := by
    rintro lit ⟨c, hc, hn⟩ rfl
    rw [hch c hc] at hn
    exact absurd hn (by decide)
  have e1 : a ≠ "nan".toList := hnot _ ⟨'n', by decide, by decide⟩
  have e2 : a ≠ "inf".toList := hnot _ ⟨'n', by decide, by decide⟩
  have e3 : a ≠ "+inf".toList := hnot _ ⟨'n', by decide, by decide⟩
  have e4 : a ≠ "-inf".toList := hnot _ ⟨'n', by decide, by decide⟩
  obtain ⟨n, hn, -, hexp⟩ := readNumeral_decimalNumeral a h
  refine ⟨n, hn, hexp, ?_⟩
  unfold toDouble
  simp only [htrim, hlow, e1, e2, e3, e4, if_false, or_self, hn]
  cases hv : n.value with
  | nan => exact Or.inl rfl
  | inf s => exact Or.inl rfl
  | finite s m e =>
    simp only
    split
    · rename_i hz
      right
      refine ⟨rfl, ?_⟩
      simp [Double.isZero, hz.1]
    · exact Or.inl rfl

/-! ## Position lines -/

/-- C21: for every line of the form X:a Y:b Z:c in which a, b and c are
decimal numerals with an optional leading sign and an optional decimal point,
separated by white space, the position pattern captures exactly a, b and c, and
handleSerialRead, on receiving the segment that decodes and trims to this line,
sets the last-known positions to the values of a, b and c and emits
positionChanged once for each of the axes X, Y and Z, in this order, with the
matching value; the value toDouble reads from each numeral is the double
nearest to it (a zero when the numeral rounds to zero). -/
theorem handleSerialRead_position_line (codec : TextCodec) (w : MotorControlWidget)
    (a ws1 b ws2 c : QString) (seg : QByteArray)
    (ha : isDecimalNumeral a = true) (hb : isDecimalNumeral b = true)
    (hc : isDecimalNumeral c = true) (h1 : isWhiteSpaceRun ws1 = true)
    (h2 : isWhiteSpaceRun ws2 = true) (hseg : (10 : Byte) ∉ w.buffer ++ seg)
    (hline : trimmed (codec.fromUtf8 (w.buffer ++ seg)) = positionLine a ws1 b ws2 c) :
    matchPosition (positionLine a ws1 b ws2 c) = some (a, b, c) ∧
    (w.handleSerialRead codec (seg ++ [10])).lastPosX = (toDouble a).1 ∧
    (w.handleSerialRead codec (seg ++ [10])).lastPosY = (toDouble b).1 ∧
    (w.handleSerialRead codec (seg ++ [10])).lastPosZ = (toDouble c).1 ∧
    (w.handleSerialRead codec (seg ++ [10])).emitted = w.emitted ++
      [WidgetSignal.positionChanged "X".toList (toDouble a).1,
        WidgetSignal.positionChanged "Y".toList (toDouble b).1,
        WidgetSignal.positionChanged "Z".toList (toDouble c).1] ∧
    (w.handleSerialRead codec (seg ++ [10])).buffer = [] ∧
    (∀ s ∈ [a, b, c], ∃ n, readNumeral s = some n ∧
      ((toDouble s).1 = n.value ∨ ((toDouble s).1.isZero = true ∧ n.value.isZero = true))) := by
  have hsplit : splitAtNewlines [] (w.buffer ++ (seg ++ [10])) = ([w.buffer ++ seg], []) := by
    rw [← List.append_assoc, splitAtNewlines_append, splitAtNewlines_of_not_mem [] _ hseg]
    simp [splitAtNewlines]
  have hne : (positionLine a ws1 b ws2 c).isEmpty = false := rfl
  have hrun : w.handleSerialRead codec (seg ++ [10])
      = (w.handleLine (positionLine a ws1 b ws2 c)).setBuffer [] := by
    rw [MotorControlWidget.handleSerialRead_eq]
    unfold segments
    rw [hsplit]
    simp only [List.foldl_cons, List.foldl_nil, MotorControlWidget.handleSegment, hline, hne,
      Bool.false_eq_true, if_false]
  rw [hrun, MotorControlWidget.handleLine_positionLine w a ws1 b ws2 c ha hb hc h1 h2]
  refine ⟨matchPosition_positionLine a ws1 b ws2 c ha hb hc h1 h2, rfl, rfl, rfl, rfl, rfl, ?_⟩
  intro s hs
  simp only [List.mem_cons, List.mem_singleton, List.not_mem_nil, or_false] at hs
  rcases hs with rfl | rfl | rfl
  · obtain ⟨n, hn, -, hv⟩ := toDouble_decimalNumeral s ha
    exact ⟨n, hn, hv⟩
  · obtain ⟨n, hn, -, hv⟩ := toDouble_decimalNumeral s hb
    exact ⟨n, hn, hv⟩
  · obtain ⟨n, hn, -, hv⟩ := toDouble_decimalNumeral s hc
    exact ⟨n, hn, hv⟩

/-- Instance of C21: the line "X:10.50 Y:-3 Z:+0.25" sets the positions to
10.5, -3 and 0.25 and emits one positionChanged for each axis. -/
theorem handleSerialRead_position_line_witness :
    matchPosition "X:10.50 Y:-3 Z:+0.25".toList
      = some ("10.50".toList, "-3".toList, "+0.25".toList) ∧
    ((mkWidget true true).handleSerialRead asciiCodec (asciiBytes "X:10.50 Y:-3 Z:+0.25\n")).emitted
      = [WidgetSignal.positionChanged "X".toList (.finite false 21 (-1)),
          WidgetSignal.positionChanged "Y".toList (.ofInt (-3)),
          WidgetSignal.positionChanged "Z".toList (.finite false 1 (-2))] :=
  ⟨(handleSerialRead_position_line asciiCodec (mkWidget true true) "10.50".toList " ".toList
      "-3".toList " ".toList "+0.25".toList (asciiBytes "X:10.50 Y:-3 Z:+0.25") (by decide)
      (by decide) (by decide) (by decide) (by decide) (by decide) (by decide)).1,
    (handleSerialRead_position_line asciiCodec (mkWidget true true) "10.50".toList " ".toList
      "-3".toList " ".toList "+0.25".toList (asciiBytes "X:10.50 Y:-3 Z:+0.25") (by decide)
      (by decide) (by decide) (by decide) (by decide) (by decide) (by decide)).2.2.2.2.1.trans
      (by decide)⟩

/-! ## Line classification -/

theorem containsText_cons (x : Char) (l pat : QString) :
    containsText (x :: l) pat = (pat.isPrefixOf (x :: l) || containsText l pat) := by
  unfold containsText
  rw [List.tails, List.any_cons]

/-- Changing the first letter of an occurrence of `error` between `e` and `E`
neither creates nor removes an occurrence of `OK`. -/
theorem containsText_OK_error (pre post : QString) :
    containsText (pre ++ ("error".toList ++ post)) "OK".toList
      = containsText (pre ++ ("Error".toList ++ post)) "OK".toList := by
  induction pre with
  | nil =>
    show containsText ('e' :: ("rror".toList ++ post)) "OK".toList
      = containsText ('E' :: ("rror".toList ++ post)) "OK".toList
    rw [containsText_cons, containsText_cons]
    rfl
  | cons x xs ih =>
    show containsText (x :: (xs ++ ("error".toList ++ post))) "OK".toList
      = containsText (x :: (xs ++ ("Error".toList ++ post))) "OK".toList
    rw [containsText_cons, containsText_cons, ih]
    congr 1
    cases xs with
    | nil =>
      show List.isPrefixOf ['O', 'K'] (x :: 'e' :: _) = List.isPrefixOf ['O', 'K'] (x :: 'E' :: _)
      simp [List.isPrefixOf]
    | cons y ys =>
      show List.isPrefixOf ['O', 'K'] (x :: y :: _) = List.isPrefixOf ['O', 'K'] (x :: y :: _)
      simp [List.isPrefixOf]

theorem startsWith_ok_error (pre post : QString) :
    startsWith (pre ++ ("error".toList ++ post)) "ok".toList
      = startsWith (pre ++ ("Error".toList ++ post)) "ok".toList := by
  unfold startsWith
  cases pre with
  | nil => rfl
  | cons x xs =>
    cases xs with
    | nil =>
      show List.isPrefixOf ['o', 'k'] (x :: 'e' :: _) = List.isPrefixOf ['o', 'k'] (x :: 'E' :: _)
      simp [List.isPrefixOf]
    | cons y ys =>
      show List.isPrefixOf ['o', 'k'] (x :: y :: _) = List.isPrefixOf ['o', 'k'] (x :: y :: _)
      simp [List.isPrefixOf]

namespace MotorControlWidget

theorem lineColour_error (pre post : QString) :
    lineColour (pre ++ ("error".toList ++ post))
      = if startsWith (pre ++ ("error".toList ++ post)) "ok".toList ||
          containsText (pre ++ ("error".toList ++ post)) "OK".toList then Colour.green
        else Colour.red := by
  unfold lineColour
  simp only [containsText_append pre "error".toList post, Bool.or_true, Bool.true_or, if_true]

theorem lineColour_Error (pre post : QString) :
    lineColour (pre ++ ("Error".toList ++ post))
      = if startsWith (pre ++ ("Error".toList ++ post)) "ok".toList ||
          containsText (pre ++ ("Error".toList ++ post)) "OK".toList then Colour.green
        else Colour.red := by
  unfold lineColour
  simp only [containsText_append pre "Error".toList post, Bool.or_true, Bool.true_or, if_true]

end MotorControlWidget

/-- Counterexample to C22: handleSerialRead classes the line "ok" as an
acknowledgement (green) but "Ok" as other (blue), and "error: halted" as an
error (red) but "ERROR: halted" as other (blue). -/
theorem lineColour_case_counterexample :
    ((mkWidget true true).handleSerialRead asciiCodec (asciiBytes "ok\n")).statusLog
      = [LogLine.rx .green "ok".toList] ∧
    ((mkWidget true true).handleSerialRead asciiCodec (asciiBytes "Ok\n")).statusLog
      = [LogLine.rx .blue "Ok".toList] ∧
    ((mkWidget true true).handleSerialRead asciiCodec (asciiBytes "error: halted\n")).statusLog
      = [LogLine.rx .red "error: halted".toList] ∧
    ((mkWidget true true).handleSerialRead asciiCodec (asciiBytes "ERROR: halted\n")).statusLog
      = [LogLine.rx .blue "ERROR: halted".toList] := by
  decide

/-- C22, amended: the class of a line is "acknowledged" when it starts with
"ok" or with "OK" (or holds "OK" anywhere), and replacing an occurrence of
"error" by "Error" or back does not change the class of a line, which is
"error" unless the line is acknowledged. -/
theorem lineColour_spellings (pre post : QString) :
    MotorControlWidget.lineColour ("ok".toList ++ post) = .green ∧
    MotorControlWidget.lineColour ("OK".toList ++ post) = .green ∧
    MotorControlWidget.lineColour (pre ++ ("OK".toList ++ post)) = .green ∧
    MotorControlWidget.lineColour (pre ++ ("error".toList ++ post))
      = MotorControlWidget.lineColour (pre ++ ("Error".toList ++ post)) ∧
    (MotorControlWidget.lineColour (pre ++ ("error".toList ++ post)) = .green ∨
      MotorControlWidget.lineColour (pre ++ ("error".toList ++ post)) = .red) := by
  have hOK : ∀ p : QString, MotorControlWidget.lineColour (p ++ ("OK".toList ++ post)) = .green := by
    intro p
    unfold MotorControlWidget.lineColour
    simp only [containsText_append p "OK".toList post, Bool.or_true, if_true]
  refine ⟨?_, hOK [], hOK pre, ?_, ?_⟩
  · unfold MotorControlWidget.lineColour
    have : startsWith ("ok".toList ++ post) "ok".toList = true := by
      simp [startsWith, List.isPrefixOf]
    simp only [this, Bool.true_or, if_true]
  · rw [MotorControlWidget.lineColour_error, MotorControlWidget.lineColour_Error,
      startsWith_ok_error, containsText_OK_error]
  · rw [MotorControlWidget.lineColour_error]
    split
    · exact Or.inl rfl
    · exact Or.inr rfl

/-! ## Connection handling -/

theorem arg_marker_last (pre a : QString) (h : ∀ c ∈ pre, c ≠ '%') :
    arg (pre ++ "%1".toList) a = pre ++ a := by
  rw [arg_append_left pre _ a h]
  simp [arg, scanArg, minEscape, replaceArgEscapes, digitValue]

/-- Counterexample to C23: a resource error reported to a connected engine
leaves connected() true. -/
theorem onErrorOccurred_connected_counterexample :
    connectedEngine.connected = true ∧
    (connectedEngine.onErrorOccurred .ResourceError "Device removed".toList).connected = true ∧
    (connectedEngine.onErrorOccurred .ResourceError "Device removed".toList).isConnected
      = true := by
  decide

/-- C23, amended: a transport fault reported by the port emits an error event
with the text "Serial port error: " followed by the port's error text and sets
the error flag; the connection flag, the port and the response buffer stay as
they were, so connected() after onErrorOccurred is what it was before. A report
of NoError changes nothing. -/
theorem onErrorOccurred_effect (self : TinyBeeController) (error : SerialPortError)
    (errorString : QString) (herr : error ≠ .NoError) :
    (self.onErrorOccurred error errorString).emitted
      = self.emitted ++ [Signal.errorOccurred ("Serial port error: ".toList ++ errorString)] ∧
    (self.onErrorOccurred error errorString).hasError = true ∧
    (self.onErrorOccurred error errorString).connected = self.connected ∧
    (self.onErrorOccurred error errorString).m_serial = self.m_serial ∧
    (self.onErrorOccurred error errorString).m_responseBuffer = self.m_responseBuffer ∧
    self.onErrorOccurred .NoError errorString = self := by
  have harg : arg "Serial port error: %1".toList errorString
      = "Serial port error: ".toList ++ errorString :=
    arg_marker_last "Serial port error: ".toList errorString (by decide)
  unfold TinyBeeController.onErrorOccurred
  simp only [herr, if_false, harg]
  exact ⟨rfl, rfl, rfl, rfl, rfl, rfl⟩

/-- Instance of C23 (amended): a read error on a connected engine emits the
error event, sets the error flag and leaves the engine connected. -/
theorem onErrorOccurred_effect_witness :
    (connectedEngine.onErrorOccurred .ReadError "I/O error".toList).emitted
      = [Signal.errorOccurred "Serial port error: I/O error".toList] ∧
    (connectedEngine.onErrorOccurred .ReadError "I/O error".toList).hasError = true ∧
    (connectedEngine.onErrorOccurred .ReadError "I/O error".toList).connected = true :=
  ⟨(onErrorOccurred_effect connectedEngine .ReadError "I/O error".toList (by decide)).1,
    (onErrorOccurred_effect connectedEngine .ReadError "I/O error".toList (by decide)).2.1,
    (onErrorOccurred_effect connectedEngine .ReadError "I/O error".toList (by decide)).2.2.1⟩

/-- Counterexample to C24: disconnectPort of the engine leaves the three bytes
"X:1" in m_responseBuffer; disconnectPort of the widget leaves them in buffer,
and after the next connect they are prepended to the first line received. -/
theorem disconnectPort_buffer_counterexample :
    ({ connectedEngine with m_responseBuffer := asciiBytes "X:1" }.disconnectPort).m_responseBuffer
      = asciiBytes "X:1" ∧
    (((mkWidget true true).setBuffer (asciiBytes "X:1")).disconnectPort).buffer
      = asciiBytes "X:1" ∧
    (((((mkWidget true true).setBuffer (asciiBytes "X:1")).disconnectPort).connectPort
        "COM3".toList true []).handleSerialRead asciiCodec (asciiBytes " Y:2 Z:3\n")).statusLog
      = [LogLine.status "❌ Disconnected".toList, LogLine.status "✅ Connected to COM3".toList,
          LogLine.rx .blue "X:1 Y:2 Z:3".toList] := by
  decide

/-- C24, amended: disconnectPort of TinyBeeController leaves m_responseBuffer
as it was; the next successful connectPort empties it, so a response read after
that connect holds only bytes received after it: a partial line received before
the disconnect is not prepended. -/
theorem disconnectPort_keeps_buffer (self : TinyBeeController) (portName : QString)
    (baudRate : Int) (errorString : QString) :
    self.disconnectPort.m_responseBuffer = self.m_responseBuffer ∧
    (self.disconnectPort.connectPort portName baudRate true errorString).2.m_responseBuffer
      = [] ∧
    ∀ (codec : TextCodec) (timeoutMs : Int) (steps : List WaitStep) (out : QString)
      (self1 : TinyBeeController),
      TinyBeeController.waitForResponse codec
          (self.disconnectPort.connectPort portName baudRate true errorString).2 timeoutMs steps
        = (true, out, self1) →
      ∃ pre ev post, steps = pre ++ ev :: post ∧ out = codec.fromUtf8 (received (pre ++ [ev])) := by
  have hb : (self.disconnectPort.connectPort portName baudRate true errorString).2.m_responseBuffer
      = [] := rfl
  refine ⟨?_, hb, ?_⟩
  · unfold TinyBeeController.disconnectPort
    split <;> rfl
  · intro codec timeoutMs steps out self1 h
    obtain ⟨pre, ev, post, h1, -, -, h4, -⟩ := waitForResponse_success codec timeoutMs steps _ out self1 h
    rw [hb] at h4
    exact ⟨pre, ev, post, h1, by simpa using h4⟩

/-- Instance of C24 (amended): an engine holding the partial line "X:1" is
disconnected and connected again; the response "ok" read afterwards does not
start with the old bytes. -/
theorem disconnectPort_keeps_buffer_witness :
    ({ connectedEngine with m_responseBuffer := asciiBytes "X:1" }.disconnectPort).m_responseBuffer
      = asciiBytes "X:1" ∧
    ∃ pre ev post, [readText 5 "ok\n"] = pre ++ ev :: post ∧
      "ok\n".toList = asciiCodec.fromUtf8 (received (pre ++ [ev])) :=
  ⟨(disconnectPort_keeps_buffer { connectedEngine with m_responseBuffer := asciiBytes "X:1" }
      "COM3".toList 115200 []).1,
    (disconnectPort_keeps_buffer { connectedEngine with m_responseBuffer := asciiBytes "X:1" }
      "COM3".toList 115200 []).2.2 asciiCodec 2000 [readText 5 "ok\n"] "ok\n".toList
      { connectedEngine with emitted := [Signal.disconnected, Signal.connected] } (by decide)⟩

/-- C25: for every prior state, connectPort returns true exactly when the port
opens; after a successful open the engine is connected with an open port, the
error flag is cleared, the response buffer is empty and connected is emitted;
after a failed open the engine is disconnected, the error flag is set and
errorOccurred is emitted with the port name and the port's error text;
disconnectPort always ends disconnected with the port closed, and a second
disconnectPort changes nothing but emits disconnected once more. -/
theorem connectPort_disconnectPort (self : TinyBeeController) (portName : QString)
    (baudRate : Int) (errorString : QString) :
    (∀ openOk, (self.connectPort portName baudRate openOk errorString).1 = openOk) ∧
    ((self.connectPort portName baudRate true errorString).2.connected = true ∧
      (self.connectPort portName baudRate true errorString).2.isConnected = true ∧
      (self.connectPort portName baudRate true errorString).2.hasError = false ∧
      (self.connectPort portName baudRate true errorString).2.m_responseBuffer = [] ∧
      (self.connectPort portName baudRate true errorString).2.emitted
        = self.emitted ++ [Signal.connected]) ∧
    ((self.connectPort portName baudRate false errorString).2.connected = false ∧
      (self.connectPort portName baudRate false errorString).2.isConnected = false ∧
      (self.connectPort portName baudRate false errorString).2.hasError = true ∧
      (self.connectPort portName baudRate false errorString).2.emitted
        = self.emitted ++ [Signal.errorOccurred
            (arg2 "Failed to open serial port %1: %2".toList portName errorString)]) ∧
    (self.disconnectPort.connected = false ∧ self.disconnectPort.isConnected = false ∧
      self.disconnectPort.m_serial.isOpen = false ∧
      self.disconnectPort.emitted = self.emitted ++ [Signal.disconnected]) ∧
    self.disconnectPort.disconnectPort = self.disconnectPort.emit .disconnected := by
  have hopen : self.disconnectPort.m_serial.isOpen = false := by
    unfold TinyBeeController.disconnectPort
    split
    · rfl
    · rename_i h
      simpa using h
  refine ⟨?_, ?_, ?_, ?_, ?_⟩
  · intro openOk
    cases openOk <;> rfl
  · unfold TinyBeeController.connectPort
    split <;> exact ⟨rfl, rfl, rfl, rfl, rfl⟩
  · unfold TinyBeeController.connectPort
    split <;> exact ⟨rfl, rfl, rfl, rfl⟩
  · refine ⟨rfl, rfl, hopen, ?_⟩
    unfold TinyBeeController.disconnectPort
    split <;> rfl
  · have hconn : self.disconnectPort.m_connected = false := rfl
    generalize self.disconnectPort = s at hopen hconn
    obtain ⟨ser, buf, conn, err, em⟩ := s
    simp only at hopen hconn
    subst hconn
    unfold TinyBeeController.disconnectPort
    simp only [hopen, Bool.false_eq_true, if_false]

/-! ## Timeouts -/

namespace TinyBeeController

/-- The loop of `waitForResponse` changes only the response buffer. -/
theorem waitForResponse_members (codec : TextCodec) (timeoutMs : Int) (steps : List WaitStep)
    (self : TinyBeeController) :
    (waitForResponse codec self timeoutMs steps).2.2.emitted = self.emitted ∧
    (waitForResponse codec self timeoutMs steps).2.2.m_connected = self.m_connected ∧
    (waitForResponse codec self timeoutMs steps).2.2.m_serial = self.m_serial ∧
    (waitForResponse codec self timeoutMs steps).2.2.m_hasError = self.m_hasError := by
  induction steps generalizing self with
  | nil => exact ⟨rfl, rfl, rfl, rfl⟩
  | cons s rest ih =>
    unfold waitForResponse
    by_cases hs : s.elapsed < timeoutMs
    · by_cases hr : s.ready = true
      · by_cases hc : responseComplete (self.m_responseBuffer ++ s.data) = true
        · simp [hs, hr, hc]
        · simp only [hs, hr, hc, if_true]
          exact ih _
      · simp only [hs, hr, if_true]
        exact ih _
    · simp [hs]

/-- A failed `waitForResponse` hands back an empty `outResponse`. -/
theorem waitForResponse_failure (codec : TextCodec) (timeoutMs : Int) (steps : List WaitStep)
    (self : TinyBeeController) (h : (waitForResponse codec self timeoutMs steps).1 = false) :
    (waitForResponse codec self timeoutMs steps).2.1 = [] := by
  induction steps generalizing self with
  | nil => rfl
  | cons s rest ih =>
    unfold waitForResponse at h ⊢
    by_cases hs : s.elapsed < timeoutMs
    · by_cases hr : s.ready = true
      · by_cases hc : responseComplete (self.m_responseBuffer ++ s.data) = true
        · simp only [hs, hr, hc, if_true] at h
          exact absurd h (by decide)
        · simp only [hs, hr, hc, if_true] at h ⊢
          exact ih _ h
      · simp only [hs, hr, if_true] at h ⊢
        exact ih _ h
    · simp only [hs, if_false]

/-- With no completing read before the timeout the loop fails: when the passes
before the timeout never leave a complete response in the buffer,
`waitForResponse` returns false. -/
theorem waitForResponse_timeout (codec : TextCodec) (timeoutMs : Int) (steps : List WaitStep)
    (self : TinyBeeController)
    (h : ∀ pre ev post, steps = pre ++ ev :: post → ev.ready = true →
      responseComplete (self.m_responseBuffer ++ received (pre ++ [ev])) = false) :
    (waitForResponse codec self timeoutMs steps).1 = false := by
  cases hres : waitForResponse codec self timeoutMs steps with
  | mk ok rest =>
    obtain ⟨out, self1⟩ := rest
    cases ok with
    | false => rfl
    | true =>
      obtain ⟨pre, ev, post, h1, h2, h3, -, -⟩ :=
        waitForResponse_success codec timeoutMs steps self out self1 hres
      rw [h pre ev post h1 h2] at h3
      exact absurd h3 (by decide)

/-- When no wait is entered with the argument -1, the loop with both clock
readings is the loop of `waitForResponse` over the same passes. -/
theorem waitForResponseClocked_eq (codec : TextCodec) (timeoutMs : Int) (steps : List ClockedStep)
    (self : TinyBeeController) (h : ∀ s ∈ steps, timeoutMs - s.elapsedAtWait ≠ -1) :
    waitForResponseClocked codec self timeoutMs steps
      = some (waitForResponse codec self timeoutMs (steps.map ClockedStep.toWaitStep)) := by
  induction steps generalizing self with
  | nil => rfl
  | cons s rest ih =>
    have hs : timeoutMs - s.elapsedAtWait ≠ -1 := h s (List.mem_cons_self _ _)
    have hrest : ∀ s ∈ rest, timeoutMs - s.elapsedAtWait ≠ -1 :=
      fun x hx => h x (List.mem_cons_of_mem _ hx)
    unfold waitForResponseClocked
    rw [List.map_cons, waitForResponse]
    obtain ⟨e1, e2, arrival⟩ := s
    simp only at hs
    cases arrival with
    | none =>
      simp only [ClockedStep.toWaitStep, ControlMotor.waitForReadyRead, hs, if_false,
        Option.isSome_none, Bool.false_eq_true, ih _ hrest]
      split <;> rfl
    | some data =>
      simp only [ClockedStep.toWaitStep, ControlMotor.waitForReadyRead, Option.isSome_some,
        if_true, Option.getD_some]
      split
      · split
        · rfl
        · exact ih _ hrest
      · rfl

end TinyBeeController

namespace TinyBeeController

/-- The four ways a `sendCommand` ends without a response: the state it was
given or the state after the write, with one `errorOccurred` or none. -/
theorem sendCommand_cases (codec : TextCodec) (self : TinyBeeController) (cmd : GCodeCommand)
    (response : Option QString) (timeoutMs : Int) (dev : DeviceReply) :
    (∃ err, sendCommand codec self cmd response timeoutMs dev
        = (false, response, self.emit (.errorOccurred err))) ∨
    sendCommand codec self cmd response timeoutMs dev = (false, response, self) ∨
    (∃ err buf, sendCommand codec self cmd response timeoutMs dev
        = (false, response,
            { self with
              m_serial := self.m_serial.write (codec.toUtf8 (buildCommandString self cmd)),
              m_responseBuffer := buf,
              emitted := self.emitted ++ [Signal.errorOccurred err] })) ∨
    (∃ resp, sendCommand codec self cmd response timeoutMs dev
        = (true, response.map (fun _ => resp),
            { self with
              m_serial := self.m_serial.write (codec.toUtf8 (buildCommandString self cmd)),
              m_responseBuffer := [] })) := by
  unfold sendCommand
  by_cases hc : self.isConnected = true
  · by_cases he : (buildCommandString self cmd).isEmpty = true
    · right; left
      simp only [hc, he, Bool.not_true, Bool.false_eq_true, if_false, if_true]
    · by_cases hw : dev.writeOk = true
      · by_cases hb : dev.bytesWritten = true
        · simp only [hc, he, hw, hb, Bool.not_true, Bool.false_eq_true, if_false]
          have hm := waitForResponse_members codec timeoutMs dev.reads
            { m_serial := self.m_serial.write (codec.toUtf8 (buildCommandString self cmd)),
              m_responseBuffer := [], m_connected := self.m_connected,
              m_hasError := self.m_hasError, emitted := self.emitted }
          have hs := waitForResponse_success codec timeoutMs dev.reads
            { m_serial := self.m_serial.write (codec.toUtf8 (buildCommandString self cmd)),
              m_responseBuffer := [], m_connected := self.m_connected,
              m_hasError := self.m_hasError, emitted := self.emitted }
          revert hm hs
          cases waitForResponse codec
            { m_serial := self.m_serial.write (codec.toUtf8 (buildCommandString self cmd)),
              m_responseBuffer := [], m_connected := self.m_connected,
              m_hasError := self.m_hasError, emitted := self.emitted } timeoutMs dev.reads with
          | mk ok rest =>
            obtain ⟨out, self3⟩ := rest
            intro hm hs
            simp only at hm
            obtain ⟨h1, h2, h3, h4⟩ := hm
            cases ok with
            | false =>
              right; right; left
              obtain ⟨ser, buf, conn, err, em⟩ := self3
              simp only at h1 h2 h3 h4
              subst h1 h2 h3 h4
              exact ⟨_, buf, rfl⟩
            | true =>
              right; right; right
              obtain ⟨pre, ev, post, -, -, -, -, h5⟩ := hs out self3 rfl
              rw [h5]
              exact ⟨_, rfl⟩
        · right; right; left
          simp only [hc, he, hw, hb, Bool.not_true, Bool.not_false, Bool.false_eq_true, if_false,
            if_true]
          exact ⟨_, [], rfl⟩
      · right; right; left
        simp only [hc, he, hw, Bool.not_true, Bool.not_false, Bool.false_eq_true, if_false,
          if_true]
        exact ⟨_, [], rfl⟩
  · left
    simp only [hc, Bool.not_false, if_true]
    exact ⟨_, rfl⟩

/-- What every `sendCommand` leaves alone: the connection flag and the open
state of the port stay, a failed call leaves the caller's `response` as it
was, and the only signals emitted are `errorOccurred`, none on success. -/
theorem sendCommand_frame (codec : TextCodec) (self : TinyBeeController) (cmd : GCodeCommand)
    (response : Option QString) (timeoutMs : Int) (dev : DeviceReply) :
    (sendCommand codec self cmd response timeoutMs dev).2.2.m_connected = self.m_connected ∧
    (sendCommand codec self cmd response timeoutMs dev).2.2.m_serial.isOpen
      = self.m_serial.isOpen ∧
    ((sendCommand codec self cmd response timeoutMs dev).1 = false →
      (sendCommand codec self cmd response timeoutMs dev).2.1 = response) ∧
    ∃ es, (sendCommand codec self cmd response timeoutMs dev).2.2.emitted = self.emitted ++ es ∧
      (∀ s ∈ es, s.isErrorOccurred = true) ∧
      ((sendCommand codec self cmd response timeoutMs dev).1 = true → es = []) := by
  have single : ∀ err : QString, ∀ s ∈ [Signal.errorOccurred err], s.isErrorOccurred = true := by
    intro err s hs
    rw [List.mem_singleton.mp hs]
    rfl
  rcases sendCommand_cases codec self cmd response timeoutMs dev with
    ⟨err, e⟩ | e | ⟨err, buf, e⟩ | ⟨resp, e⟩
  · rw [e]
    exact ⟨rfl, rfl, fun _ => rfl, _, rfl, single err, fun h => by simp at h⟩
  · rw [e]
    exact ⟨rfl, rfl, fun _ => rfl, [], (List.append_nil _).symm, by simp, fun _ => rfl⟩
  · rw [e]
    exact ⟨rfl, rfl, fun _ => rfl, _, rfl, single err, fun h => by simp at h⟩
  · rw [e]
    exact ⟨rfl, rfl, fun h => by simp at h, [], (List.append_nil _).symm, by simp,
      fun _ => rfl⟩

end TinyBeeController

namespace TinyBeeController

/-- Away from the clock race the timeout works as intended: when no wait is
entered with the argument -1 and no read before the timeout completes the
response, `waitForResponse` returns failure with an empty output and leaves the
connection flag, the port and the signals as they were. -/
theorem waitForResponseClocked_timeout (codec : TextCodec) (timeoutMs : Int)
    (steps : List ClockedStep) (self : TinyBeeController)
    (hclock : ∀ s ∈ steps, timeoutMs - s.elapsedAtWait ≠ -1)
    (hnone : ∀ pre ev post, steps.map ClockedStep.toWaitStep = pre ++ ev :: post →
      ev.ready = true →
      responseComplete (self.m_responseBuffer ++ received (pre ++ [ev])) = false) :
    ∃ self1, waitForResponseClocked codec self timeoutMs steps = some (false, [], self1) ∧
      self1.m_connected = self.m_connected ∧ self1.m_serial = self.m_serial ∧
      self1.emitted = self.emitted := by
  rw [waitForResponseClocked_eq codec timeoutMs steps self hclock]
  have h1 := waitForResponse_timeout codec timeoutMs _ self hnone
  have h2 := waitForResponse_failure codec timeoutMs _ self h1
  obtain ⟨m1, m2, m3, -⟩ := waitForResponse_members codec timeoutMs
    (steps.map ClockedStep.toWaitStep) self
  refine ⟨(waitForResponse codec self timeoutMs (steps.map ClockedStep.toWaitStep)).2.2, ?_,
    m2, m3, m1⟩
  rw [← h1, ← h2]

theorem waitForResponseOps_all (timeoutMs : Int) (steps : List WaitStep)
    (self : TinyBeeController) :
    ∀ o ∈ waitForResponseOps self timeoutMs steps, o = SyncOp.waitForReadyRead := by
  induction steps generalizing self with
  | nil => simp [waitForResponseOps]
  | cons s rest ih =>
    unfold waitForResponseOps
    by_cases hs : s.elapsed < timeoutMs
    · by_cases hr : s.ready = true
      · by_cases hc : responseComplete (self.m_responseBuffer ++ s.data) = true
        · simp [hs, hr, hc]
        · simp only [hs, hr, hc, if_true, Bool.false_eq_true, if_false, List.mem_cons]
          rintro o (rfl | ho)
          · rfl
          · exact ih _ o ho
      · simp only [hs, hr, if_true, Bool.false_eq_true, if_false, List.mem_cons]
        rintro o (rfl | ho)
        · rfl
        · exact ih _ o ho
    · simp [hs]

end TinyBeeController

theorem heldAtWaits_waits (held : Bool) (ops rest : List SyncOp)
    (h : ∀ o ∈ ops, o = SyncOp.waitForReadyRead) :
    heldAtWaits held (ops ++ rest) = ops.map (fun _ => held) ++ heldAtWaits held rest := by
  induction ops with
  | nil => rfl
  | cons o os ih =>
    have ho : o = SyncOp.waitForReadyRead := h o (List.mem_cons_self _ _)
    subst ho
    show held :: heldAtWaits held (os ++ rest) = _
    rw [ih (fun x hx => h x (List.mem_cons_of_mem _ hx))]
    rfl

/-- Whatever the command and the device do, every `waitForReadyRead` of a
`sendCommand` is entered with `m_mutex` held. -/
theorem sendCommandOps_held (self : TinyBeeController) (cmd : GCodeCommand) (timeoutMs : Int)
    (dev : DeviceReply) :
    ∀ b ∈ heldAtWaits false (self.sendCommandOps cmd timeoutMs dev), b = true := by
  unfold TinyBeeController.sendCommandOps
  by_cases hc : self.isConnected = true
  · by_cases he : (self.buildCommandString cmd).isEmpty = true
    · simp [hc, he, heldAtWaits]
    · by_cases hw : dev.writeOk = true
      · by_cases hb : dev.bytesWritten = true
        · simp only [hc, he, hw, hb, Bool.not_true, Bool.false_eq_true, if_false]
          show ∀ b ∈ heldAtWaits true (TinyBeeController.waitForResponseOps _ timeoutMs dev.reads
            ++ [SyncOp.unlock]), b = true
          rw [heldAtWaits_waits true _ _ (TinyBeeController.waitForResponseOps_all _ _ _)]
          simp [heldAtWaits]
        · simp [hc, he, hw, hb, heldAtWaits]
      · simp [hc, he, hw, heldAtWaits]
  · simp [hc, heldAtWaits]

/-- C26 fails on a race between the two clock readings of a loop pass: with
timeout 2000, a pass whose loop test reads the clock at 1999 and whose wait
argument reads it at 2001 calls waitForReadyRead(-1), which has no timeout, so
when no bytes arrive waitForResponse never returns (the result `none`). With
the second reading at 2000 the wait runs out and waitForResponse returns
failure with an empty output and the state unchanged. -/
theorem waitForResponse_clock_race :
    waitForReadyRead (2000 - 2001) none = none ∧
    connectedEngine.waitForResponseClocked asciiCodec 2000 [⟨1999, 2001, none⟩] = none ∧
    connectedEngine.waitForResponseClocked asciiCodec 2000
        [⟨1999, 2000, none⟩, ⟨2000, 2000, none⟩]
      = some (false, [], connectedEngine) := by
  decide

/-- C27 fails: in a sendCommand on a connected engine whose write succeeds, the
QMutexLocker of line 121 has locked m_mutex before the wait for the response
and unlocks it only when the function returns, so the calling thread holds
m_mutex at the waitForReadyRead call. -/
theorem sendCommand_holds_mutex_while_waiting :
    connectedEngine.sendCommandOps (customCommand "M114".toList) 2000 (replyWith "ok\n")
      = [SyncOp.lock, SyncOp.waitForBytesWritten, SyncOp.waitForReadyRead, SyncOp.unlock] ∧
    heldAtWaits false
        (connectedEngine.sendCommandOps (customCommand "M114".toList) 2000 (replyWith "ok\n"))
      = [true] := by
  decide

/-! ## Lemmas on the direction buttons -/

theorem isDigit_plain (c : Char) (h : c.isDigit = true) : c ≠ '%' ∧ c ≠ '\n' := by
  constructor <;> (rintro rfl; exact absurd h (by decide))

theorem chopZeros_subset (ds : QString) : ∀ c ∈ chopZeros ds, c ∈ ds := by
  intro c hc
  unfold chopZeros at hc
  have h1 : c ∈ ds.reverse.dropWhile (fun c => c == '0') := List.mem_reverse.mp hc
  exact List.mem_reverse.mp ((List.dropWhile_suffix _).subset h1)

theorem significant6_isDigit (num den : Nat) :
    ∀ c ∈ (significant6 num den).1, c.isDigit = true := by
  intro c hc
  unfold significant6 at hc
  simp only at hc
  split at hc
  · simp only [List.mem_singleton] at hc
    rw [hc]
    rfl
  · exact decDigits_isDigit _ c (chopZeros_subset _ c hc)

theorem exponentText_plain (x : Int) : ∀ c ∈ exponentText x, c ≠ '%' ∧ c ≠ '\n' := by
  intro c hc
  unfold exponentText at hc
  rcases List.mem_cons.mp hc with rfl | hc
  · split <;> decide
  · split at hc
    · rcases List.mem_cons.mp hc with rfl | hc
      · decide
      · exact isDigit_plain c (decDigits_isDigit _ c hc)
    · exact isDigit_plain c (decDigits_isDigit _ c hc)

theorem layoutG_plain (ds : QString) (decpt : Int) (h : ∀ c ∈ ds, c.isDigit = true) :
    ∀ c ∈ layoutG ds decpt, c ≠ '%' ∧ c ≠ '\n' := by
  intro c hc
  have hd : ∀ x ∈ ds, x ≠ '%' ∧ x ≠ '\n' := fun x hx => isDigit_plain x (h x hx)
  unfold layoutG at hc
  split at hc
  · rcases List.mem_append.mp hc with hc | hc
    · split at hc
      · simp at hc
      · exact hd c hc
      · rename_i d rest _
        rcases List.mem_cons.mp hc with rfl | hc
        · exact hd _ (List.mem_cons_self _ _)
        · rcases List.mem_cons.mp hc with rfl | hc
          · decide
          · exact hd c (List.mem_cons_of_mem _ hc)
    · rcases List.mem_cons.mp hc with rfl | hc
      · decide
      · exact exponentText_plain _ c hc
  · split at hc
    · rcases List.mem_cons.mp hc with rfl | hc
      · decide
      · rcases List.mem_cons.mp hc with rfl | hc
        · decide
        · rcases List.mem_append.mp hc with hc | hc
          · rw [(List.mem_replicate.mp hc).2]
            decide
          · exact hd c hc
    · split at hc
      · rcases List.mem_append.mp hc with hc | hc
        · exact hd c hc
        · rw [(List.mem_replicate.mp hc).2]
          decide
      · rcases List.mem_append.mp hc with hc | hc
        · exact hd c (List.mem_of_mem_take hc)
        · rcases List.mem_cons.mp hc with rfl | hc
          · decide
          · exact hd c (List.mem_of_mem_drop hc)

theorem argG_plain (d : Double) : ∀ c ∈ argG d, c ≠ '%' ∧ c ≠ '\n' := by
  intro c hc
  cases d with
  | nan =>
    revert c
    decide
  | inf neg =>
    revert c
    cases neg <;> decide
  | finite neg m e =>
    unfold argG at hc
    simp only at hc
    split at hc
    · simp only [List.mem_singleton] at hc
      rw [hc]
      decide
    · rcases List.mem_append.mp hc with hc | hc
      · split at hc
        · simp only [List.mem_singleton] at hc
          rw [hc]
          decide
        · simp at hc
      · exact layoutG_plain _ _ (significant6_isDigit _ _) c hc

theorem jog_trimmed (mid : QString) :
    trimmed ("G91\nG1 ".toList ++ mid ++ " F1000\nG90".toList)
      = "G91\nG1 ".toList ++ mid ++ " F1000\nG90".toList := by
  have e : "G91\nG1 ".toList ++ mid ++ " F1000\nG90".toList
      = 'G' :: (("91\nG1 ".toList ++ mid ++ " F1000\nG9".toList) ++ ['0']) := by
    show 'G' :: _ = _
    simp
  rw [e]
  exact trimmed_of_ends 'G' '0' _ (by decide) (by decide)

theorem jog_command_two (a1 a2 : QString) (h : ∀ c ∈ a1, c ≠ '%') :
    arg (arg "G91\nG1 X%1 Y%2 F1000\nG90".toList a1) a2
      = "G91\nG1 ".toList ++ ('X' :: a1 ++ ' ' :: 'Y' :: a2) ++ " F1000\nG90".toList := by
  have e1 : arg "G91\nG1 X%1 Y%2 F1000\nG90".toList a1
      = ("G91\nG1 X".toList ++ a1) ++ " Y%2 F1000\nG90".toList := rfl
  have e2 : arg " Y%2 F1000\nG90".toList a2 = " Y".toList ++ a2 ++ " F1000\nG90".toList := rfl
  have hl : ∀ c ∈ "G91\nG1 X".toList, c ≠ '%' := by decide
  rw [e1, arg_append_left _ _ a2 (fun c hc =>
    (List.mem_append.mp hc).elim (hl c) (h c)), e2]
  simp

theorem jog_send (codec : TextCodec) (w : MotorControlWidget) (mid : QString)
    (hw : w.isConnected = true) :
    (w.sendCustomCommand codec ("G91\nG1 ".toList ++ mid ++ " F1000\nG90".toList)).serial.written
      = w.serial.written ++
          [codec.toUtf8 ("G91\nG1 ".toList ++ mid ++ " F1000\nG90\n".toList)] := by
  rw [sendCustomCommand_written codec w _ hw (by rw [jog_trimmed]; simp), jog_trimmed]
  simp

theorem argG_no_newline (d : Double) : '\n' ∉ argG d :=
  fun h => (argG_plain d _ h).2 rfl

/-! ## The direction buttons -/

/-- C28: for every step s, the lambda of each direction button of a connected
widget sends, in one write, the relative move with these signed components:
East X = -s, West X = +s, North Y = +s, South Y = -s, Z+ Z = -s, Z- Z = +s,
NE = (-s, +s), NW = (+s, +s), SE = (-s, -s), SW = (+s, -s); the text is the line
G91, then the single line "G1" with the axis words and " F1000", then the
line G90. -/
theorem jogClicked_moves (codec : TextCodec) (w : MotorControlWidget) (btn : JogButton)
    (s : Double) (hw : w.isConnected = true) :
    (w.jogClicked codec btn s).serial.written
      = w.serial.written ++ [codec.toUtf8 (relativeMoveText (jogComponents btn s))] ∧
    relativeMoveText (jogComponents btn s)
      = "G91\n".toList ++ moveLine (jogComponents btn s) ++ "\nG90\n".toList ∧
    '\n' ∉ moveLine (jogComponents btn s) ∧
    jogComponents .eastBtn s = (some s.neg, none, none) ∧
    jogComponents .westBtn s = (some s, none, none) ∧
    jogComponents .northBtn s = (none, some s, none) ∧
    jogComponents .southBtn s = (none, some s.neg, none) ∧
    jogComponents .zUpBtn s = (none, none, some s.neg) ∧
    jogComponents .zDownBtn s = (none, none, some s) ∧
    jogComponents .neBtn s = (some s.neg, some s, none) ∧
    jogComponents .nwBtn s = (some s, some s, none) ∧
    jogComponents .seBtn s = (some s.neg, some s.neg, none) ∧
    jogComponents .swBtn s = (some s, some s.neg, none) := by
  have hp : ∀ d : Double, ∀ c ∈ argG d, c ≠ '%' := fun d c hc => (argG_plain d c hc).1
  have one : ∀ (letter : Char) (d : Double),
      (w.sendCustomCommand codec
        ("G91\nG1 ".toList ++ (letter :: argG d) ++ " F1000\nG90".toList)).serial.written
        = w.serial.written ++ [codec.toUtf8
            ("G91\nG1 ".toList ++ (letter :: argG d) ++ " F1000\nG90\n".toList)] :=
    fun letter d => jog_send codec w _ hw
  have two : ∀ (d1 d2 : Double),
      (w.sendCustomCommand codec
        (arg (arg "G91\nG1 X%1 Y%2 F1000\nG90".toList (argG d1)) (argG d2))).serial.written
        = w.serial.written ++ [codec.toUtf8
            ("G91\nG1 ".toList ++ ('X' :: argG d1 ++ ' ' :: 'Y' :: argG d2) ++
              " F1000\nG90\n".toList)] := by
    intro d1 d2
    rw [jog_command_two _ _ (hp d1)]
    exact jog_send codec w _ hw
  refine ⟨?_, rfl, ?_, rfl, rfl, rfl, rfl, rfl, rfl, rfl, rfl, rfl, rfl⟩
  · cases btn
    · exact (one 'Y' s).trans (by simp [relativeMoveText, moveLine, axisWord, jogComponents])
    · exact (one 'Y' s.neg).trans (by simp [relativeMoveText, moveLine, axisWord, jogComponents])
    · exact (one 'X' s.neg).trans (by simp [relativeMoveText, moveLine, axisWord, jogComponents])
    · exact (one 'X' s).trans (by simp [relativeMoveText, moveLine, axisWord, jogComponents])
    · exact (two s.neg s).trans (by simp [relativeMoveText, moveLine, axisWord, jogComponents])
    · exact (two s s).trans (by simp [relativeMoveText, moveLine, axisWord, jogComponents])
    · exact (two s.neg s.neg).trans
        (by simp [relativeMoveText, moveLine, axisWord, jogComponents])
    · exact (two s s.neg).trans (by simp [relativeMoveText, moveLine, axisWord, jogComponents])
    · exact (one 'Z' s.neg).trans (by simp [relativeMoveText, moveLine, axisWord, jogComponents])
    · exact (one 'Z' s).trans (by simp [relativeMoveText, moveLine, axisWord, jogComponents])
  · have hn := argG_no_newline
    cases btn <;> simp [moveLine, axisWord, jogComponents, hn]

/-- Instance of C28: with step 5 the East button sends "G91", "G1 X-5 F1000",
"G90" and the SW button sends "G91", "G1 X5 Y-5 F1000", "G90". -/
theorem jogClicked_moves_witness :
    ((mkWidget true true).jogClicked asciiCodec .eastBtn (.ofInt 5)).serial.written
      = [asciiBytes "G91\nG1 X-5 F1000\nG90\n"] ∧
    ((mkWidget true true).jogClicked asciiCodec .swBtn (.ofInt 5)).serial.written
      = [asciiBytes "G91\nG1 X5 Y-5 F1000\nG90\n"] :=
  ⟨(jogClicked_moves asciiCodec (mkWidget true true) .eastBtn (.ofInt 5) (by decide)).1.trans
      (by decide),
    (jogClicked_moves asciiCodec (mkWidget true true) .swBtn (.ofInt 5) (by decide)).1.trans
      (by decide)⟩

/-! ## The two position decoders -/

/-- C29 fails on the documented M114 reply: from the line
"X:10.00 Y:15.00 Z:5.00 E:0.00 Count X:1000 Y:1500 Z:500" getPosition (the
last value stored for each key wins in parseResponse) yields (1000, 1500, 500),
while handleSerialRead (the leftmost match of the position pattern) yields
(10, 15, 5). On the line "X:10.00 Y:15.00 Z:5.00 E:0.00", where each key occurs
once, both yield (10, 15, 5). -/
theorem decoders_disagree_on_m114 :
    (connectedEngine.getPosition asciiCodec origin 2000
        (replyWith "X:10.00 Y:15.00 Z:5.00 E:0.00 Count X:1000 Y:1500 Z:500\n")).1 = true ∧
    (connectedEngine.getPosition asciiCodec origin 2000
        (replyWith "X:10.00 Y:15.00 Z:5.00 E:0.00 Count X:1000 Y:1500 Z:500\n")).2.1
      = { x := .ofInt 1000, y := .ofInt 1500, z := .ofInt 500 } ∧
    matchPosition "X:10.00 Y:15.00 Z:5.00 E:0.00 Count X:1000 Y:1500 Z:500".toList
      = some ("10.00".toList, "15.00".toList, "5.00".toList) ∧
    ((mkWidget true true).handleSerialRead asciiCodec
        (asciiBytes "X:10.00 Y:15.00 Z:5.00 E:0.00 Count X:1000 Y:1500 Z:500\n")).lastPosX
      = .ofInt 10 ∧
    ((mkWidget true true).handleSerialRead asciiCodec
        (asciiBytes "X:10.00 Y:15.00 Z:5.00 E:0.00 Count X:1000 Y:1500 Z:500\n")).lastPosY
      = .ofInt 15 ∧
    ((mkWidget true true).handleSerialRead asciiCodec
        (asciiBytes "X:10.00 Y:15.00 Z:5.00 E:0.00 Count X:1000 Y:1500 Z:500\n")).lastPosZ
      = .ofInt 5 ∧
    (connectedEngine.getPosition asciiCodec origin 2000
        (replyWith "X:10.00 Y:15.00 Z:5.00 E:0.00\n")).2.1
      = { x := .ofInt 10, y := .ofInt 15, z := .ofInt 5 } ∧
    matchPosition "X:10.00 Y:15.00 Z:5.00 E:0.00".toList
      = some ("10.00".toList, "15.00".toList, "5.00".toList) := by
  refine ⟨?_, ?_, ?_, ?_, ?_, ?_, ?_, ?_⟩ <;> decide

/-! ## Atomic position output -/

namespace TinyBeeController

/-- The two ways a `getPosition` ends, whatever the caller's `pos` holds: it
fails, hands `pos` back and has emitted nothing but `errorOccurred`; or it
succeeds with three numbers read from the response, which it stores and emits
as one `positionUpdated`. -/
theorem getPosition_shape (codec : TextCodec) (self : TinyBeeController) (timeoutMs : Int)
    (dev : DeviceReply) :
    (∃ (self1 : TinyBeeController) (es : List Signal), self1.emitted = self.emitted ++ es ∧
      (∀ s ∈ es, s.isErrorOccurred = true) ∧
      ∀ pos, getPosition codec self pos timeoutMs dev = (false, pos, self1)) ∨
    (∃ (self1 : TinyBeeController) (xText yText zText : QString), self1.emitted = self.emitted ∧
      (toDouble xText).2 = true ∧ (toDouble yText).2 = true ∧ (toDouble zText).2 = true ∧
      ∀ pos, getPosition codec self pos timeoutMs dev
        = (true, { x := (toDouble xText).1, y := (toDouble yText).1, z := (toDouble zText).1 },
            self1.emit (.positionUpdated (toDouble xText).1 (toDouble yText).1
              (toDouble zText).1))) := by
  have single : ∀ err : QString, ∀ s ∈ [Signal.errorOccurred err], s.isErrorOccurred = true := by
    intro err s hs
    rw [List.mem_singleton.mp hs]
    rfl
  rcases sendCommand_cases codec self m114 (some []) timeoutMs dev with
    ⟨err, e⟩ | e | ⟨err, buf, e⟩ | ⟨resp, e⟩
  · refine Or.inl ⟨self.emit (.errorOccurred err), [Signal.errorOccurred err], rfl, single err,
      fun pos => ?_⟩
    unfold getPosition
    rw [e]
  · refine Or.inl ⟨self, [], (List.append_nil _).symm, by simp, fun pos => ?_⟩
    unfold getPosition
    rw [e]
  · refine Or.inl ⟨{ self with
        m_serial := self.m_serial.write (codec.toUtf8 (buildCommandString self m114)),
        m_responseBuffer := buf,
        emitted := self.emitted ++ [Signal.errorOccurred err] }, [Signal.errorOccurred err], rfl,
      single err, fun pos => ?_⟩
    unfold getPosition
    rw [e]
  · cases hp : parseResponse
        { self with
          m_serial := self.m_serial.write (codec.toUtf8 (buildCommandString self m114)),
          m_responseBuffer := [] } resp [] with
    | mk okp parsed =>
      cases okp with
      | false =>
        refine Or.inl ⟨{ self with
            m_serial := self.m_serial.write (codec.toUtf8 (buildCommandString self m114)),
            m_responseBuffer := [] }, [], (List.append_nil _).symm, by simp, fun pos => ?_⟩
        unfold getPosition
        rw [e]
        simp only [Option.map_some', Option.getD_some, hp]
      | true =>
        by_cases hf : ((toDouble (parsed.value "X".toList)).2 = true ∧
            (toDouble (parsed.value "Y".toList)).2 = true) ∧
            (toDouble (parsed.value "Z".toList)).2 = true
        · refine Or.inr ⟨{ self with
              m_serial := self.m_serial.write (codec.toUtf8 (buildCommandString self m114)),
              m_responseBuffer := [] }, parsed.value "X".toList, parsed.value "Y".toList,
            parsed.value "Z".toList, rfl, hf.1.1, hf.1.2, hf.2, fun pos => ?_⟩
          unfold getPosition
          rw [e]
          simp only [Option.map_some', Option.getD_some, hp, hf.1.1, hf.1.2, hf.2, Bool.not_true,
            Bool.or_self, Bool.false_eq_true, if_false]
        · refine Or.inl ⟨{ self with
              m_serial := self.m_serial.write (codec.toUtf8 (buildCommandString self m114)),
              m_responseBuffer := [] }, [], (List.append_nil _).symm, by simp, fun pos => ?_⟩
          unfold getPosition
          rw [e]
          have hf2 : (!(toDouble (parsed.value "X".toList)).2 ||
              !(toDouble (parsed.value "Y".toList)).2 ||
              !(toDouble (parsed.value "Z".toList)).2) = true := by
            revert hf
            cases (toDouble (parsed.value "X".toList)).2 <;>
              cases (toDouble (parsed.value "Y".toList)).2 <;>
              cases (toDouble (parsed.value "Z".toList)).2 <;> simp
          simp only [Option.map_some', Option.getD_some, hp, hf2, if_true]

end TinyBeeController

/-- C30: getPosition is atomic in its output. Whenever it returns false the
caller's MotorPosition is exactly as it was and no positionUpdated has been
emitted (the only new signals are errorOccurred); whenever it returns true the
output holds three numbers read successfully from the response, emitted as one
positionUpdated, and neither the result flag nor the output depends on what the
caller's MotorPosition held before, so all three fields are overwritten. -/
theorem getPosition_atomic (codec : TextCodec) (self : TinyBeeController) (pos : MotorPosition)
    (timeoutMs : Int) (dev : DeviceReply) :
    ((self.getPosition codec pos timeoutMs dev).1 = false →
      (self.getPosition codec pos timeoutMs dev).2.1 = pos ∧
      ∃ es, (self.getPosition codec pos timeoutMs dev).2.2.emitted = self.emitted ++ es ∧
        ∀ s ∈ es, s.isPositionUpdated = false) ∧
    ((self.getPosition codec pos timeoutMs dev).1 = true →
      (∃ xText yText zText,
        (toDouble xText).2 = true ∧ (toDouble yText).2 = true ∧ (toDouble zText).2 = true ∧
        (self.getPosition codec pos timeoutMs dev).2.1
          = { x := (toDouble xText).1, y := (toDouble yText).1, z := (toDouble zText).1 } ∧
        (self.getPosition codec pos timeoutMs dev).2.2.emitted
          = self.emitted ++ [Signal.positionUpdated (toDouble xText).1 (toDouble yText).1
              (toDouble zText).1]) ∧
      ∀ other, (self.getPosition codec other timeoutMs dev).2.1
        = (self.getPosition codec pos timeoutMs dev).2.1) ∧
    (∀ other, (self.getPosition codec other timeoutMs dev).1
      = (self.getPosition codec pos timeoutMs dev).1) := by
  rcases TinyBeeController.getPosition_shape codec self timeoutMs dev with
    ⟨self1, es, hem, hes, h⟩ | ⟨self1, xText, yText, zText, hem, hx, hy, hz, h⟩
  · refine ⟨fun _ => ?_, fun ht => ?_, fun other => ?_⟩
    · rw [h pos]
      refine ⟨rfl, es, hem, fun s hs => ?_⟩
      have := hes s hs
      cases s <;> first | rfl | simp [Signal.isErrorOccurred] at this
    · rw [h pos] at ht
      simp at ht
    · rw [h other, h pos]
  · refine ⟨fun hf => ?_, fun _ => ⟨⟨xText, yText, zText, hx, hy, hz, ?_, ?_⟩, fun other => ?_⟩,
      fun other => ?_⟩
    · rw [h pos] at hf
      simp at hf
    · rw [h pos]
    · rw [h pos]
      show (self1.emit _).emitted = _
      rw [TinyBeeController.emit, hem]
    · rw [h other, h pos]
    · rw [h other, h pos]

/-- Instance of C30: an answer without a Z value fails and leaves the caller's
position (1, 2, 3) untouched; a full answer overwrites all three fields. -/
theorem getPosition_atomic_witness :
    (connectedEngine.getPosition asciiCodec ⟨.ofInt 1, .ofInt 2, .ofInt 3⟩ 2000
        (replyWith "X:4 Y:5\n")).2.1 = ⟨.ofInt 1, .ofInt 2, .ofInt 3⟩ ∧
    ∀ other, (connectedEngine.getPosition asciiCodec other 2000
        (replyWith "X:4 Y:5 Z:6\n")).2.1
      = (connectedEngine.getPosition asciiCodec ⟨.ofInt 1, .ofInt 2, .ofInt 3⟩ 2000
        (replyWith "X:4 Y:5 Z:6\n")).2.1 :=
  ⟨((getPosition_atomic asciiCodec connectedEngine ⟨.ofInt 1, .ofInt 2, .ofInt 3⟩ 2000
      (replyWith "X:4 Y:5\n")).1 (by decide)).1,
    ((getPosition_atomic asciiCodec connectedEngine ⟨.ofInt 1, .ofInt 2, .ofInt 3⟩ 2000
      (replyWith "X:4 Y:5 Z:6\n")).2.1 (by decide)).2⟩

/-! ## The wait with the slot connected -/

namespace TinyBeeController

/-- With `m_mutex` free at the wait the slot only moves the arrived bytes into
the response buffer, and `waitForResponse` with the slot connected does what
the loop without the slot does. -/
theorem waitForResponseConnected_free (codec : TextCodec) (timeoutMs : Int)
    (steps : List WaitStep) (self : TinyBeeController) :
    waitForResponseConnected codec self timeoutMs false steps
      = some (waitForResponse codec self timeoutMs steps) := by
  induction steps generalizing self with
  | nil => rfl
  | cons s rest ih =>
    unfold waitForResponseConnected waitForResponse
    by_cases hs : s.elapsed < timeoutMs
    · by_cases hr : s.ready = true
      · by_cases hc : responseComplete (self.m_responseBuffer ++ s.data) = true
        · simp [hs, hr, hc, onReadyRead]
        · simp only [hs, hr, hc, if_true, onReadyRead, Bool.false_eq_true, if_false,
            List.append_nil]
          exact ih _
      · simp only [hs, hr, if_true, Bool.false_eq_true, if_false]
        exact ih _
    · simp [hs]

/-- With `m_mutex` held at the wait, as it is inside `sendCommand`, the first
pass before the timeout in which bytes arrive never ends: the slot blocks on
the mutex inside `waitForReadyRead`. -/
theorem waitForResponseConnected_held (codec : TextCodec) (timeoutMs : Int)
    (pre : List WaitStep) (ev : WaitStep) (post : List WaitStep) (self : TinyBeeController)
    (hpre : ∀ s ∈ pre, s.elapsed < timeoutMs ∧ s.ready = false)
    (hev : ev.elapsed < timeoutMs) (hready : ev.ready = true) :
    waitForResponseConnected codec self timeoutMs true (pre ++ ev :: post) = none := by
  induction pre with
  | nil =>
    show waitForResponseConnected codec self timeoutMs true (ev :: post) = none
    unfold waitForResponseConnected
    simp [hev, hready, onReadyRead]
  | cons s rest ih =>
    have hs := hpre s (List.mem_cons_self _ _)
    show waitForResponseConnected codec self timeoutMs true (s :: (rest ++ ev :: post)) = none
    unfold waitForResponseConnected
    simp only [hs.1, hs.2, if_true, Bool.false_eq_true, if_false]
    exact ih (fun x hx => hpre x (List.mem_cons_of_mem _ hx))

end TinyBeeController

/-- C9 fails in the program: sendCommand holds m_mutex at the wait for the
response, and when the reply "ok" with its newline arrives the port emits
readyRead inside waitForReadyRead, the slot onReadyRead takes the bytes and then
waits for m_mutex, which its own thread holds, so waitForResponse never returns
(the result `none`) instead of succeeding at this event. With the mutex free
the same event completes the response. -/
theorem waitForResponse_blocks_in_slot :
    heldAtWaits false
        (connectedEngine.sendCommandOps (customCommand "M114".toList) 2000 (replyWith "ok\n"))
      = [true] ∧
    connectedEngine.onReadyRead (asciiBytes "ok\n") true = none ∧
    connectedEngine.waitForResponseConnected asciiCodec 2000 true [readText 5 "ok\n"] = none ∧
    connectedEngine.waitForResponseConnected asciiCodec 2000 false [readText 5 "ok\n"]
      = some (true, "ok\n".toList, connectedEngine) := by
  decide

end ControlMotor
